import Mathlib

/-!
Verification development for millix-performance-test.

Shallow embedding of the transaction construction of `client/client.go`
(`SendMillix`, `SendMillixFromOutput`) and of the load client of
`load/client.go` (`PrepareOutputs`, `prepareTransactions`, the dispatch
worker of `SendTransactions`).

Conventions.

* Go's `uint` is a natural number below `uintMod = 2 ^ 64`; every `+` and `-`
  of the source on `uint` is `uadd` / `usub`, which reduce modulo `uintMod`.
* A Go struct is a Lean structure with the same field names; a field that a
  composite literal leaves out has Go's zero value (`""`, `0`), which is the
  default of the Lean field.
* The remote node (every method of `Client` that performs an HTTP request) is
  an oracle `NodeAPI`: each answer is an arbitrary function of the list of calls
  made so far and of the arguments of the call. The list of calls is threaded
  through the embedded functions, so it is at the same time the state of the
  remote node and the record of what the code asked it.
* Loops whose counter is a `uint` compared with `<=` are embedded with the
  wrapping increment of the source and a fuel argument; `none` means that the
  fuel ran out.
* `PrepareOutputs` records, next to the state of the source, one `Round` per
  round it starts (the root spent, the unsigned transaction built, the signed
  transaction obtained); the record is only read by the theorems.
-/

namespace Millix

/-! ## Machine integers -/

/-- Modulus of Go's `uint` (64-bit platform). -/
def uintMod : Nat := 2 ^ 64

/-- Go's `a + b` on `uint`. -/
def uadd (a b : Nat) : Nat := (a + b) % uintMod

/-- Go's `a - b` on `uint`. -/
def usub (a b : Nat) : Nat := (a + (uintMod - b % uintMod)) % uintMod

/-! ## Data model (`client/client.go`) -/

/-- Go's `error` values built with `errors.New` and `errors.Wrap`. -/
inductive Err where
  | new (msg : String)
  | wrap (inner : Err) (msg : String)
deriving DecidableEq, Repr

/-- The struct `client.AddressInfo`; the map `AddressAttribute` is an association list. -/
structure AddressInfo where
  Address : String := ""
  AddressBase : String := ""
  AddressVersion : String := ""
  AddressKeyIdentifier : String := ""
  WalletID : String := ""
  AddressAttribute : List (String × String) := []
deriving DecidableEq, Repr

/-- The struct `client.TransactionOutput`. -/
structure TransactionOutput where
  TransactionID : String := ""
  ShardID : String := ""
  OutputPosition : Nat := 0
  Address : String := ""
  AddressBase : String := ""
  AddressKeyIdentifier : String := ""
  Amount : Nat := 0
  TransactionDate : Nat := 0
  AddressVersion : String := ""
deriving DecidableEq, Repr

/-- The struct `client.NewTransactionOutput`. -/
structure NewTransactionOutput where
  OutputPosition : Nat := 0
  AddressBase : String := ""
  AddressKeyIdentifier : String := ""
  Amount : Nat := 0
  AddressVersion : String := ""
deriving DecidableEq, Repr

/-- The struct `client.TransactionInput`. -/
structure TransactionInput where
  AddressBase : String := ""
  AddressKeyIdentifier : String := ""
  AddressVersion : String := ""
  OutputPosition : Nat := 0
  OutputTransactionDate : Nat := 0
  OutputTransactionID : String := ""
  OutputShardID : String := ""
  InputPosition : Nat := 0
deriving DecidableEq, Repr

/-- The struct `client.Transaction` (a signed transaction, as the node returns it). -/
structure Transaction where
  TransactionID : String := ""
  Inputs : List TransactionInput := []
  Outputs : List NewTransactionOutput := []
  SignatureList : List (List (String × String)) := []
  ParentList : List String := []
  PayloadHash : String := ""
  TransactionDate : String := ""
  ShardID : String := ""
  Version : String := ""
  NodeIDOrigin : String := ""
deriving DecidableEq, Repr

/-- The struct `client.UnsignedTransaction`. -/
structure UnsignedTransaction where
  TransactionVersion : String := ""
  OutputList : List TransactionOutput := []
  InputList : List TransactionInput := []
deriving DecidableEq, Repr

/-- The struct `client.ReceiverAmount`. -/
structure ReceiverAmount where
  KeyIdentifier : String := ""
  AddressBase : String := ""
  Amount : Nat := 0
deriving DecidableEq, Repr

/-- The struct `client.Client` without its HTTP client. -/
structure Client where
  ip : String := ""
  port : String := ""
  nodeID : String := ""
  nodeSignature : String := ""
  addressBase : String := ""
  keyIdentifier : String := ""
  address : String := ""
deriving DecidableEq, Repr

/-- The constructor `client.NewClient`. -/
def NewClient (ip port nodeID nodeSignature addressBase keyIdentifier : String) : Client :=
  { ip := ip, port := port, nodeID := nodeID, nodeSignature := nodeSignature,
    addressBase := addressBase, keyIdentifier := keyIdentifier,
    address := addressBase ++ "lal" ++ keyIdentifier }

/-- A Go `map[string]string`, as the association list of its entries. -/
abbrev StrMap := List (String × String)

/-- Go's `m[k]` on a `map[string]string`: the zero value when the key is absent. -/
def StrMap.get (m : StrMap) (k : String) : String :=
  match m.lookup k with
  | some v => v
  | none => ""

/-! ## The remote node -/

/-- One request to the remote node, with its arguments. -/
inductive Call where
  | verifyNodeID
  | getUnspent (addressKeyIdentifier : String)
  | getPrivateKey (address : String)
  | getAddressInfo (address : String)
  | getBalance (address : String)
  | generateNewAddress
  | sign (unsignedTx : UnsignedTransaction) (keyMap publicKeyMap : StrMap)
  | submit (tx : Transaction)
deriving DecidableEq, Repr

/-- The remote node: the result of each `Client` method that performs a request,
as a function of the calls made before it. `none` is Go's `nil` error. A method returns
either a value or an error; a reply whose decoding leaves a nil pointer that the client
then dereferences (a JSON `null` body) is outside this model. -/
structure NodeAPI where
  VerifyNodeID : List Call → Option Err
  GetUnspentTransactionOutputs : List Call → String → Except Err (List TransactionOutput)
  GetPrivateKey : List Call → String → Except Err String
  GetAddressInfo : List Call → String → Except Err AddressInfo
  GetBalance : List Call → String → Except Err (Nat × Nat)
  GenerateNewAddress : List Call → Except Err AddressInfo
  SignTransaction : List Call → UnsignedTransaction → StrMap → StrMap → Except Err Transaction
  SubmitTransaction : List Call → Transaction → Option Err

/-- How a Go function ends: it returns a value, returns an error, or panics. -/
inductive Outcome (α : Type) where
  | ok (a : α)
  | error (e : Err)
  | panic (msg : String)
deriving DecidableEq, Repr

/-! ## Transaction construction (`client/client.go`) -/

/-- The loop `for _, receiverAmount := range receiverAmounts { neededAmount += receiverAmount.Amount }`. -/
def neededAmount (receiverAmounts : List ReceiverAmount) : Nat :=
  receiverAmounts.foldl (fun acc r => uadd acc r.Amount) 0

/-- The output literal built for one receiver (both `SendMillix` and `SendMillixFromOutput`). -/
def receiverOutput (r : ReceiverAmount) : TransactionOutput :=
  { AddressBase := r.AddressBase, AddressVersion := "lal",
    AddressKeyIdentifier := r.KeyIdentifier, Amount := r.Amount }

/-- The literal `changeOutput` (both `SendMillix` and `SendMillixFromOutput`). -/
def changeOutput (c : Client) (change : Nat) : TransactionOutput :=
  { AddressKeyIdentifier := c.keyIdentifier, AddressBase := c.keyIdentifier,
    Amount := change, AddressVersion := "lal" }

/-- The unsigned transaction of `SendMillixFromOutput` (client.go lines 170-214). -/
def unsignedFromOutput (c : Client) (output : TransactionOutput)
    (receiverAmounts : List ReceiverAmount) : UnsignedTransaction :=
  let needed := neededAmount receiverAmounts
  let input : TransactionInput :=
    { AddressBase := c.keyIdentifier, AddressKeyIdentifier := c.keyIdentifier,
      AddressVersion := "lal", OutputPosition := output.OutputPosition,
      OutputShardID := output.ShardID, OutputTransactionDate := output.TransactionDate,
      OutputTransactionID := output.TransactionID }
  let change := usub output.Amount needed
  let newOutputs : List TransactionOutput := if change > 0 then [changeOutput c change] else []
  let newOutputs := newOutputs ++ receiverAmounts.map receiverOutput
  { TransactionVersion := "la0l", OutputList := newOutputs, InputList := [input] }

/-- The method `Client.SendMillixFromOutput`: the pair `(tx, err)` it returns and the calls made. -/
def SendMillixFromOutput (api : NodeAPI) (c : Client) (h : List Call)
    (output : TransactionOutput) (receiverAmounts : List ReceiverAmount) :
    (Option Transaction × Option Err) × List Call :=
  let unsignedTx := unsignedFromOutput c output receiverAmounts
  let h1 := h ++ [Call.getPrivateKey c.address]
  match api.GetPrivateKey h c.address with
  | .error err => ((none, some err), h1)
  | .ok privKey =>
    let keyMap : StrMap := [(c.keyIdentifier, privKey)]
    let h2 := h1 ++ [Call.getAddressInfo c.address]
    match api.GetAddressInfo h1 c.address with
    | .error err => ((none, some err), h2)
    | .ok info =>
      let publicKeyMap : StrMap := [(info.AddressBase, StrMap.get info.AddressAttribute "key_public")]
      let h3 := h2 ++ [Call.sign unsignedTx keyMap publicKeyMap]
      match api.SignTransaction h2 unsignedTx keyMap publicKeyMap with
      | .error err => ((none, some (Err.wrap err "Failed to sign transaction")), h3)
      | .ok tx =>
        match api.SubmitTransaction h3 tx with
        | some _ => ((none, none), h3 ++ [Call.submit tx])
        | none => ((some tx, none), h3 ++ [Call.submit tx])

/-- The order `sort.Slice` is called with: `firstOutput.Amount > secondOutput.Amount`
sorts by descending amount. -/
def amountGe (a b : TransactionOutput) : Prop := b.Amount ≤ a.Amount

instance : DecidableRel amountGe := fun a b => inferInstanceAs (Decidable (b.Amount ≤ a.Amount))

instance : IsTotal TransactionOutput amountGe := ⟨fun a b => Nat.le_total b.Amount a.Amount⟩

instance : IsTrans TransactionOutput amountGe :=
  ⟨fun _ _ _ hab hbc => Nat.le_trans hbc hab⟩

/-- Go's `sort.Slice(outputs, less)` with `less x y = outputs[x].Amount > outputs[y].Amount`.
The library promises a permutation in which no later element is `less` than an earlier one
and leaves the order of equal amounts open; this model is insertion sort, and the theorems
below use only `sortSlice_perm` and `sortSlice_sorted`. -/
def sortSlice (outputs : List TransactionOutput) : List TransactionOutput :=
  outputs.insertionSort amountGe

/-- The selection loop of `SendMillix` (client.go lines 292-302) from the current
`chosenAmount` and `chosenOutputs` over the outputs still to visit. -/
def chooseOutputs (needed : Nat) :
    List TransactionOutput → Nat → List TransactionOutput → Nat × List TransactionOutput
  | [], chosenAmount, chosenOutputs => (chosenAmount, chosenOutputs)
  | output :: rest, chosenAmount, chosenOutputs =>
    let chosenAmount := uadd chosenAmount output.Amount
    let chosenOutputs := chosenOutputs ++ [output]
    if chosenAmount ≥ needed then (chosenAmount, chosenOutputs)
    else chooseOutputs needed rest chosenAmount chosenOutputs

/-- The selection of `SendMillix` on the sorted outputs: `(chosenAmount, chosenOutputs)`. -/
def selectOutputs (needed : Nat) (sorted : List TransactionOutput) :
    Nat × List TransactionOutput :=
  chooseOutputs needed sorted 0 []

/-- The input literal `SendMillix` builds for a chosen output. -/
def inputOfOutput (output : TransactionOutput) : TransactionInput :=
  { AddressBase := output.AddressKeyIdentifier, AddressKeyIdentifier := output.AddressKeyIdentifier,
    AddressVersion := "lal", OutputPosition := output.OutputPosition,
    OutputShardID := output.ShardID, OutputTransactionDate := output.TransactionDate,
    OutputTransactionID := output.TransactionID }

/-- The loops `for _, o := range ... { total += o.Amount }` of the sanity check. -/
def totalAmount (os : List TransactionOutput) : Nat :=
  os.foldl (fun acc o => uadd acc o.Amount) 0

/-- What `SendMillix` has built when it reaches `SignTransaction`. -/
structure Built where
  chosenOutputs : List TransactionOutput
  chosenAmount : Nat
  change : Nat
  unsignedTx : UnsignedTransaction
deriving DecidableEq, Repr

/-- The construction of `SendMillix` (client.go lines 246-249 and 277-386) from the
result `outputs` of `GetUnspentTransactionOutputs`. The retrieval of the keys of the chosen
addresses (lines 304-321) lies between the selection and the construction and does not
touch the transaction; it is left to the caller. -/
def buildSendMillix (c : Client) (outputs : List TransactionOutput)
    (receiverAmounts : List ReceiverAmount) : Outcome Built :=
  let needed := neededAmount receiverAmounts
  let outputs := sortSlice outputs
  if outputs.length = 0 then Outcome.error (Err.new "No outputs to consume")
  else
    let sel := selectOutputs needed outputs
    let chosenAmount := sel.1
    let chosenOutputs := sel.2
    let inputs := chosenOutputs.map inputOfOutput
    let newOutputs := receiverAmounts.map receiverOutput
    let change := usub chosenAmount needed
    let newOutputs := if change > 0 then newOutputs ++ [changeOutput c change] else newOutputs
    let totalInput := totalAmount chosenOutputs
    let totalOutput := totalAmount newOutputs
    if totalInput ≠ totalOutput then Outcome.panic "Total input vs Total output"
    else
      Outcome.ok
        { chosenOutputs := chosenOutputs, chosenAmount := chosenAmount, change := change,
          unsignedTx :=
            { TransactionVersion := "la0l", OutputList := newOutputs, InputList := inputs } }

/-- Sum of the amounts of a list of outputs, as a natural number (no wraparound). -/
def sumAmounts (os : List TransactionOutput) : Nat := (os.map (fun o => o.Amount)).sum

/-! ## The load client (`load/client.go`) -/

/-- The struct `load.LoadClient`. -/
structure LoadClient where
  nodeIP : String := ""
  nodePort : String := ""
  nodeID : String := ""
  nodeSignature : String := ""
  addressBase : String := ""
  keyIdentifier : String := ""
  receiverAddressBase : String := ""
  receiverKeyIdentifier : String := ""
  address : String := ""
  outputsPerTxCount : Nat := 0
  goroutineCount : Nat := 0
  keyMap : StrMap := []
  publicKeyMap : StrMap := []
  millixClient : Client := {}
  preparedTransactions : List Transaction := []
deriving DecidableEq, Repr

/-- The constructor `load.NewLoadClient`. -/
def NewLoadClient (millixClient : Client)
    (nodeIP nodePort nodeID nodeSignature addressBase keyIdentifier receiverAddressBase
      receiverKeyIdentifier : String) (outputsPerTxCount goroutineCount : Nat) : LoadClient :=
  { nodeIP := nodeIP, nodePort := nodePort, nodeID := nodeID, nodeSignature := nodeSignature,
    addressBase := addressBase, keyIdentifier := keyIdentifier,
    receiverAddressBase := receiverAddressBase, receiverKeyIdentifier := receiverKeyIdentifier,
    address := addressBase ++ "lal" ++ keyIdentifier, millixClient := millixClient,
    outputsPerTxCount := outputsPerTxCount, goroutineCount := goroutineCount }

/-- One round of `PrepareOutputs`, recorded for the proofs: the root output the round
spends, the unsigned transaction `SendMillixFromOutput` builds from it, and the signed
transaction the round obtained (`none` when the round failed). -/
structure Round where
  root : TransactionOutput
  unsignedTx : UnsignedTransaction
  tx : Option Transaction
deriving DecidableEq, Repr

/-- The state in which the round loop of `PrepareOutputs` ends. -/
structure RoundsRun where
  outcome : Outcome Unit
  transactions : List Transaction
  calls : List Call
  rounds : List Round
deriving DecidableEq, Repr

/-- The largest length a Go slice can have: `len` is an `int`, 64 bits wide. A loop that
appends more elements than that does not complete: the program ends with the runtime panic
"growslice: len out of range", or out of memory before. -/
def maxSliceLen : Nat := 2 ^ 63 - 1

/-- The receiver list of one round (load/client.go lines 128-131), when it can be built:
`outputPerTxCount` outputs of amount 1 to the participant itself. -/
def roundReceivers (lc : LoadClient) (outputPerTxCount : Nat) : List ReceiverAmount :=
  List.replicate outputPerTxCount
    { Amount := 1, AddressBase := lc.addressBase, KeyIdentifier := lc.keyIdentifier }

/-- The root of the next round, synthesised from the transaction just signed
(load/client.go lines 145-152). -/
def nextRoot (outputPerTxCount : Nat) (chosenOutput : TransactionOutput) (tx : Transaction) :
    TransactionOutput :=
  { Amount := usub chosenOutput.Amount outputPerTxCount,
    TransactionID := tx.TransactionID,
    ShardID := tx.ShardID,
    AddressVersion := chosenOutput.AddressVersion,
    AddressBase := chosenOutput.AddressBase,
    Address := chosenOutput.Address }

/-- The loop `for i := uint(1); i <= rounds; i++` of `PrepareOutputs` (load/client.go lines
125-153), from the counter `i`, the current `chosenOutput`, the `transactions` collected, the
calls made and the rounds recorded so far. A round first appends `outputPerTxCount`
receivers to a slice (lines 128-131); beyond `maxSliceLen` the slice cannot be built and the
program ends there. Up to that length memory is taken to suffice. -/
def roundsLoop (api : NodeAPI) (lc : LoadClient) (outputPerTxCount rounds : Nat) :
    Nat → Nat → TransactionOutput → List Transaction → List Call → List Round →
      Option RoundsRun
  | 0, _, _, _, _, _ => none
  | fuel + 1, i, chosenOutput, transactions, h, rs =>
    if i ≤ rounds then
      if maxSliceLen < outputPerTxCount then
        some { outcome := Outcome.panic "growslice: len out of range",
               transactions := transactions, calls := h, rounds := rs }
      else
        let receiverAmounts := roundReceivers lc outputPerTxCount
        let unsignedTx := unsignedFromOutput lc.millixClient chosenOutput receiverAmounts
        match SendMillixFromOutput api lc.millixClient h chosenOutput receiverAmounts with
        | ((_, some err), h1) =>
          some { outcome := Outcome.error (Err.wrap err "Failed to send millix"),
                 transactions := transactions, calls := h1,
                 rounds := rs ++ [{ root := chosenOutput, unsignedTx := unsignedTx, tx := none }] }
        | ((none, none), h1) =>
          some { outcome := Outcome.panic "No transaction",
                 transactions := transactions, calls := h1,
                 rounds := rs ++ [{ root := chosenOutput, unsignedTx := unsignedTx, tx := none }] }
        | ((some tx, none), h1) =>
          roundsLoop api lc outputPerTxCount rounds fuel (uadd i 1)
            (nextRoot outputPerTxCount chosenOutput tx) (transactions ++ [tx]) h1
            (rs ++ [{ root := chosenOutput, unsignedTx := unsignedTx, tx := some tx }])
    else
      some { outcome := Outcome.ok (), transactions := transactions, calls := h, rounds := rs }

/-- The state in which `PrepareOutputs` ends. -/
structure PrepareRun where
  outcome : Outcome Unit
  lc : LoadClient
  calls : List Call
  rounds : List Round
deriving DecidableEq, Repr

/-- The method `LoadClient.PrepareOutputs`. `h` is the list of calls made to the node before;
`fuel` bounds the iterations of the round loop. -/
def PrepareOutputs (api : NodeAPI) (lc : LoadClient) (fuel : Nat) (h : List Call)
    (totalOutputCount outputPerTxCount : Nat) : Option PrepareRun :=
  let h1 := h ++ [Call.verifyNodeID]
  match api.VerifyNodeID h with
  | some err =>
    some { outcome := Outcome.error (Err.wrap err "Failed to verify node id"),
           lc := lc, calls := h1, rounds := [] }
  | none =>
    let h2 := h1 ++ [Call.getUnspent lc.keyIdentifier]
    match api.GetUnspentTransactionOutputs h1 lc.keyIdentifier with
    | .error err =>
      some { outcome := Outcome.error (Err.wrap err "Failed to get outputs"),
             lc := lc, calls := h2, rounds := [] }
    | .ok outputs =>
      if outputs.length = 0 then
        some { outcome := Outcome.error (Err.new "No outputs"), lc := lc, calls := h2, rounds := [] }
      else
        match sortSlice outputs with
        | [] =>
          some { outcome := Outcome.panic "index out of range", lc := lc, calls := h2,
                 rounds := [] }
        | chosenOutput :: _ =>
          if chosenOutput.Amount < totalOutputCount then
            some { outcome := Outcome.error (Err.new "Insufficient fund in the biggest output"),
                   lc := lc, calls := h2, rounds := [] }
          else if outputPerTxCount = 0 then
            some { outcome := Outcome.panic "integer divide by zero", lc := lc, calls := h2,
                   rounds := [] }
          else
            let rounds := totalOutputCount / outputPerTxCount
            match roundsLoop api lc outputPerTxCount rounds fuel 1 chosenOutput [] h2 [] with
            | none => none
            | some run =>
              match run.outcome with
              | Outcome.ok _ =>
                let h3 := run.calls ++ [Call.getUnspent lc.keyIdentifier]
                match api.GetUnspentTransactionOutputs run.calls lc.keyIdentifier with
                | .error err =>
                  some { outcome := Outcome.error (Err.wrap err "Failed to get outputs"),
                         lc := lc, calls := h3, rounds := run.rounds }
                | .ok _ =>
                  some { outcome := Outcome.ok (),
                         lc := { lc with preparedTransactions := run.transactions },
                         calls := h3, rounds := run.rounds }
              | Outcome.error err =>
                some { outcome := Outcome.error err, lc := lc, calls := run.calls,
                       rounds := run.rounds }
              | Outcome.panic msg =>
                some { outcome := Outcome.panic msg, lc := lc, calls := run.calls,
                       rounds := run.rounds }

/-- The unsigned transaction `prepareTransactions` builds for output position `i` of a
prepared transaction (load/client.go lines 174-195). -/
def dispatchTx (lc : LoadClient) (transaction : Transaction) (i : Nat) : UnsignedTransaction :=
  let input : TransactionInput :=
    { AddressBase := lc.keyIdentifier, AddressKeyIdentifier := lc.keyIdentifier,
      AddressVersion := "lal", OutputPosition := i, OutputShardID := transaction.ShardID,
      OutputTransactionID := transaction.TransactionID }
  let output : TransactionOutput :=
    { AddressBase := lc.receiverAddressBase, AddressVersion := "lal",
      AddressKeyIdentifier := lc.receiverKeyIdentifier, Amount := 1 }
  { TransactionVersion := "la0l", InputList := [input], OutputList := [output] }

/-- The inner loop `for i := uint(1); i <= lc.outputsPerTxCount; i++` of
`prepareTransactions`, from the counter `i` and the transactions appended so far. -/
def expandLoop (lc : LoadClient) (transaction : Transaction) :
    Nat → Nat → List UnsignedTransaction → Option (List UnsignedTransaction)
  | 0, _, _ => none
  | fuel + 1, i, unsignedTransactions =>
    if i ≤ lc.outputsPerTxCount then
      expandLoop lc transaction fuel (uadd i 1)
        (unsignedTransactions ++ [dispatchTx lc transaction i])
    else some unsignedTransactions

/-- The outer loop `for _, transaction := range lc.preparedTransactions` of
`prepareTransactions`; `fuel` bounds each run of the inner loop. -/
def prepareLoop (lc : LoadClient) (fuel : Nat) :
    List Transaction → List UnsignedTransaction → Option (List UnsignedTransaction)
  | [], unsignedTransactions => some unsignedTransactions
  | transaction :: rest, unsignedTransactions =>
    match expandLoop lc transaction fuel 1 unsignedTransactions with
    | none => none
    | some unsignedTransactions => prepareLoop lc fuel rest unsignedTransactions

/-- The method `LoadClient.prepareTransactions`. -/
def prepareTransactions (lc : LoadClient) (fuel : Nat) : Option (List UnsignedTransaction) :=
  prepareLoop lc fuel lc.preparedTransactions []

/-- Go's `atomic.AddInt32(&x, 1)`: the increment wraps in 32-bit two's complement. -/
def addInt32One (x : Int) : Int := (x + 1 + 2 ^ 31) % 2 ^ 32 - 2 ^ 31

/-- How the dispatch worker leaves one unsigned transaction: signed and submitted, given up
after the signing attempts, or the worker returns. -/
inductive TxResult where
  | sent
  | dropped
  | aborted
deriving DecidableEq, Repr

/-- The loop `for j := 0; j < 5; j++` of the dispatch worker (load/client.go lines 244-265)
on one unsigned transaction, from the counter `j` with `n` iterations left (`n = 5 - j`). -/
def signLoop (api : NodeAPI) (lc : LoadClient) (unsignedTransaction : UnsignedTransaction) :
    Nat → Nat → List Call → TxResult × List Call
  | 0, _, h => (TxResult.dropped, h)
  | n + 1, j, h =>
    let h1 := h ++ [Call.sign unsignedTransaction lc.keyMap lc.publicKeyMap]
    match api.SignTransaction h unsignedTransaction lc.keyMap lc.publicKeyMap with
    | .error _ =>
      if j = 5 then (TxResult.aborted, h1)
      else signLoop api lc unsignedTransaction n (j + 1) h1
    | .ok tx =>
      match api.SubmitTransaction h1 tx with
      | some _ => (TxResult.aborted, h1 ++ [Call.submit tx])
      | none => (TxResult.sent, h1 ++ [Call.submit tx])

/-- The state in which one dispatch worker ends: the shared counter `totalCount`, the
worker's own `count`, the calls made, and the transactions it left in the channel. -/
structure WorkerRun where
  totalCount : Int
  count : Nat
  calls : List Call
  left : List UnsignedTransaction
deriving DecidableEq, Repr

/-- The loop `for unsignedTransaction := range unsignedTxChannel` of one worker that
receives every transaction of the channel (load/client.go lines 243-266). -/
def drain (api : NodeAPI) (lc : LoadClient) :
    List UnsignedTransaction → Int → Nat → List Call → WorkerRun
  | [], totalCount, count, h => { totalCount := totalCount, count := count, calls := h, left := [] }
  | unsignedTransaction :: queue, totalCount, count, h =>
    match signLoop api lc unsignedTransaction 5 0 h with
    | (TxResult.sent, h1) => drain api lc queue (addInt32One totalCount) (count + 1) h1
    | (TxResult.dropped, h1) => drain api lc queue totalCount count h1
    | (TxResult.aborted, h1) =>
      { totalCount := totalCount, count := count, calls := h1, left := queue }

/-- The body of one worker goroutine of `SendTransactions` (load/client.go lines 227-267),
alone on the channel: `ObtainAddress` on a fresh client, then the drain loop. -/
def worker (api : NodeAPI) (lc : LoadClient) (queue : List UnsignedTransaction)
    (totalCount : Int) (h : List Call) : WorkerRun :=
  let h1 := h ++ [Call.generateNewAddress]
  match api.GenerateNewAddress h with
  | .error _ => { totalCount := totalCount, count := 0, calls := h1, left := queue }
  | .ok _ => drain api lc queue totalCount 0 h1

/-! ## Auxiliary definitions for the statements -/

/-- The accumulation `acc += o.Amount` over a list of outputs, from any start value. -/
def accAmount (acc : Nat) (os : List TransactionOutput) : Nat :=
  os.foldl (fun acc o => uadd acc o.Amount) acc

/-- The list of outputs `SendMillix` hands to the node: the receivers' outputs, then the
change output when the change is positive. -/
def sendMillixOutputs (c : Client) (chosenAmount : Nat) (receiverAmounts : List ReceiverAmount) :
    List TransactionOutput :=
  if usub chosenAmount (neededAmount receiverAmounts) > 0 then
    receiverAmounts.map receiverOutput ++
      [changeOutput c (usub chosenAmount (neededAmount receiverAmounts))]
  else receiverAmounts.map receiverOutput

/-- The outputs `SendMillix` selects for the target `needed` from the queried `outputs`. -/
def chosenOf (needed : Nat) (outputs : List TransactionOutput) : List TransactionOutput :=
  (selectOutputs needed (sortSlice outputs)).2

/-- Example client. -/
def exClient : Client := NewClient "10.0.0.1" "5500" "n1" "s1" "base1" "key1"

/-- Example set of unspent outputs. -/
def exOutputs : List TransactionOutput :=
  [{ TransactionID := "t1", Amount := 3, AddressKeyIdentifier := "key1" },
   { TransactionID := "t2", Amount := 7, AddressKeyIdentifier := "key1" },
   { TransactionID := "t3", Amount := 5, AddressKeyIdentifier := "key1" }]

/-- Example receivers, 4 + 6 = 10 in total. -/
def exReceivers : List ReceiverAmount :=
  [{ KeyIdentifier := "key2", AddressBase := "base2", Amount := 4 },
   { KeyIdentifier := "key3", AddressBase := "base3", Amount := 6 }]


/-- The rounds `rs` are chained from the root `chosenOutput`: each round spends the current
root with the transaction `SendMillixFromOutput` builds from it, the next round spends the
root synthesised from the transaction the round obtained, and a round that obtained no
transaction is the last one. -/
def ChainFrom (lc : LoadClient) (outputPerTxCount : Nat) :
    TransactionOutput → List Round → Prop
  | _, [] => True
  | chosenOutput, r :: rs =>
    r.root = chosenOutput ∧
    r.unsignedTx =
      unsignedFromOutput lc.millixClient chosenOutput (roundReceivers lc outputPerTxCount) ∧
    match r.tx with
    | some tx => ChainFrom lc outputPerTxCount (nextRoot outputPerTxCount chosenOutput tx) rs
    | none => rs = []

/-- Example node: it answers the query for unspent outputs with `outputs`, signs every
transaction (the identifier is derived from the inputs) and accepts every submission. -/
def exApi (outputs : List TransactionOutput) : NodeAPI where
  VerifyNodeID _ := none
  GetUnspentTransactionOutputs _ _ := .ok outputs
  GetPrivateKey _ _ := .ok "priv"
  GetAddressInfo _ a :=
    .ok { Address := a, AddressBase := "base1", AddressAttribute := [("key_public", "pub")] }
  GetBalance _ _ := .ok (100, 0)
  GenerateNewAddress _ := .ok {}
  SignTransaction _ u _ _ :=
    .ok { TransactionID := "tx-" ++ String.join (u.InputList.map (fun i => i.OutputTransactionID)),
          ShardID := "shard" }
  SubmitTransaction _ _ := none

/-- Example load client of the participant `base1` / `key1`, 5 outputs per transaction. -/
def exLoadClient : LoadClient :=
  NewLoadClient exClient "10.0.0.1" "5500" "n1" "s1" "base1" "key1" "rbase" "rkey" 5 2

/-- The run of `PrepareOutputs` on `exApi outputs` with enough fuel for three rounds
(a placeholder run if the fuel were to run out). -/
def exPrepare (outputs : List TransactionOutput) (total K : Nat) : PrepareRun :=
  match PrepareOutputs (exApi outputs) exLoadClient 4 [] total K with
  | some run => run
  | none => { outcome := Outcome.panic "out of fuel", lc := exLoadClient, calls := [], rounds := [] }

/-- Example answer of the query for unspent outputs: amounts 3 and 20. -/
def exUnspent : List TransactionOutput :=
  [{ TransactionID := "f", Amount := 3, AddressKeyIdentifier := "key1" },
   { TransactionID := "g", ShardID := "s0", OutputPosition := 2, Amount := 20,
     AddressKeyIdentifier := "key1" }]

/-- Example answer of the query for unspent outputs: one output of amount 10. -/
def exExact : List TransactionOutput :=
  [{ TransactionID := "g", ShardID := "s0", Amount := 10, AddressKeyIdentifier := "key1" }]

/-- The unsigned transaction the dispatch queue holds for output position `p` of the
prepared transaction `tx`, written out field by field. -/
def queuedTx (lc : LoadClient) (tx : Transaction) (p : Nat) : UnsignedTransaction :=
  { TransactionVersion := "la0l",
    InputList :=
      [{ AddressBase := lc.keyIdentifier, AddressKeyIdentifier := lc.keyIdentifier,
         AddressVersion := "lal", OutputPosition := p, OutputShardID := tx.ShardID,
         OutputTransactionID := tx.TransactionID }],
    OutputList :=
      [{ AddressBase := lc.receiverAddressBase, AddressVersion := "lal",
         AddressKeyIdentifier := lc.receiverKeyIdentifier, Amount := 1 }] }

/-- Example load client with one prepared transaction and `2 ^ 64 - 1` outputs per
transaction. -/
def exMaxClient : LoadClient :=
  { keyIdentifier := "key1", outputsPerTxCount := 2 ^ 64 - 1,
    preparedTransactions := [{ TransactionID := "a", ShardID := "s" }] }

/-- Example load client with two prepared transactions and 2 outputs per transaction. -/
def exDispatchClient : LoadClient :=
  { keyIdentifier := "key1", receiverAddressBase := "rbase", receiverKeyIdentifier := "rkey",
    outputsPerTxCount := 2,
    preparedTransactions :=
      [{ TransactionID := "a", ShardID := "s" }, { TransactionID := "b", ShardID := "s" }] }

/-- The value an `int32` holds after wrapping the integer `x` (two's complement). -/
def wrapInt32 (x : Int) : Int := (x + 2 ^ 31) % 2 ^ 32 - 2 ^ 31

/-- The `m` calls of `SignTransaction` a worker makes for `m` attempts on one transaction. -/
def signCalls (lc : LoadClient) (u : UnsignedTransaction) (m : Nat) : List Call :=
  List.replicate m (Call.sign u lc.keyMap lc.publicKeyMap)

/-- After the calls `h`, attempt number `k` (from 0) to sign `u` fails. -/
def SignFails (api : NodeAPI) (lc : LoadClient) (u : UnsignedTransaction) (h : List Call)
    (k : Nat) : Prop :=
  ∃ e, api.SignTransaction (h ++ signCalls lc u k) u lc.keyMap lc.publicKeyMap = .error e

/-- The retry policy for one unsigned transaction `u` taken after the calls `h`: `seg` is
the list of calls made for it and `res` how the transaction is left. Either all 5 signing
attempts fail, no submission is made and the transaction is dropped; or the first `m < 5`
attempts fail, attempt `m` succeeds with `tx`, no further signing is attempted, `tx` is
submitted once, right after, and the transaction is sent when the submission succeeds and
the worker aborts when it fails. -/
def TxShape (api : NodeAPI) (lc : LoadClient) (u : UnsignedTransaction) (h : List Call)
    (res : TxResult) (seg : List Call) : Prop :=
  (res = TxResult.dropped ∧ seg = signCalls lc u 5 ∧ ∀ k, k < 5 → SignFails api lc u h k) ∨
  ∃ m tx, m < 5 ∧ (∀ k, k < m → SignFails api lc u h k) ∧
    api.SignTransaction (h ++ signCalls lc u m) u lc.keyMap lc.publicKeyMap = .ok tx ∧
    seg = signCalls lc u (m + 1) ++ [Call.submit tx] ∧
    ((res = TxResult.sent ∧
        api.SubmitTransaction (h ++ signCalls lc u (m + 1)) tx = none) ∨
      (res = TxResult.aborted ∧
        ∃ e, api.SubmitTransaction (h ++ signCalls lc u (m + 1)) tx = some e))

/-- The calls `new`, made after the calls `h`, serve the transactions `us` in order, each
according to the retry policy `TxShape`; a transaction on which the worker aborts is the
last one served and nothing is called after it; `n` counts the transactions sent. -/
def Served (api : NodeAPI) (lc : LoadClient) :
    List UnsignedTransaction → List Call → List Call → Nat → Prop
  | [], _, new, n => new = [] ∧ n = 0
  | u :: us, h, new, n =>
    ∃ res seg rest m, new = seg ++ rest ∧ TxShape api lc u h res seg ∧
      (res = TxResult.aborted → us = [] ∧ rest = []) ∧
      n = (if res = TxResult.sent then 1 else 0) + m ∧
      Served api lc us (h ++ seg) rest m

/-- Example node for the dispatch worker: signing fails while fewer than 2 calls of
`SignTransaction` were made, and the second submission is refused. -/
def exFlakyApi : NodeAPI where
  VerifyNodeID _ := none
  GetUnspentTransactionOutputs _ _ := .ok []
  GetPrivateKey _ _ := .ok "priv"
  GetAddressInfo _ _ := .ok {}
  GetBalance _ _ := .ok (100, 0)
  GenerateNewAddress _ := .ok {}
  SignTransaction h u _ _ :=
    if h.length < 3 then .error (Err.new "Status fail")
    else .ok { TransactionID := "tx-" ++ String.join (u.InputList.map (fun i => i.OutputTransactionID)) }
  SubmitTransaction h _ := if h.length < 6 then none else some (Err.new "Status fail")

/-! ## The whole of `SendMillix` (`client/client.go`) -/

/-- Go's `m[k] = v` on a map with string keys, the map being the list of its entries
(one per key, in the order in which the keys were first set). -/
def mapSet {V : Type} : List (String × V) → String → V → List (String × V)
  | [], k, v => [(k, v)]
  | (k0, v0) :: rest, k, v =>
    if k0 = k then (k, v) :: rest else (k0, v0) :: mapSet rest k v

/-- The loop `for i := 1; i <= 11; i++` of `SendMillix` (client.go lines 251-268), from
the counter `i` with `n` iterations left: `some err` when `SendMillix` returns `err` from
inside the loop, `none` when the loop is left by `break`. -/
def balanceLoop (api : NodeAPI) (c : Client) : Nat → Nat → List Call → Option Err × List Call
  | 0, _, h => (none, h)
  | n + 1, i, h =>
    if i = 11 then (some (Err.new "Failed to stabilize balance"), h)
    else
      match api.GetBalance h c.address with
      | .error err => (some err, h ++ [Call.getBalance c.address])
      | .ok (_, unstable) =>
        if unstable > 0 then balanceLoop api c n (i + 1) (h ++ [Call.getBalance c.address])
        else (none, h ++ [Call.getBalance c.address])

/-- The loop `for address, keyIdentifier := range addresses` of `SendMillix` (client.go
lines 307-321) over the entries of the map in the order in which they are visited. -/
def fetchKeys (api : NodeAPI) :
    List (String × String) → StrMap → StrMap → List Call →
      Except Err (StrMap × StrMap) × List Call
  | [], keyMap, publicKeyMap, h => (.ok (keyMap, publicKeyMap), h)
  | (address, keyIdentifier) :: rest, keyMap, publicKeyMap, h =>
    let h1 := h ++ [Call.getPrivateKey address]
    match api.GetPrivateKey h address with
    | .error err => (.error err, h1)
    | .ok privKey =>
      let h2 := h1 ++ [Call.getAddressInfo address]
      match api.GetAddressInfo h1 address with
      | .error err => (.error err, h2)
      | .ok info =>
        fetchKeys api rest (mapSet keyMap keyIdentifier privKey)
          (mapSet publicKeyMap info.AddressBase (StrMap.get info.AddressAttribute "key_public"))
          h2

/-- The method `Client.SendMillix`: how it ends and the calls made. Go leaves the order in
which `range` visits a map open; `visit` is that order for the map `addresses`. -/
def SendMillix (api : NodeAPI) (c : Client) (visit : StrMap → StrMap) (h : List Call)
    (receiverAmounts : List ReceiverAmount) : Outcome Transaction × List Call :=
  let needed := neededAmount receiverAmounts
  match balanceLoop api c 11 1 h with
  | (some err, h1) => (Outcome.error err, h1)
  | (none, h1) =>
    let h2 := h1 ++ [Call.getUnspent c.keyIdentifier]
    match api.GetUnspentTransactionOutputs h1 c.keyIdentifier with
    | .error err => (Outcome.error err, h2)
    | .ok outputs =>
      let outputs := sortSlice outputs
      if outputs.length = 0 then (Outcome.error (Err.new "No outputs to consume"), h2)
      else
        let sel := selectOutputs needed outputs
        let chosenAmount := sel.1
        let chosenOutputs := sel.2
        let addresses : StrMap :=
          chosenOutputs.foldl (fun m o => mapSet m o.Address o.AddressKeyIdentifier) []
        match fetchKeys api (visit addresses) [] [] h2 with
        | (.error err, h3) => (Outcome.error err, h3)
        | (.ok (keyMap, publicKeyMap), h3) =>
          let inputs := chosenOutputs.map inputOfOutput
          let newOutputs := receiverAmounts.map receiverOutput
          let change := usub chosenAmount needed
          let newOutputs :=
            if change > 0 then newOutputs ++ [changeOutput c change] else newOutputs
          let totalInput := totalAmount chosenOutputs
          let totalOutput := totalAmount newOutputs
          if totalInput ≠ totalOutput then (Outcome.panic "Total input vs Total output", h3)
          else
            let unsignedTx : UnsignedTransaction :=
              { TransactionVersion := "la0l", OutputList := newOutputs, InputList := inputs }
            let h4 := h3 ++ [Call.sign unsignedTx keyMap publicKeyMap]
            match api.SignTransaction h3 unsignedTx keyMap publicKeyMap with
            | .error err => (Outcome.error (Err.wrap err "Failed to sign transaction"), h4)
            | .ok tx =>
              match api.SubmitTransaction h4 tx with
              | some err =>
                (Outcome.error (Err.wrap err "Failed to submit transaction"),
                  h4 ++ [Call.submit tx])
              | none => (Outcome.ok tx, h4 ++ [Call.submit tx])

/-! ## The orchestrator (`load/config.go`, `load/result.go`, `load/orchestrator.go`) -/

/-- The struct `load.NodeConfig`. -/
structure NodeConfig where
  IP : String := ""
  Port : String := ""
  ID : String := ""
  Signature : String := ""
  AddressBase : String := ""
  KeyIdentifier : String := ""
deriving DecidableEq, Repr

/-- The struct `load.LoadConfig`. -/
structure LoadConfig where
  NodeConfigs : List NodeConfig := []
  TransactionPerNode : Nat := 0
  OutputsPerTransaction : Nat := 0
  GoroutineCount : Nat := 0
  ReceiverAddressBase : String := ""
  ReceiverKeyIdentifier : String := ""
deriving DecidableEq, Repr

/-- The struct `load.Result`; the times are readings of a clock, and the floating-point
field `AchievedTps` is left out. -/
structure Result where
  StartTime : Nat := 0
  EndTime : Nat := 0
  TotalTransactions : Nat := 0
  NodeCount : Nat := 0
deriving DecidableEq, Repr

/-- The struct `load.Orchestrator`; the maps are lists of entries, `funderClient` is `none`
for Go's nil pointer. -/
structure Orchestrator where
  funderClient : Option Client := none
  funderAddress : String := ""
  millixClients : List (String × Client) := []
  loadClients : List (String × LoadClient) := []
  nodeConfigs : List NodeConfig := []
  transactionPerNode : Nat := 0
  outputPerTransactionCount : Nat := 0
  startingBalances : List (String × Nat) := []
deriving DecidableEq, Repr

/-- The body of the loop `for i, nodeConfig := range config.NodeConfigs` of
`NewOrchestrator` (orchestrator.go lines 27-39). -/
def addNode (config : LoadConfig) (o : Orchestrator) (i : Nat) (nodeConfig : NodeConfig) :
    Orchestrator :=
  let nodeAddress := nodeConfig.AddressBase ++ "lal" ++ nodeConfig.KeyIdentifier
  let millixClient :=
    NewClient nodeConfig.IP nodeConfig.Port nodeConfig.ID nodeConfig.Signature
      nodeConfig.AddressBase nodeConfig.KeyIdentifier
  let loadClient :=
    NewLoadClient millixClient nodeConfig.IP nodeConfig.Port nodeConfig.ID nodeConfig.Signature
      nodeConfig.AddressBase nodeConfig.KeyIdentifier config.ReceiverAddressBase
      config.ReceiverKeyIdentifier config.OutputsPerTransaction config.GoroutineCount
  { o with
    millixClients := mapSet o.millixClients nodeAddress millixClient
    funderClient := if i = 0 then some millixClient else o.funderClient
    funderAddress := if i = 0 then nodeConfig.KeyIdentifier else o.funderAddress
    loadClients := mapSet o.loadClients nodeAddress loadClient }

/-- The loop of `NewOrchestrator` over the node configurations from index `i` on. -/
def addNodes (config : LoadConfig) : List NodeConfig → Nat → Orchestrator → Orchestrator
  | [], _, o => o
  | nodeConfig :: rest, i, o => addNodes config rest (i + 1) (addNode config o i nodeConfig)

/-- The constructor `load.NewOrchestrator`. -/
def NewOrchestrator (config : LoadConfig) : Orchestrator :=
  addNodes config config.NodeConfigs 0
    { nodeConfigs := config.NodeConfigs,
      transactionPerNode := config.TransactionPerNode,
      outputPerTransactionCount := config.OutputsPerTransaction }

/-- The receiver list `ensureFunds` builds (orchestrator.go lines 95-101): one entry for
each node but the first. -/
def fundingReceivers (o : Orchestrator) : List ReceiverAmount :=
  (o.nodeConfigs.drop 1).map (fun nodeConfig =>
    { AddressBase := nodeConfig.AddressBase, KeyIdentifier := nodeConfig.KeyIdentifier,
      Amount := o.transactionPerNode })

/-- The loop `for address, millixClient := range o.millixClients` of one polling round
(orchestrator.go lines 122-140) over the addresses in the order visited: whether the
round reached its end (`false` for `continue Outer`), and `startingBalances`. -/
def pollRound (balance : String → Except Err (Nat × Nat)) :
    List String → List (String × Nat) → Bool × List (String × Nat)
  | [], startingBalances => (true, startingBalances)
  | address :: rest, startingBalances =>
    match balance address with
    | .error _ => (false, startingBalances)
    | .ok (stable, unstable) =>
      if unstable > 0 then (false, startingBalances)
      else if stable = 0 then (false, startingBalances)
      else pollRound balance rest (mapSet startingBalances address stable)

/-- What `ensureFunds` meets: the node of the funder, the order in which `SendMillix`
visits its map of addresses, the answer of `GetBalance` for each address in each polling
round, and the order in which each polling round visits the addresses. -/
structure FundsEnv where
  funder : NodeAPI
  visitKeys : StrMap → StrMap
  balance : Nat → String → Except Err (Nat × Nat)
  visit : Nat → List String → List String

/-- The loop `for i := 0; i < 12; i++` of `ensureFunds` (orchestrator.go lines 115-143),
from the counter `i` with `n` iterations left: `allStable`, `startingBalances` and the
list of the rounds polled. -/
def pollLoop (env : FundsEnv) (addresses : List String) :
    Nat → Nat → Bool → List (String × Nat) → List Nat → Bool × List (String × Nat) × List Nat
  | 0, _, allStable, startingBalances, polled => (allStable, startingBalances, polled)
  | n + 1, i, allStable, startingBalances, polled =>
    if allStable then (allStable, startingBalances, polled)
    else
      match pollRound (env.balance i) (env.visit i addresses) startingBalances with
      | (true, startingBalances) =>
        pollLoop env addresses n (i + 1) true startingBalances (polled ++ [i])
      | (false, startingBalances) =>
        pollLoop env addresses n (i + 1) allStable startingBalances (polled ++ [i])

/-- The state in which `ensureFunds` ends; `request` (the client and the receiver list
`SendMillix` was called with) and `polled` (the polling rounds made) are recorded for the
proofs. -/
structure FundsRun where
  outcome : Outcome Unit
  o : Orchestrator
  calls : List Call
  request : Option (Client × List ReceiverAmount)
  polled : List Nat

/-- The method `Orchestrator.ensureFunds`; `h` is the list of calls made to the node of the
funder before. -/
def ensureFunds (env : FundsEnv) (o : Orchestrator) (h : List Call) : FundsRun :=
  let receiverAmounts := fundingReceivers o
  match o.funderClient with
  | none =>
    { outcome := Outcome.panic "nil pointer dereference", o := o, calls := h,
      request := none, polled := [] }
  | some nodeSender =>
    match SendMillix env.funder nodeSender env.visitKeys h receiverAmounts with
    | (Outcome.error err, h1) =>
      { outcome := Outcome.error (Err.wrap err "Failed to send initial amounts to nodes"),
        o := o, calls := h1, request := some (nodeSender, receiverAmounts), polled := [] }
    | (Outcome.panic msg, h1) =>
      { outcome := Outcome.panic msg, o := o, calls := h1,
        request := some (nodeSender, receiverAmounts), polled := [] }
    | (Outcome.ok _, h1) =>
      let res := pollLoop env (o.millixClients.map Prod.fst) 12 0 false o.startingBalances []
      { outcome :=
          if !res.1 then Outcome.error (Err.new "Failed to stabilise") else Outcome.ok (),
        o := { o with startingBalances := res.2.1 }, calls := h1,
        request := some (nodeSender, receiverAmounts), polled := res.2.2 }

/-- In polling round `i` every address of `addresses` is ready: its balance query succeeds
with `unstable = 0` and `stable > 0`. -/
def AllReady (env : FundsEnv) (addresses : List String) (i : Nat) : Prop :=
  ∀ a ∈ addresses, ∃ stable, env.balance i a = .ok (stable, 0) ∧ 0 < stable

/-- Go's `a * b` on `uint`. -/
def umul (a b : Nat) : Nat := (a * b) % uintMod

/-- The three phases of `Load`. -/
inductive Phase where
  | funds
  | prepare
  | send
deriving DecidableEq, Repr

/-- How `Load` ends: the pair `(res, err)` it returns (or a panic), the state of the world
it leaves, and the phases it started, in order. -/
structure LoadRun (σ : Type) where
  outcome : Outcome Result
  state : σ
  started : List Phase

/-- The method `Orchestrator.Load` (orchestrator.go lines 53-86) over the three phases it
calls, each taken as an arbitrary step on the state `σ` of the world (orchestrator and
nodes) that returns nil, returns an error or panics; `now` reads the clock. -/
def Load {σ : Type} (o : Orchestrator)
    (ensureFunds prepareOutputs sendTransactions : σ → Outcome Unit × σ) (now : σ → Nat)
    (s : σ) : LoadRun σ :=
  let totalTransactionCount := umul o.nodeConfigs.length o.transactionPerNode
  match ensureFunds s with
  | (Outcome.error err, s1) =>
    { outcome := Outcome.error (Err.wrap err "Failed to prepare initial funds"), state := s1,
      started := [Phase.funds] }
  | (Outcome.panic msg, s1) =>
    { outcome := Outcome.panic msg, state := s1, started := [Phase.funds] }
  | (Outcome.ok _, s1) =>
    match prepareOutputs s1 with
    | (Outcome.error err, s2) =>
      { outcome := Outcome.error (Err.wrap err "Failed to prepare transaction outputs"),
        state := s2, started := [Phase.funds, Phase.prepare] }
    | (Outcome.panic msg, s2) =>
      { outcome := Outcome.panic msg, state := s2, started := [Phase.funds, Phase.prepare] }
    | (Outcome.ok _, s2) =>
      let startTime := now s2
      match sendTransactions s2 with
      | (Outcome.error err, s3) =>
        { outcome := Outcome.error (Err.wrap err "Failed to perform load test"), state := s3,
          started := [Phase.funds, Phase.prepare, Phase.send] }
      | (Outcome.panic msg, s3) =>
        { outcome := Outcome.panic msg, state := s3,
          started := [Phase.funds, Phase.prepare, Phase.send] }
      | (Outcome.ok _, s3) =>
        let endTime := now s3
        { outcome :=
            Outcome.ok
              { StartTime := startTime, EndTime := endTime,
                NodeCount := o.nodeConfigs.length,
                TotalTransactions := totalTransactionCount },
          state := s3, started := [Phase.funds, Phase.prepare, Phase.send] }

/-- Example configuration: three nodes, 10 transactions per node, 5 outputs per
transaction, 4 workers. -/
def exConfig : LoadConfig :=
  { NodeConfigs :=
      [{ IP := "10.0.0.1", Port := "5500", ID := "n1", Signature := "s1", AddressBase := "base1",
         KeyIdentifier := "key1" },
       { IP := "10.0.0.2", Port := "5500", ID := "n2", Signature := "s2", AddressBase := "base2",
         KeyIdentifier := "key2" },
       { IP := "10.0.0.3", Port := "5500", ID := "n3", Signature := "s3", AddressBase := "base3",
         KeyIdentifier := "key3" }],
    TransactionPerNode := 10, OutputsPerTransaction := 5, GoroutineCount := 4,
    ReceiverAddressBase := "rbase", ReceiverKeyIdentifier := "rkey" }

/-- Example environment of `ensureFunds`: the funder owns one output of amount 1000, and
every balance is pending in the polling rounds 0 and 1 and stable from round 2 on. -/
def exFundsEnv : FundsEnv where
  funder := exApi [{ TransactionID := "genesis", Amount := 1000, Address := "base1lalkey1",
                     AddressKeyIdentifier := "key1" }]
  visitKeys := fun m => m
  balance := fun i a => if i < 2 then .ok (0, 10) else .ok (10 + a.length, 0)
  visit := fun i l => if i % 2 = 0 then l else l.reverse

/-! ## Auxiliary definitions for the dispatch queue and the failure paths -/

/-- The outputs the inputs of a list of unsigned transactions refer to, as pairs of
transaction id and output position, in order. -/
def inputRefs (queue : List UnsignedTransaction) : List (String × Nat) :=
  queue.flatMap (fun u => u.InputList.map (fun i => (i.OutputTransactionID, i.OutputPosition)))

/-- Example node that accepts the first submission and refuses every later one. -/
def exRefusingApi : NodeAPI :=
  { exApi exUnspent with
    SubmitTransaction := fun h _ => if h.length < 6 then none else some (Err.new "Status fail") }

/-- Example node on which every signing fails. -/
def exUnsignedApi : NodeAPI :=
  { exApi exUnspent with SignTransaction := fun _ _ _ _ => .error (Err.new "Status fail") }

/-- The run of `PrepareOutputs` on `exRefusingApi` for 10 outputs, 5 per transaction (a
placeholder run if the fuel were to run out). -/
def exRefused : PrepareRun :=
  match PrepareOutputs exRefusingApi exLoadClient 4 [] 10 5 with
  | some run => run
  | none => { outcome := Outcome.panic "out of fuel", lc := exLoadClient, calls := [], rounds := [] }

/-! ## The worker pool of `SendTransactions` and the send phase (`load/client.go`, `load/orchestrator.go`) -/

/-- Where a worker goroutine of `SendTransactions` stands (load/client.go lines 227-267):
before `ObtainAddress`, at the receive of the `range` loop, at the test `j < 5` with the
received transaction, before `SubmitTransaction` with the signed transaction, before
`atomic.AddInt32`, or returned. The local `count` is only printed and is left out. -/
inductive WState where
  | start
  | idle
  | signing (unsignedTransaction : UnsignedTransaction) (j : Nat)
  | submitting (tx : Transaction)
  | counting
  | done
deriving DecidableEq, Repr

/-- What the workers of `SendTransactions` share, and where each of them stands: the
transactions not yet received from `unsignedTxChannel` (those in the channel and those the
feeding goroutine still holds, in order), the workers, the calls made to the node, the
counter `totalCount`, and, recorded for the proofs, the transactions the node accepted. -/
structure PoolState where
  queue : List UnsignedTransaction
  workers : List WState
  calls : List Call
  totalCount : Int
  submitted : List Transaction
deriving DecidableEq, Repr

/-- One step of a worker goroutine that stands at `ws`: the request or the access to
shared memory it is about to make, and the local code up to the next one. -/
def workerStep (api : NodeAPI) (lc : LoadClient) (st : PoolState) : WState → WState × PoolState
  | WState.start =>
    match api.GenerateNewAddress st.calls with
    | .error _ => (WState.done, { st with calls := st.calls ++ [Call.generateNewAddress] })
    | .ok _ => (WState.idle, { st with calls := st.calls ++ [Call.generateNewAddress] })
  | WState.idle =>
    match st.queue with
    | [] => (WState.done, st)
    | unsignedTransaction :: queue =>
      (WState.signing unsignedTransaction 0, { st with queue := queue })
  | WState.signing unsignedTransaction j =>
    if j < 5 then
      match api.SignTransaction st.calls unsignedTransaction lc.keyMap lc.publicKeyMap with
      | .error _ =>
        (if j = 5 then WState.done else WState.signing unsignedTransaction (j + 1),
          { st with
            calls := st.calls ++ [Call.sign unsignedTransaction lc.keyMap lc.publicKeyMap] })
      | .ok tx =>
        (WState.submitting tx,
          { st with
            calls := st.calls ++ [Call.sign unsignedTransaction lc.keyMap lc.publicKeyMap] })
    else (WState.idle, st)
  | WState.submitting tx =>
    match api.SubmitTransaction st.calls tx with
    | some _ => (WState.done, { st with calls := st.calls ++ [Call.submit tx] })
    | none =>
      (WState.counting,
        { st with calls := st.calls ++ [Call.submit tx], submitted := st.submitted ++ [tx] })
  | WState.counting => (WState.idle, { st with totalCount := addInt32One st.totalCount })
  | WState.done => (WState.done, st)

/-- The scheduler lets worker `w` make its next step. -/
def poolStep (api : NodeAPI) (lc : LoadClient) (st : PoolState) (w : Nat) : PoolState :=
  match st.workers[w]? with
  | none => st
  | some ws =>
    let r := workerStep api lc st ws
    { r.2 with workers := r.2.workers.set w r.1 }

/-- The pool after the interleaving `sched` of worker steps. -/
def runPool (api : NodeAPI) (lc : LoadClient) (sched : List Nat) (st : PoolState) : PoolState :=
  sched.foldl (poolStep api lc) st

/-- The pool when the workers are started: `workerCount` workers, counter 0. -/
def initPool (queue : List UnsignedTransaction) (workerCount : Nat) (h : List Call) : PoolState :=
  { queue := queue, workers := List.replicate workerCount WState.start, calls := h,
    totalCount := 0, submitted := [] }

/-- What `SendTransactions` leaves when it returns: the error returned, the counter
`totalCount`, the transactions the node accepted, the calls made, and the transactions
never received from the channel. -/
structure SendRun where
  err : Option Err
  totalCount : Int
  submitted : List Transaction
  calls : List Call
  left : List UnsignedTransaction
deriving DecidableEq, Repr

/-- The method `LoadClient.SendTransactions` under the interleaving `sched` of its workers:
`none` when `prepareTransactions` does not return within `fuel` or when `wg.Wait()` has not
returned at the end of `sched` (a worker has not returned). The creation of the channel
and of the goroutines is taken to succeed. -/
def SendTransactions (api : NodeAPI) (lc : LoadClient) (fuel : Nat) (sched : List Nat)
    (h : List Call) : Option SendRun :=
  match prepareTransactions lc fuel with
  | none => none
  | some unsignedTransactions =>
    let st := runPool api lc sched (initPool unsignedTransactions lc.goroutineCount h)
    if st.workers.all (fun ws => ws = WState.done) then
      some { err := none, totalCount := st.totalCount, submitted := st.submitted,
             calls := st.calls, left := st.queue }
    else none

/-- The method `LoadClient.ObtainKeyMaps`: the error returned, the load client and the
calls made. -/
def ObtainKeyMaps (api : NodeAPI) (lc : LoadClient) (h : List Call) :
    Option Err × LoadClient × List Call :=
  let h1 := h ++ [Call.getPrivateKey lc.address]
  match api.GetPrivateKey h lc.address with
  | .error err => (some err, lc, h1)
  | .ok privKey =>
    let keyMap := mapSet [] lc.keyIdentifier privKey
    let h2 := h1 ++ [Call.getAddressInfo lc.address]
    match api.GetAddressInfo h1 lc.address with
    | .error err => (some err, lc, h2)
    | .ok info =>
      let publicKeyMap :=
        mapSet [] info.AddressBase (StrMap.get info.AddressAttribute "key_public")
      (none, { lc with keyMap := keyMap, publicKeyMap := publicKeyMap }, h2)

/-- What the send phase of the orchestrator meets: the node each load client talks to (by
the address of the client), the calls made to that node before, the fuel of
`prepareTransactions`, the interleaving of the workers of each load client, and the order
in which the results of the load clients arrive on `resCh`. -/
structure SendEnv where
  node : String → NodeAPI
  history : String → List Call
  fuel : Nat
  sched : String → List Nat
  arrival : List (String × LoadClient) → List (String × LoadClient)

/-- How the send phase of the orchestrator ends, and, recorded for the proofs, the runs of
`SendTransactions` whose results it received. -/
structure SendPhase where
  outcome : Outcome Unit
  runs : List (String × SendRun)
deriving DecidableEq, Repr

/-- The loop `for i := 0; i < len(o.loadClients); i++ { res := <-resCh ... }` of
`Orchestrator.sendTransactions` over the load clients in the order in which their results
arrive; the goroutine of a load client reports the error of `ObtainKeyMaps`, or else what
`SendTransactions` returns. A load client whose `SendTransactions` does not return never
reports (`missing`), and the loop then blocks once the other results are read. -/
def waitSend (env : SendEnv) :
    List (String × LoadClient) → Bool → List (String × SendRun) → Option SendPhase
  | [], missing, runs => if missing then none else some { outcome := Outcome.ok (), runs := runs }
  | (address, loadClient) :: rest, missing, runs =>
    match ObtainKeyMaps (env.node address) loadClient (env.history address) with
    | (some err, _, _) =>
      some { outcome :=
               Outcome.error (Err.wrap err ("Failed to send transactions on node " ++ address)),
             runs := runs }
    | (none, loadClient1, h1) =>
      match SendTransactions (env.node address) loadClient1 env.fuel (env.sched address) h1 with
      | none => waitSend env rest true runs
      | some run =>
        match run.err with
        | some err =>
          some { outcome :=
                   Outcome.error
                     (Err.wrap err ("Failed to send transactions on node " ++ address)),
                 runs := runs ++ [(address, run)] }
        | none => waitSend env rest missing (runs ++ [(address, run)])

/-- The method `Orchestrator.sendTransactions`; `none` when it blocks for ever. -/
def sendTransactions (env : SendEnv) (o : Orchestrator) : Option SendPhase :=
  waitSend env (env.arrival o.loadClients) false []

/-- Example node for the dispatch: signing gives the transaction its input names, and the
node refuses the transactions whose identifier is in `refused`. -/
def exPoolApi (refused : List String) : NodeAPI where
  VerifyNodeID _ := none
  GetUnspentTransactionOutputs _ _ := .ok []
  GetPrivateKey _ _ := .ok "priv"
  GetAddressInfo _ a := .ok { Address := a, AddressBase := "base1",
                              AddressAttribute := [("key_public", "pub")] }
  GetBalance _ _ := .ok (100, 0)
  GenerateNewAddress _ := .ok {}
  SignTransaction _ u _ _ :=
    .ok { TransactionID := String.join (u.InputList.map
            (fun i => i.OutputTransactionID ++ toString i.OutputPosition)) }
  SubmitTransaction _ tx := if tx.TransactionID ∈ refused then some (Err.new "Status fail") else none

/-- The example load client `exDispatchClient` (two prepared transactions, 2 outputs per
transaction) with `workerCount` workers. -/
def exPoolClient (workerCount : Nat) : LoadClient :=
  { exDispatchClient with goroutineCount := workerCount }

/-- The transaction the loop `for j := 0; j < 5; j++` obtains for `u` from attempt `j` on,
with `n` attempts left, when attempt `k` of signing `u` is answered by `signF u k`. -/
def firstSigned (signF : UnsignedTransaction → Nat → Except Err Transaction)
    (u : UnsignedTransaction) : Nat → Nat → Option Transaction
  | 0, _ => none
  | n + 1, j =>
    match signF u j with
    | .ok tx => some tx
    | .error _ => firstSigned signF u n (j + 1)

/-- The transaction a worker at `ws` is still to have accepted, if any. -/
def WState.pending (signF : UnsignedTransaction → Nat → Except Err Transaction) :
    WState → List Transaction
  | WState.signing u j => (firstSigned signF u (5 - j) j).toList
  | WState.submitting tx => [tx]
  | _ => []

/-- The unsigned transaction a worker at `ws` is signing, if any. -/
def WState.inHand : WState → List UnsignedTransaction
  | WState.signing u _ => [u]
  | _ => []

/-- The number of accepted transactions a worker at `ws` has not yet counted. -/
def WState.uncounted : WState → Int
  | WState.counting => 1
  | _ => 0

/-- The transactions the node is to accept for the queue `queue`. -/
def signedOf (signF : UnsignedTransaction → Nat → Except Err Transaction)
    (queue : List UnsignedTransaction) : List Transaction :=
  queue.flatMap (fun u => (firstSigned signF u 5 0).toList)

/-- The invariant of the worker pool on a node that accepts every submission and answers
attempt `k` of signing `u` by `signF u k`: the accepted transactions, those in the hands of
the workers and those to come from the queue make up `target`; the counter counts the
accepted transactions that were counted; no worker has returned while the queue is not
empty; the transactions being signed and those of the queue are distinct; and the node has
seen `j` signing requests for a transaction at attempt `j`, none for those of the queue. -/
structure PoolInv (signF : UnsignedTransaction → Nat → Except Err Transaction)
    (lc : LoadClient) (target : List Transaction) (workerCount : Nat) (st : PoolState) :
    Prop where
  perm : (st.submitted ++ st.workers.flatMap (WState.pending signF) ++
    signedOf signF st.queue).Perm target
  count : st.totalCount =
    wrapInt32 ((st.submitted.length : Int) - (st.workers.map WState.uncounted).sum)
  drained : WState.done ∈ st.workers → st.queue = []
  nodup : (st.workers.flatMap WState.inHand ++ st.queue).Nodup
  attempts : ∀ u j, WState.signing u j ∈ st.workers →
    st.calls.count (Call.sign u lc.keyMap lc.publicKeyMap) = j
  fresh : ∀ u ∈ st.queue, st.calls.count (Call.sign u lc.keyMap lc.publicKeyMap) = 0
  size : st.workers.length = workerCount

/-- A bound on the steps a worker at `ws` can still make without receiving from the
channel. -/
def WState.weight : WState → Nat
  | WState.start => 2
  | WState.idle => 1
  | WState.signing _ j => 4 + (5 - j)
  | WState.submitting _ => 3
  | WState.counting => 2
  | WState.done => 0

/-- A bound on the steps the workers of the pool can still make. -/
def poolMeasure (st : PoolState) : Nat :=
  (st.workers.map WState.weight).sum + 10 * st.queue.length

/-- Example node for the dispatch that refuses every submission. -/
def exClosedApi : NodeAPI :=
  { exPoolApi [] with SubmitTransaction := fun _ _ => some (Err.new "Status fail") }

/-- Example orchestrator at the start of the send phase: the orchestrator of `exConfig`
whose load clients each hold one prepared transaction. -/
def exSendOrchestrator : Orchestrator :=
  { NewOrchestrator exConfig with
    loadClients := (NewOrchestrator exConfig).loadClients.map (fun p =>
      (p.1, { p.2 with preparedTransactions := [{ TransactionID := "a", ShardID := "s" }] })) }

/-- Example environment of the send phase: every node refuses every submission, and the
four workers of each load client run one after the other. -/
def exSendEnv : SendEnv where
  node := fun _ => exClosedApi
  history := fun _ => []
  fuel := 6
  sched := fun _ => [0, 0, 0, 0, 1, 1, 1, 1, 2, 2, 2, 2, 3, 3, 3, 3]
  arrival := fun l => l.reverse

/-- Example node that refuses the first request to sign each transaction and signs it at
the second: the answer depends on the transaction and on the attempt only. -/
def exRetryApi : NodeAPI :=
  { exPoolApi [] with
    SignTransaction := fun h u km pkm =>
      if h.count (Call.sign u km pkm) < 1 then .error (Err.new "Status fail")
      else (exPoolApi []).SignTransaction h u km pkm }

/-- The answers of `exRetryApi` to the signing requests, by transaction and attempt. -/
def exRetrySign (u : UnsignedTransaction) (k : Nat) : Except Err Transaction :=
  if k < 1 then .error (Err.new "Status fail") else (exPoolApi []).SignTransaction [] u [] []

/-- The run of `SendTransactions` on `exRetryApi` for `exDispatchClient` with `workerCount`
workers under the interleaving `sched` (a placeholder if it has not returned). -/
def exRetryRun (workerCount : Nat) (sched : List Nat) : SendRun :=
  match SendTransactions exRetryApi { exDispatchClient with goroutineCount := workerCount } 3
      sched [] with
  | some run => run
  | none => { err := none, totalCount := 0, submitted := [], calls := [], left := [] }

/-- Example interleaving of two workers in which the second overtakes the first. -/
def exSched2 : List Nat :=
  [0, 0, 1, 1, 1, 1, 1, 1, 0, 0, 0, 0, 0, 0, 0, 0, 0, 1, 1, 1, 1, 1, 1, 0]

/-! ## Examples for the size of the dispatch queue -/

/-- Example configuration whose reported total wraps around: two nodes, `2 ^ 63`
transactions per node, `2 ^ 63 + 1` outputs per transaction. -/
def exWrapConfig : LoadConfig :=
  { NodeConfigs :=
      [{ IP := "10.0.0.1", Port := "5500", ID := "n1", Signature := "s1", AddressBase := "base1",
         KeyIdentifier := "key1" },
       { IP := "10.0.0.2", Port := "5500", ID := "n2", Signature := "s2", AddressBase := "base2",
         KeyIdentifier := "key2" }],
    TransactionPerNode := 2 ^ 63, OutputsPerTransaction := 2 ^ 63 + 1, GoroutineCount := 4,
    ReceiverAddressBase := "rbase", ReceiverKeyIdentifier := "rkey" }

/-- Example answer of the query for unspent outputs: one output of amount `2 ^ 63`. -/
def exWrapUnspent : List TransactionOutput :=
  [{ TransactionID := "g", ShardID := "s0", Amount := 2 ^ 63, AddressKeyIdentifier := "key1" }]

/-! ## Arithmetic of `uint` -/

theorem uadd_lt (a b : Nat) : uadd a b < uintMod := by
  unfold uadd uintMod; omega

theorem usub_lt (a b : Nat) : usub a b < uintMod := by
  unfold usub uintMod; omega

theorem uadd_le (a b : Nat) : uadd a b ≤ a + b := by
  unfold uadd; exact Nat.mod_le _ _

theorem uadd_eq_of_lt {a b : Nat} (h : a + b < uintMod) : uadd a b = a + b := by
  unfold uadd; exact Nat.mod_eq_of_lt h

theorem usub_eq_of_le {a b : Nat} (ha : a < uintMod) (h : b ≤ a) : usub a b = a - b := by
  unfold usub uintMod at *; omega

theorem uadd_usub_cancel {a b : Nat} (ha : a < uintMod) :
    uadd b (usub a b) = a := by
  unfold usub uadd uintMod at *; omega

theorem eq_of_usub_eq_zero {a b : Nat} (ha : a < uintMod) (hb : b < uintMod)
    (h : usub a b = 0) : a = b := by
  unfold usub uintMod at *; omega

/-! ## Folded sums -/

theorem totalAmount_eq_acc (os : List TransactionOutput) : totalAmount os = accAmount 0 os := rfl

theorem accAmount_append (acc : Nat) (xs ys : List TransactionOutput) :
    accAmount acc (xs ++ ys) = accAmount (accAmount acc xs) ys := by
  simp [accAmount, List.foldl_append]

theorem accAmount_lt {acc : Nat} (h : acc < uintMod) (os : List TransactionOutput) :
    accAmount acc os < uintMod := by
  induction os generalizing acc with
  | nil => simpa [accAmount] using h
  | cons o os ih => exact ih (uadd_lt _ _)

theorem accAmount_le (acc : Nat) (os : List TransactionOutput) :
    accAmount acc os ≤ acc + sumAmounts os := by
  induction os generalizing acc with
  | nil => simp [accAmount, sumAmounts]
  | cons o os ih =>
    have h1 := ih (uadd acc o.Amount)
    have h2 := uadd_le acc o.Amount
    simp only [sumAmounts, List.map_cons, List.sum_cons] at *
    show accAmount (uadd acc o.Amount) os ≤ _
    omega

theorem accAmount_eq_of_lt (acc : Nat) (os : List TransactionOutput)
    (h : acc + sumAmounts os < uintMod) : accAmount acc os = acc + sumAmounts os := by
  induction os generalizing acc with
  | nil => simp [accAmount, sumAmounts]
  | cons o os ih =>
    simp only [sumAmounts, List.map_cons, List.sum_cons] at *
    show accAmount (uadd acc o.Amount) os = _
    have h1 : uadd acc o.Amount = acc + o.Amount := uadd_eq_of_lt (by omega)
    rw [h1, ih (acc + o.Amount) (by omega)]
    omega

theorem totalAmount_lt (os : List TransactionOutput) : totalAmount os < uintMod :=
  accAmount_lt (by unfold uintMod; omega) os

theorem neededAmount_lt (rs : List ReceiverAmount) : neededAmount rs < uintMod := by
  have key : ∀ (acc : Nat), acc < uintMod →
      rs.foldl (fun acc r => uadd acc r.Amount) acc < uintMod := by
    induction rs with
    | nil => intro acc h; simpa using h
    | cons r rs ih => intro acc _; exact ih _ (uadd_lt _ _)
  exact key 0 (by unfold uintMod; omega)

theorem totalAmount_receivers (rs : List ReceiverAmount) :
    totalAmount (rs.map receiverOutput) = neededAmount rs := by
  simp [totalAmount, neededAmount, List.foldl_map, receiverOutput]

theorem totalAmount_snoc (os : List TransactionOutput) (o : TransactionOutput) :
    totalAmount (os ++ [o]) = uadd (totalAmount os) o.Amount := by
  simp [totalAmount, List.foldl_append]


/-! ## Sorting and selection -/

theorem sortSlice_perm (l : List TransactionOutput) : (sortSlice l).Perm l :=
  List.perm_insertionSort amountGe l

theorem sortSlice_sorted (l : List TransactionOutput) : (sortSlice l).Pairwise amountGe :=
  List.sorted_insertionSort amountGe l

theorem sortSlice_ne_nil {l : List TransactionOutput} (h : l ≠ []) : sortSlice l ≠ [] := by
  intro h0
  have := (sortSlice_perm l).length_eq
  rw [h0] at this
  exact h (List.length_eq_zero.mp this.symm)

theorem sumAmounts_append (xs ys : List TransactionOutput) :
    sumAmounts (xs ++ ys) = sumAmounts xs + sumAmounts ys := by
  simp [sumAmounts]

theorem sumAmounts_perm {xs ys : List TransactionOutput} (h : xs.Perm ys) :
    sumAmounts xs = sumAmounts ys := by
  unfold sumAmounts
  exact (h.map _).sum_eq

/-- The selection loop returns a prefix of the outputs it visits, together with the
accumulated amount of that prefix; it stops at the first prefix that reaches `needed`. -/
theorem chooseOutputs_spec (needed : Nat) (l : List TransactionOutput) :
    ∀ (acc : Nat) (chosen : List TransactionOutput),
      ∃ pre rest, l = pre ++ rest ∧
        chooseOutputs needed l acc chosen = (accAmount acc pre, chosen ++ pre) ∧
        (l ≠ [] → pre ≠ []) ∧
        (∀ k, 0 < k → k < pre.length → accAmount acc (pre.take k) < needed) ∧
        (rest ≠ [] → needed ≤ accAmount acc pre) := by
  induction l with
  | nil =>
    intro acc chosen
    exact ⟨[], [], rfl, by simp [chooseOutputs, accAmount], by simp, by simp, by simp⟩
  | cons o l ih =>
    intro acc chosen
    by_cases hge : needed ≤ uadd acc o.Amount
    · refine ⟨[o], l, rfl, ?_, by simp, ?_, ?_⟩
      · simp [chooseOutputs, hge, accAmount]
      · intro k hk hk1
        simp at hk1
        omega
      · intro _
        simpa [accAmount] using hge
    · obtain ⟨pre, rest, hl, hres, _, hpre, hrest⟩ := ih (uadd acc o.Amount) (chosen ++ [o])
      refine ⟨o :: pre, rest, by simp [hl], ?_, by simp, ?_, ?_⟩
      · have : ¬ (uadd acc o.Amount ≥ needed) := hge
        simp only [chooseOutputs, this, if_false, hres]
        simp [accAmount]
      · intro k hk hk1
        obtain ⟨k, rfl⟩ : ∃ k', k = k' + 1 := ⟨k - 1, by omega⟩
        simp only [List.take_succ_cons]
        show accAmount (uadd acc o.Amount) (pre.take k) < needed
        by_cases hk0 : k = 0
        · subst hk0
          simp only [List.take_zero, accAmount, List.foldl_nil]
          omega
        · apply hpre k (by omega)
          simp at hk1
          omega
      · intro hr
        exact hrest hr


theorem selectOutputs_amount (needed : Nat) (sorted : List TransactionOutput) :
    (selectOutputs needed sorted).1 = totalAmount (selectOutputs needed sorted).2 := by
  obtain ⟨pre, rest, _, hres, _⟩ := chooseOutputs_spec needed sorted 0 []
  simp [selectOutputs, hres, totalAmount_eq_acc]

/-- In `uint` arithmetic the two totals of the sanity check of `SendMillix` agree. -/
theorem sanity_totals (c : Client) (chosen : List TransactionOutput)
    (receiverAmounts : List ReceiverAmount) :
    totalAmount chosen = totalAmount (sendMillixOutputs c (totalAmount chosen) receiverAmounts) := by
  unfold sendMillixOutputs
  have hc := totalAmount_lt chosen
  have hn := neededAmount_lt receiverAmounts
  split
  · rw [totalAmount_snoc, totalAmount_receivers]
    simp only [changeOutput]
    exact (uadd_usub_cancel hc).symm
  · rename_i hz
    rw [totalAmount_receivers]
    exact eq_of_usub_eq_zero hc hn (by omega)

/-- On a non-empty set of unspent outputs `SendMillix` reaches `SignTransaction`, with
the transaction made of the selected outputs, the receivers and the change. -/
theorem buildSendMillix_ok (c : Client) (outputs : List TransactionOutput)
    (receiverAmounts : List ReceiverAmount) (hne : outputs ≠ []) :
    buildSendMillix c outputs receiverAmounts =
      Outcome.ok
        { chosenOutputs := (selectOutputs (neededAmount receiverAmounts) (sortSlice outputs)).2,
          chosenAmount := (selectOutputs (neededAmount receiverAmounts) (sortSlice outputs)).1,
          change := usub (selectOutputs (neededAmount receiverAmounts) (sortSlice outputs)).1
            (neededAmount receiverAmounts),
          unsignedTx :=
            { TransactionVersion := "la0l",
              OutputList := sendMillixOutputs c
                (selectOutputs (neededAmount receiverAmounts) (sortSlice outputs)).1 receiverAmounts,
              InputList :=
                (selectOutputs (neededAmount receiverAmounts) (sortSlice outputs)).2.map
                  inputOfOutput } } := by
  have hlen : ¬ ((sortSlice outputs).length = 0) := by
    intro h0
    exact sortSlice_ne_nil hne (List.length_eq_zero.mp h0)
  have hs : totalAmount (selectOutputs (neededAmount receiverAmounts) (sortSlice outputs)).2 =
      totalAmount (sendMillixOutputs c
        (selectOutputs (neededAmount receiverAmounts) (sortSlice outputs)).1 receiverAmounts) := by
    rw [selectOutputs_amount]
    exact sanity_totals c _ receiverAmounts
  unfold sendMillixOutputs at hs
  unfold sendMillixOutputs
  simp only [buildSendMillix, hlen, if_false]
  rw [if_neg (by simpa using hs)]


/-! ## Claims on `SendMillix` and `SendMillixFromOutput` -/

/-- C1, evaluated where it fails. One unspent output of amount 5 and one receiver of amount
10: `SendMillix` builds a transaction whose input is worth 5 and whose outputs add up to
`2 ^ 64 + 5` as natural numbers (the change `5 - 10` wraps to `2 ^ 64 - 5`), and
`SendMillixFromOutput` does the same from a root output of amount 5. -/
theorem value_conservation_underfunded :
    (∃ b, buildSendMillix exClient [{ Amount := 5 }] [{ Amount := 10 }] = Outcome.ok b ∧
      b.unsignedTx.InputList = b.chosenOutputs.map inputOfOutput ∧
      sumAmounts b.chosenOutputs = 5 ∧
      sumAmounts b.unsignedTx.OutputList = 2 ^ 64 + 5) ∧
    sumAmounts (unsignedFromOutput exClient { Amount := 5 } [{ Amount := 10 }]).OutputList =
      2 ^ 64 + 5 := by
  refine ⟨⟨_, rfl, ?_, ?_, ?_⟩, ?_⟩ <;> decide

/-- Without overflow the requested amount is the sum of the receivers' amounts. -/
theorem neededAmount_eq_sum (rs : List ReceiverAmount)
    (h : (rs.map (fun r => r.Amount)).sum < uintMod) :
    neededAmount rs = (rs.map (fun r => r.Amount)).sum := by
  have key : ∀ (l : List ReceiverAmount) (acc : Nat),
      acc + (l.map (fun r => r.Amount)).sum < uintMod →
      l.foldl (fun acc r => uadd acc r.Amount) acc = acc + (l.map (fun r => r.Amount)).sum := by
    intro l
    induction l with
    | nil => intro acc _; simp
    | cons r l ih =>
      intro acc hacc
      simp only [List.map_cons, List.sum_cons] at hacc
      simp only [List.foldl_cons, List.map_cons, List.sum_cons]
      rw [uadd_eq_of_lt (by omega), ih (acc + r.Amount) (by omega)]
      omega
  have := key rs 0 (by omega)
  simpa [neededAmount] using this

theorem sumAmounts_receivers (rs : List ReceiverAmount) :
    sumAmounts (rs.map receiverOutput) = (rs.map (fun r => r.Amount)).sum := by
  simp [sumAmounts, receiverOutput, Function.comp_def]

/-- Value conservation of `SendMillixFromOutput` when the root output covers the request:
the outputs add up to the amount of the root output, as natural numbers. -/
theorem conservation_fromOutput (c : Client) (output : TransactionOutput)
    (receiverAmounts : List ReceiverAmount) (hA : output.Amount < uintMod)
    (hfund : (receiverAmounts.map (fun r => r.Amount)).sum ≤ output.Amount) :
    sumAmounts (unsignedFromOutput c output receiverAmounts).OutputList = output.Amount := by
  have hn := neededAmount_eq_sum receiverAmounts (by omega)
  have hch : usub output.Amount (neededAmount receiverAmounts) =
      output.Amount - (receiverAmounts.map (fun r => r.Amount)).sum := by
    rw [hn]
    exact usub_eq_of_le hA hfund
  simp only [unsignedFromOutput, hch]
  split
  · rw [sumAmounts_append, sumAmounts_receivers]
    simp only [sumAmounts, changeOutput, List.map_cons, List.map_nil, List.sum_cons,
      List.sum_nil]
    omega
  · rw [sumAmounts_append, sumAmounts_receivers]
    simp only [sumAmounts, List.map_nil, List.sum_nil]
    omega

/-- Value conservation of `SendMillix` when the unspent outputs total less than `2 ^ 64`
and the selected outputs cover the request: the outputs add up to the amounts of the
selected outputs, as natural numbers. -/
theorem conservation_sendMillix (c : Client) (outputs : List TransactionOutput)
    (receiverAmounts : List ReceiverAmount) (hne : outputs ≠ [])
    (hW : sumAmounts outputs < uintMod)
    (hfund : (receiverAmounts.map (fun r => r.Amount)).sum ≤
      sumAmounts (chosenOf (neededAmount receiverAmounts) outputs)) :
    ∃ b, buildSendMillix c outputs receiverAmounts = Outcome.ok b ∧
      b.unsignedTx.InputList = b.chosenOutputs.map inputOfOutput ∧
      sumAmounts b.unsignedTx.OutputList = sumAmounts b.chosenOutputs := by
  refine ⟨_, buildSendMillix_ok c outputs receiverAmounts hne, rfl, ?_⟩
  simp only
  obtain ⟨pre, rest, hl, hres, _⟩ :=
    chooseOutputs_spec (neededAmount receiverAmounts) (sortSlice outputs) 0 []
  have hsum : sumAmounts pre + sumAmounts rest = sumAmounts outputs := by
    rw [← sumAmounts_append, ← hl]
    exact sumAmounts_perm (sortSlice_perm outputs)
  have hsel : selectOutputs (neededAmount receiverAmounts) (sortSlice outputs) =
      (accAmount 0 pre, pre) := by
    simp [selectOutputs, hres]
  have hch : chosenOf (neededAmount receiverAmounts) outputs = pre := by
    simp [chosenOf, hsel]
  rw [hch] at hfund
  have hacc : accAmount 0 pre = sumAmounts pre := by
    rw [accAmount_eq_of_lt 0 pre (by omega)]
    omega
  have hn := neededAmount_eq_sum receiverAmounts (by omega)
  rw [hsel]
  simp only [hacc, sendMillixOutputs, hn]
  rw [usub_eq_of_le (by omega) hfund]
  have hone : ∀ x, sumAmounts [changeOutput c x] = x := by
    intro x
    simp [sumAmounts, changeOutput]
  split
  · rw [sumAmounts_append, sumAmounts_receivers, hone]
    omega
  · rw [sumAmounts_receivers]
    omega

/-- C2, as stated, fails for the target 0: one output is chosen although the amount
accumulated before it, 0, is not below the target. -/
theorem selection_target_zero :
    chosenOf 0 [{ Amount := 5 }] = [{ Amount := 5 }] ∧
    ¬ (totalAmount (chosenOf 0 [{ Amount := 5 }]).dropLast < 0) := by
  decide

/-- C2, amended. For a non-empty set of unspent outputs and any target `needed`, the outputs
`SendMillix` chooses are a non-empty initial segment of the outputs sorted by descending
amount, so that no output left over is larger than a chosen one; the returned amount is
the `uint` total of the chosen outputs; every non-empty proper initial segment of the
chosen outputs has a `uint` total below the target, in particular the chosen outputs
without the last one when the target is positive; for the target 0 exactly one output is
chosen; the loop stops before the end only when the target is reached; when the unspent
outputs total less than the target (as natural numbers) every output is chosen; and when
they total less than `2 ^ 64` the bound on the chosen outputs without the last one holds
for the sum as a natural number. -/
theorem selection_spec (outputs : List TransactionOutput) (needed : Nat)
    (hne : outputs ≠ []) :
    ∃ rest,
      sortSlice outputs = chosenOf needed outputs ++ rest ∧
      (sortSlice outputs).Perm outputs ∧
      chosenOf needed outputs ≠ [] ∧
      (chosenOf needed outputs).Pairwise (fun a b => b.Amount ≤ a.Amount) ∧
      (∀ o ∈ chosenOf needed outputs, ∀ u ∈ rest, u.Amount ≤ o.Amount) ∧
      (selectOutputs needed (sortSlice outputs)).1 = totalAmount (chosenOf needed outputs) ∧
      (∀ k, 0 < k → k < (chosenOf needed outputs).length →
        totalAmount ((chosenOf needed outputs).take k) < needed) ∧
      (0 < needed → totalAmount (chosenOf needed outputs).dropLast < needed) ∧
      (needed = 0 → (chosenOf needed outputs).length = 1) ∧
      (rest ≠ [] → needed ≤ totalAmount (chosenOf needed outputs)) ∧
      (sumAmounts outputs < needed → chosenOf needed outputs = sortSlice outputs) ∧
      (sumAmounts outputs < uintMod → 0 < needed →
        sumAmounts (chosenOf needed outputs).dropLast < needed) := by
  obtain ⟨pre, rest, hl, hres, hpre, htake, hrest⟩ :=
    chooseOutputs_spec needed (sortSlice outputs) 0 []
  have hch : chosenOf needed outputs = pre := by
    simp [chosenOf, selectOutputs, hres]
  have hpre0 : pre ≠ [] := hpre (sortSlice_ne_nil hne)
  have hsorted := sortSlice_sorted outputs
  rw [hl] at hsorted
  have hsum : sumAmounts pre + sumAmounts rest = sumAmounts outputs := by
    rw [← sumAmounts_append, ← hl]
    exact sumAmounts_perm (sortSlice_perm outputs)
  have hdrop : totalAmount pre.dropLast < needed ∨ (pre.length = 1 ∧ pre.dropLast = []) := by
    by_cases h1 : pre.length = 1
    · right
      refine ⟨h1, ?_⟩
      apply List.length_eq_zero.mp
      simp [h1]
    · left
      have hlen : 0 < pre.length := List.length_pos.mpr hpre0
      rw [List.dropLast_eq_take]
      exact htake (pre.length - 1) (by omega) (by omega)
  have hdropsum : sumAmounts pre.dropLast ≤ sumAmounts pre := by
    conv_rhs => rw [← List.dropLast_append_getLast hpre0]
    rw [sumAmounts_append]
    omega
  rw [hch]
  refine ⟨rest, hl, sortSlice_perm outputs, hpre0, ?_, ?_, ?_, htake, ?_, ?_, hrest, ?_, ?_⟩
  · exact (List.pairwise_append.mp hsorted).1
  · intro o ho u hu
    exact (List.pairwise_append.mp hsorted).2.2 o ho u hu
  · simp [selectOutputs, hres, totalAmount_eq_acc]
  · intro hpos
    rcases hdrop with h | ⟨_, h⟩
    · exact h
    · rw [h]
      simpa [totalAmount] using hpos
  · intro hz
    by_contra hlen1
    have hlen : 0 < pre.length := List.length_pos.mpr hpre0
    have := htake 1 (by omega) (by omega)
    omega
  · intro hlt
    by_cases hr : rest = []
    · rw [hl, hr, List.append_nil]
    · exfalso
      have h1 := hrest hr
      have h2 := accAmount_le 0 pre
      omega
  · intro hW hpos
    rcases hdrop with h | ⟨_, h⟩
    · rw [totalAmount_eq_acc, accAmount_eq_of_lt 0 _ (by omega)] at h
      omega
    · rw [h]
      simpa [sumAmounts] using hpos

/-- Witness of `selection_spec`: three unspent outputs of amounts 3, 7, 5 and the target 10. -/
theorem selection_spec_witness :
    exOutputs ≠ [] ∧
    ∃ rest,
      sortSlice exOutputs = chosenOf 10 exOutputs ++ rest ∧
      (sortSlice exOutputs).Perm exOutputs ∧
      chosenOf 10 exOutputs ≠ [] ∧
      (chosenOf 10 exOutputs).Pairwise (fun a b => b.Amount ≤ a.Amount) ∧
      (∀ o ∈ chosenOf 10 exOutputs, ∀ u ∈ rest, u.Amount ≤ o.Amount) ∧
      (selectOutputs 10 (sortSlice exOutputs)).1 = totalAmount (chosenOf 10 exOutputs) ∧
      (∀ k, 0 < k → k < (chosenOf 10 exOutputs).length →
        totalAmount ((chosenOf 10 exOutputs).take k) < 10) ∧
      (0 < 10 → totalAmount (chosenOf 10 exOutputs).dropLast < 10) ∧
      (10 = 0 → (chosenOf 10 exOutputs).length = 1) ∧
      (rest ≠ [] → 10 ≤ totalAmount (chosenOf 10 exOutputs)) ∧
      (sumAmounts exOutputs < 10 → chosenOf 10 exOutputs = sortSlice exOutputs) ∧
      (sumAmounts exOutputs < uintMod → 0 < 10 →
        sumAmounts (chosenOf 10 exOutputs).dropLast < 10) :=
  ⟨by decide, selection_spec exOutputs 10 (by decide)⟩

/-- For the target 0 the selection takes exactly the first of the sorted outputs, an
output of the largest amount. -/
theorem chosen_zero (outputs : List TransactionOutput) (hne : outputs ≠ []) :
    ∃ o, (selectOutputs 0 (sortSlice outputs)).2 = [o] ∧ o ∈ outputs ∧
      ∀ u ∈ outputs, u.Amount ≤ o.Amount := by
  have hperm := sortSlice_perm outputs
  have hsorted := sortSlice_sorted outputs
  cases hs : sortSlice outputs with
  | nil => exact absurd hs (sortSlice_ne_nil hne)
  | cons o rest =>
    rw [hs] at hperm hsorted
    refine ⟨o, by simp [selectOutputs, chooseOutputs], hperm.subset (by simp), ?_⟩
    intro u hu
    have hu' : u ∈ o :: rest := hperm.symm.subset hu
    rcases List.mem_cons.mp hu' with h | h
    · rw [h]
    · exact List.rel_of_pairwise_cons hsorted h

/-- C3, as stated, fails: with two unspent outputs (3 and 7) and an empty receiver list the
requested amount is 0 and `SendMillix` selects one output, the one of amount 7; with no
unspent output at all it returns the error "No outputs to consume". -/
theorem zero_amount_selects_one :
    (∃ b, buildSendMillix exClient [{ Amount := 3 }, { Amount := 7 }] [] = Outcome.ok b ∧
      b.chosenOutputs = [{ Amount := 7 }] ∧ b.chosenOutputs.length ≠ 0) ∧
    buildSendMillix exClient [] [] = Outcome.error (Err.new "No outputs to consume") := by
  refine ⟨⟨_, rfl, ?_, ?_⟩, ?_⟩ <;> decide

/-- C3, amended. When the requested amount is 0, `SendMillix` on a non-empty set of unspent
outputs returns no error from the selection and selects exactly one output, an unspent
output of the largest amount, which becomes the only input and whose whole amount is the
change; on the empty set it returns the error "No outputs to consume". -/
theorem zero_amount_selection (c : Client) (outputs : List TransactionOutput)
    (receiverAmounts : List ReceiverAmount) (hzero : neededAmount receiverAmounts = 0) :
    (outputs = [] →
      buildSendMillix c outputs receiverAmounts =
        Outcome.error (Err.new "No outputs to consume")) ∧
    (outputs ≠ [] →
      ∃ b o, buildSendMillix c outputs receiverAmounts = Outcome.ok b ∧
        b.chosenOutputs = [o] ∧ o ∈ outputs ∧ (∀ u ∈ outputs, u.Amount ≤ o.Amount) ∧
        b.unsignedTx.InputList = [inputOfOutput o] ∧
        b.change = o.Amount % uintMod) := by
  constructor
  · intro h
    subst h
    simp [buildSendMillix, sortSlice]
  · intro hne
    obtain ⟨o, ho, hmem, hmax⟩ := chosen_zero outputs hne
    refine ⟨_, o, buildSendMillix_ok c outputs receiverAmounts hne, ?_, hmem, hmax, ?_, ?_⟩
    · simp only [hzero]
      exact ho
    · simp only [hzero, ho, List.map_cons, List.map_nil]
    · simp only [hzero, selectOutputs_amount, ho]
      simp [totalAmount, usub, uadd, uintMod]

/-- Witness of `zero_amount_selection`: the example outputs and an empty receiver list. -/
theorem zero_amount_selection_witness :
    neededAmount [] = 0 ∧
    ((exOutputs = [] →
      buildSendMillix exClient exOutputs [] =
        Outcome.error (Err.new "No outputs to consume")) ∧
    (exOutputs ≠ [] →
      ∃ b o, buildSendMillix exClient exOutputs [] = Outcome.ok b ∧
        b.chosenOutputs = [o] ∧ o ∈ exOutputs ∧ (∀ u ∈ exOutputs, u.Amount ≤ o.Amount) ∧
        b.unsignedTx.InputList = [inputOfOutput o] ∧
        b.change = o.Amount % uintMod)) :=
  ⟨by decide, zero_amount_selection exClient exOutputs [] (by decide)⟩

/-- C4. With `change` the `uint` difference the code computes, the output list of
`SendMillix` is the receivers' outputs, in receiver order and with the receivers' amounts,
followed by one change output (to the client's key identifier, of amount `change`) exactly
when `change > 0`; the output list of `SendMillixFromOutput` is the same receivers' outputs
preceded by the change output exactly when `change > 0`. When `change = 0` both lists are
the receivers' outputs alone. -/
theorem change_output_iff (c : Client) (outputs : List TransactionOutput)
    (output : TransactionOutput) (receiverAmounts : List ReceiverAmount)
    (hne : outputs ≠ []) :
    (∃ b, buildSendMillix c outputs receiverAmounts = Outcome.ok b ∧
      b.change = usub b.chosenAmount (neededAmount receiverAmounts) ∧
      (0 < b.change →
        b.unsignedTx.OutputList =
          receiverAmounts.map receiverOutput ++ [changeOutput c b.change]) ∧
      (b.change = 0 → b.unsignedTx.OutputList = receiverAmounts.map receiverOutput) ∧
      (b.unsignedTx.OutputList.length = receiverAmounts.length + 1 ↔ 0 < b.change)) ∧
    ((0 < usub output.Amount (neededAmount receiverAmounts) →
        (unsignedFromOutput c output receiverAmounts).OutputList =
          changeOutput c (usub output.Amount (neededAmount receiverAmounts)) ::
            receiverAmounts.map receiverOutput) ∧
      (usub output.Amount (neededAmount receiverAmounts) = 0 →
        (unsignedFromOutput c output receiverAmounts).OutputList =
          receiverAmounts.map receiverOutput) ∧
      ((unsignedFromOutput c output receiverAmounts).OutputList.length =
          receiverAmounts.length + 1 ↔
        0 < usub output.Amount (neededAmount receiverAmounts))) := by
  constructor
  · refine ⟨_, buildSendMillix_ok c outputs receiverAmounts hne, rfl, ?_, ?_, ?_⟩
    · intro h
      simp only [sendMillixOutputs]
      rw [if_pos h]
    · intro h
      have h0 : usub (selectOutputs (neededAmount receiverAmounts) (sortSlice outputs)).1
          (neededAmount receiverAmounts) = 0 := h
      simp only [sendMillixOutputs]
      rw [if_neg (by omega)]
    · simp only [sendMillixOutputs]
      split
      · rename_i h
        simp [h]
      · rename_i h
        simp [h]
  · refine ⟨?_, ?_, ?_⟩
    · intro h
      simp [unsignedFromOutput, h]
    · intro h
      simp [unsignedFromOutput, h]
    · simp only [unsignedFromOutput]
      split
      · rename_i h
        simp [h]
      · rename_i h
        simp [h]

/-- Witness of `change_output_iff`: the example outputs and receivers (change 2 in
`SendMillix`, change 0 from a root output of amount 10). -/
theorem change_output_iff_witness :
    exOutputs ≠ [] ∧
    ((∃ b, buildSendMillix exClient exOutputs exReceivers = Outcome.ok b ∧
      b.change = usub b.chosenAmount (neededAmount exReceivers) ∧
      (0 < b.change →
        b.unsignedTx.OutputList =
          exReceivers.map receiverOutput ++ [changeOutput exClient b.change]) ∧
      (b.change = 0 → b.unsignedTx.OutputList = exReceivers.map receiverOutput) ∧
      (b.unsignedTx.OutputList.length = exReceivers.length + 1 ↔ 0 < b.change)) ∧
    ((0 < usub 10 (neededAmount exReceivers) →
        (unsignedFromOutput exClient { Amount := 10 } exReceivers).OutputList =
          changeOutput exClient (usub 10 (neededAmount exReceivers)) ::
            exReceivers.map receiverOutput) ∧
      (usub 10 (neededAmount exReceivers) = 0 →
        (unsignedFromOutput exClient { Amount := 10 } exReceivers).OutputList =
          exReceivers.map receiverOutput) ∧
      ((unsignedFromOutput exClient { Amount := 10 } exReceivers).OutputList.length =
          exReceivers.length + 1 ↔
        0 < usub 10 (neededAmount exReceivers)))) :=
  ⟨by decide, change_output_iff exClient exOutputs { Amount := 10 } exReceivers (by decide)⟩

/-! ## The round loop of `PrepareOutputs` -/

/-- What the round loop guarantees whenever it ends: the rounds it adds are chained from
the current root, the transactions it adds are the ones its rounds obtained, an error is
always a wrapped one, and a normal end means that every round obtained a transaction and
that the counter ran from `i` to `rounds` without wrapping. -/
theorem roundsLoop_spec (api : NodeAPI) (lc : LoadClient) (K R : Nat) :
    ∀ (fuel i : Nat) (chosen : TransactionOutput) (txs : List Transaction) (h : List Call)
      (rs : List Round) (run : RoundsRun),
      roundsLoop api lc K R fuel i chosen txs h rs = some run →
      ∃ new, run.rounds = rs ++ new ∧ ChainFrom lc K chosen new ∧
        run.transactions = txs ++ new.filterMap (fun r => r.tx) ∧
        (run.outcome = Outcome.ok () →
          new.map (fun r => r.tx) = (new.filterMap (fun r => r.tx)).map some) ∧
        (∀ e, run.outcome = Outcome.error e → ∃ e0, e = Err.wrap e0 "Failed to send millix") ∧
        (run.outcome = Outcome.ok () → i ≤ R + 1 → i < uintMod →
          R + 1 < uintMod ∧ new.length = R + 1 - i) := by
  intro fuel
  induction fuel with
  | zero =>
    intro i chosen txs h rs run hrun
    simp [roundsLoop] at hrun
  | succ fuel ih =>
    intro i chosen txs h rs run hrun
    unfold roundsLoop at hrun
    by_cases hi : i ≤ R
    · simp only [hi, if_true] at hrun
      by_cases hcap : maxSliceLen < K
      · simp only [hcap, if_true, Option.some.injEq] at hrun
        subst hrun
        exact ⟨[], by simp, by simp [ChainFrom], by simp, fun hok => (by simp at hok),
          fun e he => (by simp at he), fun hok => (by simp at hok)⟩
      simp only [hcap, if_false] at hrun
      rcases hres : SendMillixFromOutput api lc.millixClient h chosen (roundReceivers lc K)
        with ⟨⟨otx, oerr⟩, h1⟩
      rw [hres] at hrun
      cases oerr with
      | some err =>
        simp only [Option.some.injEq] at hrun
        subst hrun
        refine ⟨[_], rfl, ?_, ?_, ?_, ?_, ?_⟩
        · simp [ChainFrom]
        · simp
        · intro hok
          simp at hok
        · intro e he
          simp only [Outcome.error.injEq] at he
          exact ⟨err, he.symm⟩
        · intro hok
          simp at hok
      | none =>
        cases otx with
        | none =>
          simp only [Option.some.injEq] at hrun
          subst hrun
          refine ⟨[_], rfl, ?_, ?_, ?_, ?_, ?_⟩
          · simp [ChainFrom]
          · simp
          · intro hok
            simp at hok
          · intro e he
            simp at he
          · intro hok
            simp at hok
        | some tx =>
          simp only at hrun
          obtain ⟨new, hrounds, hchain, htxs, hall, herr, hcount⟩ := ih _ _ _ _ _ _ hrun
          refine ⟨{ root := chosen,
                    unsignedTx := unsignedFromOutput lc.millixClient chosen (roundReceivers lc K),
                    tx := some tx } :: new, ?_, ?_, ?_, ?_, herr, ?_⟩
          · rw [hrounds]
            simp
          · simp only [ChainFrom, true_and]
            exact hchain
          · rw [htxs]
            simp
          · intro hok
            simp [hall hok]
          · intro hok hle hlt
            by_cases hw : i + 1 < uintMod
            · have hu : uadd i 1 = i + 1 := uadd_eq_of_lt hw
              rw [hu] at hcount
              obtain ⟨h1, h2⟩ := hcount hok (by omega) hw
              refine ⟨h1, ?_⟩
              simp only [List.length_cons, h2]
              omega
            · have hu : uadd i 1 = 0 := by
                unfold uadd uintMod at *
                omega
              rw [hu] at hcount
              obtain ⟨h1, _⟩ := hcount hok (by omega) (by unfold uintMod; omega)
              omega
    · simp only [hi, if_false, Option.some.injEq] at hrun
      subst hrun
      refine ⟨[], by simp, by simp [ChainFrom], by simp, by simp, ?_, ?_⟩
      · intro e he
        simp at he
      · intro _ hle hlt
        simp only [List.length_nil]
        omega

/-- With a counter that cannot wrap, the round loop ends within `rounds + 2 - i` iterations. -/
theorem roundsLoop_returns (api : NodeAPI) (lc : LoadClient) (K R : Nat) (hR : R + 1 < uintMod) :
    ∀ (fuel i : Nat) (chosen : TransactionOutput) (txs : List Transaction) (h : List Call)
      (rs : List Round), i ≤ R + 1 → R + 2 - i ≤ fuel →
      ∃ run, roundsLoop api lc K R fuel i chosen txs h rs = some run := by
  intro fuel
  induction fuel with
  | zero =>
    intro i chosen txs h rs hi hf
    omega
  | succ fuel ih =>
    intro i chosen txs h rs hi hf
    unfold roundsLoop
    by_cases hle : i ≤ R
    · simp only [hle, if_true]
      by_cases hcap : maxSliceLen < K
      · simp only [hcap, if_true]
        exact ⟨_, rfl⟩
      simp only [hcap, if_false]
      rcases hres : SendMillixFromOutput api lc.millixClient h chosen (roundReceivers lc K)
        with ⟨⟨otx, oerr⟩, h1⟩
      cases oerr with
      | some err =>
        simp only
        exact ⟨_, rfl⟩
      | none =>
        cases otx with
        | none =>
          simp only
          exact ⟨_, rfl⟩
        | some tx =>
          simp only
          have hu : uadd i 1 = i + 1 := uadd_eq_of_lt (by omega)
          rw [hu]
          exact ih _ _ _ _ _ (by omega) (by omega)
    · simp only [hle, if_false]
      exact ⟨_, rfl⟩

/-- Every way `PrepareOutputs` ends: either before the first round, with an error or a panic
and the load client unchanged, or after the round loop was run from the first of the
sorted outputs. -/
theorem PrepareOutputs_inv (api : NodeAPI) (lc : LoadClient) (fuel : Nat) (h : List Call)
    (total K : Nat) (prun : PrepareRun)
    (hrun : PrepareOutputs api lc fuel h total K = some prun) :
    (prun.rounds = [] ∧ prun.outcome ≠ Outcome.ok () ∧ prun.lc = lc) ∨
    ∃ outputs root rest run,
      api.VerifyNodeID h = none ∧
      api.GetUnspentTransactionOutputs (h ++ [Call.verifyNodeID]) lc.keyIdentifier =
        .ok outputs ∧
      outputs ≠ [] ∧ sortSlice outputs = root :: rest ∧ total ≤ root.Amount ∧ K ≠ 0 ∧
      roundsLoop api lc K (total / K) fuel 1 root []
        (h ++ [Call.verifyNodeID, Call.getUnspent lc.keyIdentifier]) [] = some run ∧
      prun.rounds = run.rounds ∧
      (prun.outcome = Outcome.ok () →
        run.outcome = Outcome.ok () ∧
        prun.lc = { lc with preparedTransactions := run.transactions }) ∧
      (prun.outcome ≠ Outcome.ok () → prun.lc = lc) := by
  simp only [PrepareOutputs, List.append_assoc, List.singleton_append] at hrun
  cases hv : api.VerifyNodeID h with
  | some err =>
    simp only [hv, Option.some.injEq] at hrun
    subst hrun
    left
    simp
  | none =>
    simp only [hv] at hrun
    cases hq : api.GetUnspentTransactionOutputs (h ++ [Call.verifyNodeID]) lc.keyIdentifier with
    | error err =>
      simp only [hq, Option.some.injEq] at hrun
      subst hrun
      left
      simp
    | ok outputs =>
      simp only [hq] at hrun
      by_cases hlen : outputs.length = 0
      · simp only [hlen, if_true, Option.some.injEq] at hrun
        subst hrun
        left
        simp
      · simp only [hlen, if_false] at hrun
        cases hs : sortSlice outputs with
        | nil =>
          simp only [hs, Option.some.injEq] at hrun
          subst hrun
          left
          simp
        | cons root rest =>
          simp only [hs] at hrun
          by_cases hamt : root.Amount < total
          · simp only [hamt, if_true, Option.some.injEq] at hrun
            subst hrun
            left
            simp
          · simp only [hamt, if_false] at hrun
            by_cases hK : K = 0
            · simp only [hK, if_true, Option.some.injEq] at hrun
              subst hrun
              left
              simp
            · simp only [hK, if_false] at hrun
              cases hl : roundsLoop api lc K (total / K) fuel 1 root []
                  (h ++ [Call.verifyNodeID, Call.getUnspent lc.keyIdentifier]) [] with
              | none =>
                simp [hl] at hrun
              | some run =>
                simp only [hl] at hrun
                right
                refine ⟨outputs, root, rest, run, rfl, rfl, ?_, hs, by omega, hK, hl, ?_⟩
                · intro h0
                  exact hlen (by simp [h0])
                · cases ho : run.outcome with
                  | ok u =>
                    simp only [ho] at hrun
                    cases hq2 : api.GetUnspentTransactionOutputs run.calls lc.keyIdentifier with
                    | error err =>
                      simp only [hq2, Option.some.injEq] at hrun
                      subst hrun
                      simp
                    | ok outs2 =>
                      simp only [hq2, Option.some.injEq] at hrun
                      subst hrun
                      simp
                  | error e =>
                    simp only [ho, Option.some.injEq] at hrun
                    subst hrun
                    simp
                  | panic msg =>
                    simp only [ho, Option.some.injEq] at hrun
                    subst hrun
                    simp

/-- The receivers of one round ask for `outputPerTxCount` in total. -/
theorem neededAmount_roundReceivers (lc : LoadClient) (K : Nat) (hK : K < uintMod) :
    neededAmount (roundReceivers lc K) = K := by
  have key : ∀ (r : ReceiverAmount), r.Amount = 1 → ∀ (n acc : Nat), acc + n < uintMod →
      (List.replicate n r).foldl (fun acc r => uadd acc r.Amount) acc = acc + n := by
    intro r hr n
    induction n with
    | zero => intro acc _; simp
    | succ n ih =>
      intro acc hacc
      simp only [List.replicate_succ, List.foldl_cons, hr]
      rw [uadd_eq_of_lt (by omega), ih (acc + 1) (by omega)]
      omega
  have := key { Amount := 1, AddressBase := lc.addressBase, KeyIdentifier := lc.keyIdentifier }
    rfl K 0 (by omega)
  simpa [neededAmount, roundReceivers] using this

/-- In a chain of rounds every round spends its own root with the transaction built from it,
and a round followed by another one obtained the transaction the next root comes from. -/
theorem chain_step (lc : LoadClient) (K : Nat) :
    ∀ (rs : List Round) (chosen : TransactionOutput), ChainFrom lc K chosen rs →
      (∀ (j : Nat) (r : Round), rs[j]? = some r →
        r.unsignedTx = unsignedFromOutput lc.millixClient r.root (roundReceivers lc K)) ∧
      (∀ r : Round, rs[0]? = some r → r.root = chosen) ∧
      (∀ (j : Nat) (r r1 : Round), rs[j]? = some r → rs[j + 1]? = some r1 →
        ∃ tx, r.tx = some tx ∧ r1.root = nextRoot K r.root tx) := by
  intro rs
  induction rs with
  | nil =>
    intro chosen _
    simp
  | cons r0 rs ih =>
    intro chosen hchain
    obtain ⟨hroot, hun, hrest⟩ := hchain
    cases htx : r0.tx with
    | none =>
      rw [htx] at hrest
      simp only at hrest
      subst hrest
      refine ⟨?_, ?_, ?_⟩
      · intro j r hj
        cases j with
        | zero =>
          simp only [List.getElem?_cons_zero, Option.some.injEq] at hj
          subst hj
          rw [hun, hroot]
        | succ j => simp at hj
      · intro r hr
        simp only [List.getElem?_cons_zero, Option.some.injEq] at hr
        subst hr
        exact hroot
      · intro j r r1 _ hj1
        simp at hj1
    | some tx =>
      rw [htx] at hrest
      simp only at hrest
      obtain ⟨ih1, ih2, ih3⟩ := ih _ hrest
      refine ⟨?_, ?_, ?_⟩
      · intro j r hj
        cases j with
        | zero =>
          simp only [List.getElem?_cons_zero, Option.some.injEq] at hj
          subst hj
          rw [hun, hroot]
        | succ j =>
          simp only [List.getElem?_cons_succ] at hj
          exact ih1 j r hj
      · intro r hr
        simp only [List.getElem?_cons_zero, Option.some.injEq] at hr
        subst hr
        exact hroot
      · intro j r r1 hj hj1
        cases j with
        | zero =>
          simp only [List.getElem?_cons_zero, Option.some.injEq] at hj
          subst hj
          simp only [zero_add, List.getElem?_cons_succ] at hj1
          refine ⟨tx, htx, ?_⟩
          rw [ih2 r1 hj1, hroot]
        | succ j =>
          simp only [List.getElem?_cons_succ] at hj hj1
          exact ih3 j r r1 hj hj1

/-- While the root still covers them, the root amounts of a chain go down by
`outputPerTxCount` per round, without wrapping. -/
theorem chain_amount (lc : LoadClient) (K : Nat) :
    ∀ (rs : List Round) (chosen : TransactionOutput), ChainFrom lc K chosen rs →
      chosen.Amount < uintMod →
      ∀ (j : Nat) (r : Round), rs[j]? = some r → j * K ≤ chosen.Amount →
        r.root.Amount = chosen.Amount - j * K := by
  intro rs
  induction rs with
  | nil =>
    intro chosen _ _ j r hj
    simp at hj
  | cons r0 rs ih =>
    intro chosen hchain hA j r hj hle
    obtain ⟨hroot, _, hrest⟩ := hchain
    cases j with
    | zero =>
      simp only [List.getElem?_cons_zero, Option.some.injEq] at hj
      subst hj
      simp [hroot]
    | succ j =>
      simp only [List.getElem?_cons_succ] at hj
      cases htx : r0.tx with
      | none =>
        rw [htx] at hrest
        simp only at hrest
        subst hrest
        simp at hj
      | some tx =>
        rw [htx] at hrest
        simp only at hrest
        have hmul : (j + 1) * K = j * K + K := Nat.succ_mul j K
        have hnext : (nextRoot K chosen tx).Amount = chosen.Amount - K := by
          simp only [nextRoot]
          exact usub_eq_of_le hA (by omega)
        have := ih _ hrest (by rw [hnext]; omega) j r hj (by rw [hnext]; omega)
        rw [this, hnext]
        omega

/-- The first of the sorted outputs is one of the outputs and has the largest amount. -/
theorem sortSlice_head_max {outputs rest : List TransactionOutput} {root : TransactionOutput}
    (hs : sortSlice outputs = root :: rest) :
    root ∈ outputs ∧ ∀ o ∈ outputs, o.Amount ≤ root.Amount := by
  have hperm := sortSlice_perm outputs
  have hsorted := sortSlice_sorted outputs
  rw [hs] at hperm hsorted
  refine ⟨hperm.subset (by simp), ?_⟩
  intro u hu
  have hu1 : u ∈ root :: rest := hperm.symm.subset hu
  rcases List.mem_cons.mp hu1 with h | h
  · rw [h]
  · exact List.rel_of_pairwise_cons hsorted h

/-- With a counter that cannot wrap, the round loop starts at most `rounds + 1 - i` rounds. -/
theorem roundsLoop_length_le (api : NodeAPI) (lc : LoadClient) (K R : Nat)
    (hR : R + 1 < uintMod) :
    ∀ (fuel i : Nat) (chosen : TransactionOutput) (txs : List Transaction) (h : List Call)
      (rs : List Round) (run : RoundsRun), i ≤ R + 1 →
      roundsLoop api lc K R fuel i chosen txs h rs = some run →
      run.rounds.length ≤ rs.length + (R + 1 - i) := by
  intro fuel
  induction fuel with
  | zero =>
    intro i chosen txs h rs run _ hrun
    simp [roundsLoop] at hrun
  | succ fuel ih =>
    intro i chosen txs h rs run hi hrun
    unfold roundsLoop at hrun
    by_cases hle : i ≤ R
    · simp only [hle, if_true] at hrun
      by_cases hcap : maxSliceLen < K
      · simp only [hcap, if_true, Option.some.injEq] at hrun
        subst hrun
        simp
      simp only [hcap, if_false] at hrun
      rcases hres : SendMillixFromOutput api lc.millixClient h chosen (roundReceivers lc K)
        with ⟨⟨otx, oerr⟩, h1⟩
      rw [hres] at hrun
      cases oerr with
      | some err =>
        simp only [Option.some.injEq] at hrun
        subst hrun
        simp only [List.length_append, List.length_singleton]
        omega
      | none =>
        cases otx with
        | none =>
          simp only [Option.some.injEq] at hrun
          subst hrun
          simp only [List.length_append, List.length_singleton]
          omega
        | some tx =>
          simp only at hrun
          have hu : uadd i 1 = i + 1 := uadd_eq_of_lt (by omega)
          rw [hu] at hrun
          have := ih _ _ _ _ _ _ (by omega) hrun
          simp only [List.length_append, List.length_singleton] at this
          omega
    · simp only [hle, if_false, Option.some.injEq] at hrun
      subst hrun
      simp

/-! ## Claims on `PrepareOutputs` -/

/-- C5. For `outputsPerBatch >= 1`, a call of `PrepareOutputs` that returns without error
has performed exactly `totalOutputs / outputsPerBatch` rounds (integer division, the
remainder is dropped), and the prepared transactions it stores are exactly the transactions
its rounds obtained, one per round and in round order. -/
theorem PrepareOutputs_round_count (api : NodeAPI) (lc : LoadClient) (fuel : Nat)
    (h : List Call) (total K : Nat) (run : PrepareRun)
    (_hK : 1 ≤ K)
    (hrun : PrepareOutputs api lc fuel h total K = some run)
    (hok : run.outcome = Outcome.ok ()) :
    run.rounds.length = total / K ∧
    run.lc.preparedTransactions.length = total / K ∧
    run.rounds.map (fun r => r.tx) = run.lc.preparedTransactions.map some := by
  rcases PrepareOutputs_inv api lc fuel h total K run hrun with ⟨_, hne, _⟩ |
    ⟨outputs, root, rest, lrun, _, _, _, _, _, _, hloop, hrounds, hokrun, _⟩
  · exact absurd hok hne
  · obtain ⟨hlok, hlc⟩ := hokrun hok
    obtain ⟨new, hnew, _, htxs, hall, _, hcount⟩ :=
      roundsLoop_spec api lc K (total / K) fuel 1 root [] _ [] lrun hloop
    have hR : total / K ≤ total := Nat.div_le_self total K
    generalize total / K = R at hR hcount ⊢
    obtain ⟨_, hlen⟩ := hcount hlok (by omega) (by unfold uintMod; omega)
    simp only [List.nil_append] at hnew htxs
    have hmap := hall hlok
    rw [hrounds, hlc, hnew]
    simp only
    rw [htxs]
    refine ⟨by omega, ?_, hmap⟩
    have := congrArg List.length hmap
    simp only [List.length_map] at this
    omega

/-- Witness of `PrepareOutputs_round_count`: 11 outputs asked for, 5 per transaction, from
unspent outputs of amounts 3 and 12: two rounds, the remainder 1 is dropped. -/
theorem PrepareOutputs_round_count_witness :
    1 ≤ 5 ∧
    PrepareOutputs (exApi [{ Amount := 3 }, { Amount := 12, TransactionID := "g" }])
      exLoadClient 4 [] 11 5 =
        some (exPrepare [{ Amount := 3 }, { Amount := 12, TransactionID := "g" }] 11 5) ∧
    (exPrepare [{ Amount := 3 }, { Amount := 12, TransactionID := "g" }] 11 5).outcome =
      Outcome.ok () ∧
    ((exPrepare [{ Amount := 3 }, { Amount := 12, TransactionID := "g" }] 11 5).rounds.length =
        11 / 5 ∧
      (exPrepare [{ Amount := 3 }, { Amount := 12, TransactionID := "g" }] 11
        5).lc.preparedTransactions.length = 11 / 5 ∧
      (exPrepare [{ Amount := 3 }, { Amount := 12, TransactionID := "g" }] 11 5).rounds.map
          (fun r => r.tx) =
        (exPrepare [{ Amount := 3 }, { Amount := 12, TransactionID := "g" }] 11
          5).lc.preparedTransactions.map some) :=
  ⟨by decide, rfl, rfl,
    PrepareOutputs_round_count (exApi [{ Amount := 3 }, { Amount := 12, TransactionID := "g" }])
      exLoadClient 4 [] 11 5 _ (by decide) rfl rfl⟩

/-- C7. In a run of `PrepareOutputs` on the unspent outputs `outputs` returned by the query,
the first round spends an unspent output of the largest amount; and for every later round
(round `j + 2`, up to round `totalOutputs / outputsPerBatch`) the round before it obtained a
transaction `tx`, the single input of the round references `tx.TransactionID` and
`tx.ShardID` at output position 0, the root amount of the round is the initial root amount
minus `(j + 1) * outputsPerBatch` (no wraparound), and this is the amount of the change
output that heads the output list of the round before. Unless `2 ^ 64 - 1` rounds are asked
for, the run has no other rounds. -/
theorem PrepareOutputs_chaining (api : NodeAPI) (lc : LoadClient) (fuel : Nat)
    (h : List Call) (total K : Nat) (outputs : List TransactionOutput) (run : PrepareRun)
    (hamounts : ∀ o ∈ outputs, o.Amount < uintMod)
    (hq : api.GetUnspentTransactionOutputs (h ++ [Call.verifyNodeID]) lc.keyIdentifier =
      .ok outputs)
    (hrun : PrepareOutputs api lc fuel h total K = some run) :
    (∀ r : Round, run.rounds[0]? = some r →
      r.root ∈ outputs ∧ (∀ o ∈ outputs, o.Amount ≤ r.root.Amount) ∧
      r.unsignedTx.InputList =
        [{ AddressBase := lc.millixClient.keyIdentifier,
           AddressKeyIdentifier := lc.millixClient.keyIdentifier,
           AddressVersion := "lal",
           OutputPosition := r.root.OutputPosition,
           OutputShardID := r.root.ShardID,
           OutputTransactionDate := r.root.TransactionDate,
           OutputTransactionID := r.root.TransactionID }]) ∧
    (∀ (j : Nat) (r0 r r1 : Round), j + 1 < total / K →
      run.rounds[0]? = some r0 → run.rounds[j]? = some r → run.rounds[j + 1]? = some r1 →
      ∃ tx, r.tx = some tx ∧
        r1.unsignedTx.InputList =
          [{ AddressBase := lc.millixClient.keyIdentifier,
             AddressKeyIdentifier := lc.millixClient.keyIdentifier,
             AddressVersion := "lal",
             OutputPosition := 0,
             OutputShardID := tx.ShardID,
             OutputTransactionID := tx.TransactionID }] ∧
        (j + 1) * K ≤ r0.root.Amount ∧
        r1.root.Amount = r0.root.Amount - (j + 1) * K ∧
        r.unsignedTx.OutputList.head? = some (changeOutput lc.millixClient r1.root.Amount)) ∧
    (total / K + 1 < uintMod → run.rounds.length ≤ total / K) := by
  rcases PrepareOutputs_inv api lc fuel h total K run hrun with ⟨hnil, _, _⟩ |
    ⟨outputs1, root, rest, lrun, _, hq1, _, hs, hle, hK, hloop, hrounds, _, _⟩
  · rw [hnil]
    simp
  · rw [hq] at hq1
    have hout : outputs = outputs1 := by
      injection hq1
    subst hout
    obtain ⟨hmem, hmax⟩ := sortSlice_head_max hs
    have hA : root.Amount < uintMod := hamounts root hmem
    obtain ⟨new, hnew, hchain, _⟩ :=
      roundsLoop_spec api lc K (total / K) fuel 1 root [] _ [] lrun hloop
    simp only [List.nil_append] at hnew
    obtain ⟨hun, hfirst, hnext⟩ := chain_step lc K new root hchain
    have hamt := chain_amount lc K new root hchain hA
    rw [hrounds, hnew]
    refine ⟨?_, ?_, ?_⟩
    · intro r hr
      have hroot := hfirst r hr
      rw [hun 0 r hr, hroot]
      exact ⟨hmem, hmax, rfl⟩
    · intro j r0 r r1 hj hr0 hr hr1
      obtain ⟨tx, htx, hr1root⟩ := hnext j r r1 hr hr1
      have hroot0 := hfirst r0 hr0
      have hRK : total / K * K ≤ total := Nat.div_mul_le_self total K
      have hjK : (j + 2) * K ≤ total / K * K := Nat.mul_le_mul_right K (by omega)
      have hKpos : 0 < K := Nat.pos_of_ne_zero hK
      have h1 : (j + 1) * K = j * K + K := Nat.succ_mul j K
      have h2 : (j + 2) * K = j * K + K + K := by
        rw [Nat.succ_mul (j + 1) K, h1]
      have ha : r.root.Amount = root.Amount - j * K := hamt j r hr (by omega)
      have ha1 : r1.root.Amount = root.Amount - (j + 1) * K := hamt (j + 1) r1 hr1 (by omega)
      have hKlt : K < uintMod := by omega
      have hchange : usub r.root.Amount (neededAmount (roundReceivers lc K)) =
          r1.root.Amount := by
        rw [neededAmount_roundReceivers lc K hKlt, usub_eq_of_le (by omega) (by omega)]
        omega
      refine ⟨tx, htx, ?_, by rw [hroot0]; omega, by rw [hroot0]; exact ha1, ?_⟩
      · rw [hun (j + 1) r1 hr1, hr1root]
        rfl
      · rw [hun j r hr]
        simp only [unsignedFromOutput, hchange]
        have hpos : r1.root.Amount > 0 := by omega
        simp [hpos]
    · intro hR
      have := roundsLoop_length_le api lc K (total / K) hR fuel 1 root [] _ [] lrun
        (Nat.le_add_left 1 _) hloop
      rw [hnew] at this
      simpa using this

/-- Witness of `PrepareOutputs_chaining`: 15 outputs, 5 per transaction, from unspent
outputs of amounts 3 and 20 (three chained rounds). -/
theorem PrepareOutputs_chaining_witness :
    (∀ o ∈ exUnspent, o.Amount < uintMod) ∧
    (exApi exUnspent).GetUnspentTransactionOutputs ([] ++ [Call.verifyNodeID])
      exLoadClient.keyIdentifier = .ok exUnspent ∧
    PrepareOutputs (exApi exUnspent) exLoadClient 4 [] 15 5 = some (exPrepare exUnspent 15 5) ∧
    ((∀ r : Round, (exPrepare exUnspent 15 5).rounds[0]? = some r →
      r.root ∈ exUnspent ∧ (∀ o ∈ exUnspent, o.Amount ≤ r.root.Amount) ∧
      r.unsignedTx.InputList =
        [{ AddressBase := exLoadClient.millixClient.keyIdentifier,
           AddressKeyIdentifier := exLoadClient.millixClient.keyIdentifier,
           AddressVersion := "lal",
           OutputPosition := r.root.OutputPosition,
           OutputShardID := r.root.ShardID,
           OutputTransactionDate := r.root.TransactionDate,
           OutputTransactionID := r.root.TransactionID }]) ∧
    (∀ (j : Nat) (r0 r r1 : Round), j + 1 < 15 / 5 →
      (exPrepare exUnspent 15 5).rounds[0]? = some r0 →
      (exPrepare exUnspent 15 5).rounds[j]? = some r →
      (exPrepare exUnspent 15 5).rounds[j + 1]? = some r1 →
      ∃ tx, r.tx = some tx ∧
        r1.unsignedTx.InputList =
          [{ AddressBase := exLoadClient.millixClient.keyIdentifier,
             AddressKeyIdentifier := exLoadClient.millixClient.keyIdentifier,
             AddressVersion := "lal",
             OutputPosition := 0,
             OutputShardID := tx.ShardID,
             OutputTransactionID := tx.TransactionID }] ∧
        (j + 1) * 5 ≤ r0.root.Amount ∧
        r1.root.Amount = r0.root.Amount - (j + 1) * 5 ∧
        r.unsignedTx.OutputList.head? =
          some (changeOutput exLoadClient.millixClient r1.root.Amount)) ∧
    (15 / 5 + 1 < uintMod → (exPrepare exUnspent 15 5).rounds.length ≤ 15 / 5)) :=
  ⟨by decide, rfl, rfl,
    PrepareOutputs_chaining (exApi exUnspent) exLoadClient 4 [] 15 5 exUnspent _ (by decide)
      rfl rfl⟩

/-- Once the largest unspent output covers `totalOutputs`, `PrepareOutputs` never returns
an unwrapped error: every error of the rounds and of the final query is wrapped. -/
theorem PrepareOutputs_funded (api : NodeAPI) (lc : LoadClient) (fuel : Nat) (h : List Call)
    (total K : Nat) (outputs rest : List TransactionOutput) (root : TransactionOutput)
    (run : PrepareRun)
    (hv : api.VerifyNodeID h = none)
    (hq : api.GetUnspentTransactionOutputs (h ++ [Call.verifyNodeID]) lc.keyIdentifier =
      .ok outputs)
    (hs : sortSlice outputs = root :: rest) (hle : total ≤ root.Amount)
    (hrun : PrepareOutputs api lc fuel h total K = some run) :
    ∀ msg, run.outcome ≠ Outcome.error (Err.new msg) := by
  have hlen : ¬ (outputs.length = 0) := by
    intro h0
    have := (sortSlice_perm outputs).length_eq
    rw [hs] at this
    simp at this
    omega
  have hamt : ¬ (root.Amount < total) := by omega
  simp only [PrepareOutputs, List.append_assoc, List.singleton_append, hv, hq, hlen, hs, hamt,
    if_false] at hrun
  intro msg
  by_cases hK : K = 0
  · simp only [hK, if_true, Option.some.injEq] at hrun
    subst hrun
    simp
  · simp only [hK, if_false] at hrun
    cases hl : roundsLoop api lc K (total / K) fuel 1 root []
        (h ++ [Call.verifyNodeID, Call.getUnspent lc.keyIdentifier]) [] with
    | none => simp [hl] at hrun
    | some lrun =>
      simp only [hl] at hrun
      obtain ⟨_, _, _, _, _, herr, _⟩ := roundsLoop_spec api lc K (total / K) fuel 1 root [] _ []
        lrun hl
      cases ho : lrun.outcome with
      | ok u =>
        simp only [ho] at hrun
        cases hq2 : api.GetUnspentTransactionOutputs lrun.calls lc.keyIdentifier with
        | error err =>
          simp only [hq2, Option.some.injEq] at hrun
          subst hrun
          simp
        | ok outs2 =>
          simp only [hq2, Option.some.injEq] at hrun
          subst hrun
          simp
      | error e =>
        simp only [ho, Option.some.injEq] at hrun
        subst hrun
        obtain ⟨e0, he0⟩ := herr e ho
        simp [he0]
      | panic m =>
        simp only [ho, Option.some.injEq] at hrun
        subst hrun
        simp

/-- C8. After a successful identity check and a successful query returning `outputs`:
on the empty set `PrepareOutputs` returns the error "No outputs", and when every unspent
output is below `totalOutputs` it returns "Insufficient fund in the biggest output", in both
cases with no round started and no call made besides the check and the query; it returns
one of these two errors only in these two cases; and in every other case the root of the
first round is the first of the sorted outputs, an unspent output of the largest amount. -/
theorem PrepareOutputs_precondition (api : NodeAPI) (lc : LoadClient) (fuel : Nat)
    (h : List Call) (total K : Nat) (outputs : List TransactionOutput)
    (hv : api.VerifyNodeID h = none)
    (hq : api.GetUnspentTransactionOutputs (h ++ [Call.verifyNodeID]) lc.keyIdentifier =
      .ok outputs) :
    (outputs = [] →
      PrepareOutputs api lc fuel h total K =
        some { outcome := Outcome.error (Err.new "No outputs"), lc := lc,
               calls := h ++ [Call.verifyNodeID, Call.getUnspent lc.keyIdentifier],
               rounds := [] }) ∧
    (outputs ≠ [] → (∀ o ∈ outputs, o.Amount < total) →
      PrepareOutputs api lc fuel h total K =
        some { outcome := Outcome.error (Err.new "Insufficient fund in the biggest output"),
               lc := lc,
               calls := h ++ [Call.verifyNodeID, Call.getUnspent lc.keyIdentifier],
               rounds := [] }) ∧
    (∀ run, PrepareOutputs api lc fuel h total K = some run →
      (run.outcome = Outcome.error (Err.new "No outputs") ∨
        run.outcome = Outcome.error (Err.new "Insufficient fund in the biggest output")) →
      outputs = [] ∨ ∀ o ∈ outputs, o.Amount < total) ∧
    (outputs ≠ [] →
      ∃ root rest, sortSlice outputs = root :: rest ∧ root ∈ outputs ∧
        (∀ o ∈ outputs, o.Amount ≤ root.Amount) ∧
        ∀ (run : PrepareRun) (r : Round), PrepareOutputs api lc fuel h total K = some run →
          run.rounds[0]? = some r → r.root = root) := by
  refine ⟨?_, ?_, ?_, ?_⟩
  · intro h0
    subst h0
    simp [PrepareOutputs, hv, hq]
  · intro hne hall
    have hlen : ¬ (outputs.length = 0) := by
      intro h0
      exact hne (List.length_eq_zero.mp h0)
    cases hs : sortSlice outputs with
    | nil => exact absurd hs (sortSlice_ne_nil hne)
    | cons root rest =>
      have hlt : root.Amount < total := hall root (sortSlice_head_max hs).1
      simp [PrepareOutputs, hv, hq, hlen, hs, hlt]
  · intro run hrun herr
    by_cases hne : outputs = []
    · exact Or.inl hne
    · right
      cases hs : sortSlice outputs with
      | nil => exact absurd hs (sortSlice_ne_nil hne)
      | cons root rest =>
        by_cases hlt : root.Amount < total
        · intro o ho
          have := (sortSlice_head_max hs).2 o ho
          omega
        · exfalso
          have hno := PrepareOutputs_funded api lc fuel h total K outputs rest root run hv hq hs
            (by omega) hrun
          rcases herr with he | he
          · exact hno _ he
          · exact hno _ he
  · intro hne
    cases hs : sortSlice outputs with
    | nil => exact absurd hs (sortSlice_ne_nil hne)
    | cons root rest =>
      obtain ⟨hmem, hmax⟩ := sortSlice_head_max hs
      refine ⟨root, rest, rfl, hmem, hmax, ?_⟩
      intro run r hrun hr
      rcases PrepareOutputs_inv api lc fuel h total K run hrun with ⟨hnil, _, _⟩ |
        ⟨outputs1, root1, rest1, lrun, _, hq1, _, hs1, _, _, hloop, hrounds, _, _⟩
      · rw [hnil] at hr
        simp at hr
      · rw [hq] at hq1
        have hout : outputs = outputs1 := by
          injection hq1
        subst hout
        rw [hs] at hs1
        have hroot : root = root1 := by
          injection hs1
        subst hroot
        obtain ⟨new, hnew, hchain, _⟩ :=
          roundsLoop_spec api lc K (total / K) fuel 1 root [] _ [] lrun hloop
        simp only [List.nil_append] at hnew
        rw [hrounds, hnew] at hr
        exact (chain_step lc K new root hchain).2.1 r hr

/-- Witness of `PrepareOutputs_precondition`: the example node with unspent outputs of
amounts 3 and 20, asked for 15 outputs. -/
theorem PrepareOutputs_precondition_witness :
    (exApi exUnspent).VerifyNodeID [] = none ∧
    (exApi exUnspent).GetUnspentTransactionOutputs ([] ++ [Call.verifyNodeID])
      exLoadClient.keyIdentifier = .ok exUnspent ∧
    ((exUnspent = [] →
      PrepareOutputs (exApi exUnspent) exLoadClient 4 [] 15 5 =
        some { outcome := Outcome.error (Err.new "No outputs"), lc := exLoadClient,
               calls := [] ++ [Call.verifyNodeID, Call.getUnspent exLoadClient.keyIdentifier],
               rounds := [] }) ∧
    (exUnspent ≠ [] → (∀ o ∈ exUnspent, o.Amount < 15) →
      PrepareOutputs (exApi exUnspent) exLoadClient 4 [] 15 5 =
        some { outcome := Outcome.error (Err.new "Insufficient fund in the biggest output"),
               lc := exLoadClient,
               calls := [] ++ [Call.verifyNodeID, Call.getUnspent exLoadClient.keyIdentifier],
               rounds := [] }) ∧
    (∀ run, PrepareOutputs (exApi exUnspent) exLoadClient 4 [] 15 5 = some run →
      (run.outcome = Outcome.error (Err.new "No outputs") ∨
        run.outcome = Outcome.error (Err.new "Insufficient fund in the biggest output")) →
      exUnspent = [] ∨ ∀ o ∈ exUnspent, o.Amount < 15) ∧
    (exUnspent ≠ [] →
      ∃ root rest, sortSlice exUnspent = root :: rest ∧ root ∈ exUnspent ∧
        (∀ o ∈ exUnspent, o.Amount ≤ root.Amount) ∧
        ∀ (run : PrepareRun) (r : Round),
          PrepareOutputs (exApi exUnspent) exLoadClient 4 [] 15 5 = some run →
          run.rounds[0]? = some r → r.root = root)) :=
  ⟨rfl, rfl, PrepareOutputs_precondition (exApi exUnspent) exLoadClient 4 [] 15 5 exUnspent
    rfl rfl⟩

/-- C6, evaluated where it fails. The only unspent output has amount 10, and 10 outputs are
asked for, 5 per transaction. `PrepareOutputs` succeeds with two rounds. The second round
spends a root of amount 5, so its change is 0 and no change output is built: its output
list is the 5 outputs of amount 1 alone, at positions 0 to 4. The dispatch queue built by
`prepareTransactions` nevertheless references position 5 of that transaction. -/
theorem PrepareOutputs_exact_funding :
    PrepareOutputs (exApi exExact) exLoadClient 4 [] 10 5 = some (exPrepare exExact 10 5) ∧
    (exPrepare exExact 10 5).outcome = Outcome.ok () ∧
    ∃ r tx queue, (exPrepare exExact 10 5).rounds[1]? = some r ∧
      r.root.Amount = 5 ∧
      r.unsignedTx.OutputList =
        List.replicate 5
          { AddressBase := "base1", AddressVersion := "lal", AddressKeyIdentifier := "key1",
            Amount := 1 } ∧
      r.unsignedTx.OutputList.length = 5 ∧
      r.tx = some tx ∧
      prepareTransactions (exPrepare exExact 10 5).lc 6 = some queue ∧
      queuedTx exLoadClient tx 5 ∈ queue := by
  refine ⟨rfl, rfl, _, _, _, rfl, ?_, ?_, ?_, rfl, rfl, ?_⟩ <;> decide

/-! ## The dispatch queue (`prepareTransactions`) -/

theorem dispatchTx_eq (lc : LoadClient) (tx : Transaction) (p : Nat) :
    dispatchTx lc tx p = queuedTx lc tx p := rfl

/-- With a counter that cannot wrap, the inner loop of `prepareTransactions` appends the
transactions for the positions `i, i + 1, ..., outputsPerTxCount`. -/
theorem expandLoop_spec (lc : LoadClient) (tx : Transaction)
    (hK : lc.outputsPerTxCount + 1 < uintMod) :
    ∀ (fuel i : Nat) (acc : List UnsignedTransaction), i ≤ lc.outputsPerTxCount + 1 →
      lc.outputsPerTxCount + 2 - i ≤ fuel →
      expandLoop lc tx fuel i acc =
        some (acc ++ (List.range' i (lc.outputsPerTxCount + 1 - i)).map (queuedTx lc tx)) := by
  intro fuel
  induction fuel with
  | zero =>
    intro i acc hi hf
    omega
  | succ fuel ih =>
    intro i acc hi hf
    unfold expandLoop
    by_cases hle : i ≤ lc.outputsPerTxCount
    · simp only [hle, if_true]
      rw [uadd_eq_of_lt (by omega), ih (i + 1) _ (by omega) (by omega)]
      have hlen : lc.outputsPerTxCount + 1 - i = (lc.outputsPerTxCount + 1 - (i + 1)) + 1 := by
        omega
      rw [hlen, List.range'_succ, List.map_cons, dispatchTx_eq]
      simp
    · simp only [hle, if_false]
      have hlen : lc.outputsPerTxCount + 1 - i = 0 := by omega
      rw [hlen]
      simp

/-- With `outputsPerTxCount = 2 ^ 64 - 1` the counter of the inner loop wraps before it can
exceed the bound: the loop does not end, whatever the fuel. -/
theorem expandLoop_diverges (lc : LoadClient) (tx : Transaction)
    (hK : lc.outputsPerTxCount + 1 = uintMod) :
    ∀ (fuel i : Nat) (acc : List UnsignedTransaction), i < uintMod →
      expandLoop lc tx fuel i acc = none := by
  intro fuel
  induction fuel with
  | zero =>
    intro i acc _
    rfl
  | succ fuel ih =>
    intro i acc hi
    unfold expandLoop
    have hle : i ≤ lc.outputsPerTxCount := by omega
    simp only [hle, if_true]
    exact ih _ _ (uadd_lt _ _)

/-- With a counter that cannot wrap, the outer loop of `prepareTransactions` appends, for
each prepared transaction in order, the transactions for the positions 1 to
`outputsPerTxCount`. -/
theorem prepareLoop_spec (lc : LoadClient) (fuel : Nat)
    (hK : lc.outputsPerTxCount + 1 < uintMod) (hfuel : lc.outputsPerTxCount + 1 ≤ fuel) :
    ∀ (txs : List Transaction) (acc : List UnsignedTransaction),
      prepareLoop lc fuel txs acc =
        some (acc ++ (txs.map (fun tx =>
          (List.range' 1 lc.outputsPerTxCount).map (queuedTx lc tx))).flatten) := by
  intro txs
  induction txs with
  | nil =>
    intro acc
    simp [prepareLoop]
  | cons tx txs ih =>
    intro acc
    unfold prepareLoop
    rw [expandLoop_spec lc tx hK fuel 1 acc (by omega) (by omega)]
    simp only [Nat.add_sub_cancel]
    rw [ih]
    simp

/-- The element at index `b * K + q` of the concatenation of blocks of length `K`. -/
theorem flatten_blocks_get {α β : Type} (f : α → Nat → β) (K : Nat) :
    ∀ (xs : List α) (b q : Nat) (x : α), xs[b]? = some x → q < K →
      ((xs.map (fun x => (List.range' 1 K).map (f x))).flatten)[b * K + q]? =
        some (f x (1 + q)) := by
  intro xs
  induction xs with
  | nil =>
    intro b q x hb _
    simp at hb
  | cons y ys ih =>
    intro b q x hb hq
    simp only [List.map_cons, List.flatten_cons]
    cases b with
    | zero =>
      simp only [List.getElem?_cons_zero, Option.some.injEq] at hb
      subst hb
      simp only [Nat.zero_mul, Nat.zero_add]
      rw [List.getElem?_append_left (by simpa using hq)]
      simp [List.getElem?_range', hq]
    | succ b =>
      simp only [List.getElem?_cons_succ] at hb
      have hidx : (b + 1) * K + q = K + (b * K + q) := by
        rw [Nat.succ_mul]
        omega
      rw [hidx, List.getElem?_append_right (by simp)]
      simp only [List.length_map, List.length_range', Nat.add_sub_cancel_left]
      exact ih b q x hb hq

theorem flatten_blocks_length {α β : Type} (f : α → Nat → β) (K : Nat) (xs : List α) :
    ((xs.map (fun x => (List.range' 1 K).map (f x))).flatten).length = xs.length * K := by
  induction xs with
  | nil => simp
  | cons y ys ih =>
    simp only [List.map_cons, List.flatten_cons, List.length_append, List.length_map,
      List.length_range', List.length_cons, ih, Nat.succ_mul]
    omega

/-- C9, as stated, fails for `outputsPerTxCount = 2 ^ 64 - 1`: with one prepared
transaction the loop counter, a `uint`, can never exceed the bound, and
`prepareTransactions` does not return, whatever the fuel. -/
theorem prepareTransactions_max_count :
    ¬ ∃ fuel queue, prepareTransactions exMaxClient fuel = some queue := by
  rintro ⟨fuel, queue, hq⟩
  have hdiv := expandLoop_diverges exMaxClient { TransactionID := "a", ShardID := "s" }
    (by decide) fuel 1 [] (by decide)
  simp [prepareTransactions, prepareLoop, exMaxClient] at hq
  simp [exMaxClient] at hdiv
  rw [hdiv] at hq
  simp at hq

/-- C9, amended. For `K = outputsPerTxCount < 2 ^ 64 - 1` and `N` prepared transactions,
`prepareTransactions` returns (with fuel for `K + 1` iterations of the inner loop) exactly
`N * K` unsigned transactions, and the one at index `b * K + (p - 1)`, for the prepared
transaction `tx` at index `b` and `1 <= p <= K`, has exactly one input, referencing
`tx.TransactionID` and `tx.ShardID` at output position `p`, and exactly one output, of
amount 1 to the configured receiver address base and key identifier. -/
theorem prepareTransactions_spec (lc : LoadClient) (fuel : Nat)
    (hK : lc.outputsPerTxCount + 1 < uintMod) (hfuel : lc.outputsPerTxCount + 1 ≤ fuel) :
    ∃ queue, prepareTransactions lc fuel = some queue ∧
      queue.length = lc.preparedTransactions.length * lc.outputsPerTxCount ∧
      ∀ (b p : Nat) (tx : Transaction), lc.preparedTransactions[b]? = some tx →
        1 ≤ p → p ≤ lc.outputsPerTxCount →
        queue[b * lc.outputsPerTxCount + (p - 1)]? =
          some
            { TransactionVersion := "la0l",
              InputList :=
                [{ AddressBase := lc.keyIdentifier, AddressKeyIdentifier := lc.keyIdentifier,
                   AddressVersion := "lal", OutputPosition := p, OutputShardID := tx.ShardID,
                   OutputTransactionID := tx.TransactionID }],
              OutputList :=
                [{ AddressBase := lc.receiverAddressBase, AddressVersion := "lal",
                   AddressKeyIdentifier := lc.receiverKeyIdentifier, Amount := 1 }] } := by
  have hq := prepareLoop_spec lc fuel hK hfuel lc.preparedTransactions []
  refine ⟨_, hq, ?_, ?_⟩
  · simp only [List.nil_append]
    exact flatten_blocks_length (queuedTx lc) lc.outputsPerTxCount lc.preparedTransactions
  · intro b p tx hb hp1 hpK
    simp only [List.nil_append]
    have := flatten_blocks_get (queuedTx lc) lc.outputsPerTxCount lc.preparedTransactions b
      (p - 1) tx hb (by omega)
    rw [this]
    have hp : 1 + (p - 1) = p := by omega
    rw [hp]
    rfl

/-- Witness of `prepareTransactions_spec`: two prepared transactions, 2 outputs each. -/
theorem prepareTransactions_spec_witness :
    exDispatchClient.outputsPerTxCount + 1 < uintMod ∧
    exDispatchClient.outputsPerTxCount + 1 ≤ 3 ∧
    ∃ queue, prepareTransactions exDispatchClient 3 = some queue ∧
      queue.length =
        exDispatchClient.preparedTransactions.length * exDispatchClient.outputsPerTxCount ∧
      ∀ (b p : Nat) (tx : Transaction), exDispatchClient.preparedTransactions[b]? = some tx →
        1 ≤ p → p ≤ exDispatchClient.outputsPerTxCount →
        queue[b * exDispatchClient.outputsPerTxCount + (p - 1)]? =
          some
            { TransactionVersion := "la0l",
              InputList :=
                [{ AddressBase := exDispatchClient.keyIdentifier,
                   AddressKeyIdentifier := exDispatchClient.keyIdentifier,
                   AddressVersion := "lal", OutputPosition := p, OutputShardID := tx.ShardID,
                   OutputTransactionID := tx.TransactionID }],
              OutputList :=
                [{ AddressBase := exDispatchClient.receiverAddressBase, AddressVersion := "lal",
                   AddressKeyIdentifier := exDispatchClient.receiverKeyIdentifier,
                   Amount := 1 }] } :=
  ⟨by decide, by decide, prepareTransactions_spec exDispatchClient 3 (by decide) (by decide)⟩

/-! ## The dispatch worker (`SendTransactions`) -/

theorem signCalls_succ (lc : LoadClient) (u : UnsignedTransaction) (h : List Call) (k : Nat) :
    h ++ [Call.sign u lc.keyMap lc.publicKeyMap] ++ signCalls lc u k =
      h ++ signCalls lc u (k + 1) := by
  simp [signCalls, List.replicate_succ]

/-- The signing loop on one transaction, from any counter `j` with `n = 5 - j` iterations
left: it makes at most `n` signing calls, stops at the first success and submits once. -/
theorem signLoop_shape (api : NodeAPI) (lc : LoadClient) (u : UnsignedTransaction) :
    ∀ (n j : Nat) (h : List Call), j + n = 5 →
      ((signLoop api lc u n j h).1 = TxResult.dropped ∧
        (signLoop api lc u n j h).2 = h ++ signCalls lc u n ∧
        ∀ k, k < n → SignFails api lc u h k) ∨
      ∃ m tx, m < n ∧ (∀ k, k < m → SignFails api lc u h k) ∧
        api.SignTransaction (h ++ signCalls lc u m) u lc.keyMap lc.publicKeyMap = .ok tx ∧
        (signLoop api lc u n j h).2 = h ++ (signCalls lc u (m + 1) ++ [Call.submit tx]) ∧
        (((signLoop api lc u n j h).1 = TxResult.sent ∧
            api.SubmitTransaction (h ++ signCalls lc u (m + 1)) tx = none) ∨
          ((signLoop api lc u n j h).1 = TxResult.aborted ∧
            ∃ e, api.SubmitTransaction (h ++ signCalls lc u (m + 1)) tx = some e)) := by
  intro n
  induction n with
  | zero =>
    intro j h _
    left
    simp [signLoop, signCalls]
  | succ n ih =>
    intro j h hj
    have hj5 : ¬ (j = 5) := by omega
    cases hs : api.SignTransaction h u lc.keyMap lc.publicKeyMap with
    | error e =>
      have hstep : signLoop api lc u (n + 1) j h =
          signLoop api lc u n (j + 1) (h ++ [Call.sign u lc.keyMap lc.publicKeyMap]) := by
        simp [signLoop, hs, hj5]
      have hfail0 : SignFails api lc u h 0 := ⟨e, by simpa [signCalls] using hs⟩
      have hshift : ∀ k, SignFails api lc u (h ++ [Call.sign u lc.keyMap lc.publicKeyMap]) k →
          SignFails api lc u h (k + 1) := by
        intro k ⟨e1, he1⟩
        exact ⟨e1, by rw [← signCalls_succ]; exact he1⟩
      rw [hstep]
      rcases ih (j + 1) (h ++ [Call.sign u lc.keyMap lc.publicKeyMap]) (by omega) with
        ⟨hres, hcalls, hfails⟩ | ⟨m, tx, hm, hfails, hsign, hcalls, hsub⟩
      · left
        refine ⟨hres, by rw [hcalls, signCalls_succ], ?_⟩
        intro k hk
        cases k with
        | zero => exact hfail0
        | succ k => exact hshift k (hfails k (by omega))
      · right
        refine ⟨m + 1, tx, by omega, ?_, ?_, ?_, ?_⟩
        · intro k hk
          cases k with
          | zero => exact hfail0
          | succ k => exact hshift k (hfails k (by omega))
        · rw [← signCalls_succ]
          exact hsign
        · rw [hcalls, ← List.append_assoc, signCalls_succ, List.append_assoc]
        · rw [← signCalls_succ lc u h (m + 1)]
          exact hsub
    | ok tx =>
      right
      refine ⟨0, tx, by omega, by intro k hk; omega, by simpa [signCalls] using hs, ?_, ?_⟩
      · cases hsub : api.SubmitTransaction (h ++ [Call.sign u lc.keyMap lc.publicKeyMap]) tx <;>
          simp [signLoop, hs, hsub, signCalls]
      · cases hsub : api.SubmitTransaction (h ++ [Call.sign u lc.keyMap lc.publicKeyMap]) tx with
        | none =>
          left
          simp [signLoop, hs, hsub, signCalls]
        | some e =>
          right
          simp [signLoop, hs, hsub, signCalls]

/-- The calls a worker makes for one transaction follow the retry policy. -/
theorem signLoop_TxShape (api : NodeAPI) (lc : LoadClient) (u : UnsignedTransaction)
    (h : List Call) :
    ∃ seg, (signLoop api lc u 5 0 h).2 = h ++ seg ∧
      TxShape api lc u h (signLoop api lc u 5 0 h).1 seg := by
  rcases signLoop_shape api lc u 5 0 h (by omega) with
    ⟨hres, hcalls, hfails⟩ | ⟨m, tx, hm, hfails, hsign, hcalls, hsub⟩
  · exact ⟨_, hcalls, Or.inl ⟨hres, rfl, hfails⟩⟩
  · exact ⟨_, hcalls, Or.inr ⟨m, tx, hm, hfails, hsign, rfl, hsub⟩⟩

theorem wrapInt32_succ (t : Int) : addInt32One (wrapInt32 t) = wrapInt32 (t + 1) := by
  unfold addInt32One wrapInt32
  omega

/-- The drain loop serves an initial part of the queue according to the retry policy and
counts the transactions sent. -/
theorem drain_spec (api : NodeAPI) (lc : LoadClient) :
    ∀ (queue : List UnsignedTransaction) (t : Int) (count : Nat) (h : List Call),
      ∃ processed new n,
        queue = processed ++ (drain api lc queue (wrapInt32 t) count h).left ∧
        (drain api lc queue (wrapInt32 t) count h).calls = h ++ new ∧
        Served api lc processed h new n ∧
        (drain api lc queue (wrapInt32 t) count h).count = count + n ∧
        (drain api lc queue (wrapInt32 t) count h).totalCount = wrapInt32 (t + n) ∧
        n ≤ processed.length := by
  intro queue
  induction queue with
  | nil =>
    intro t count h
    exact ⟨[], [], 0, by simp [drain], by simp [drain], by simp [Served], by simp [drain],
      by simp [drain], by simp⟩
  | cons u queue ih =>
    intro t count h
    obtain ⟨seg, hcalls, hshape⟩ := signLoop_TxShape api lc u h
    rcases hsl : signLoop api lc u 5 0 h with ⟨res, h1⟩
    rw [hsl] at hcalls hshape
    simp only at hcalls hshape
    subst hcalls
    cases res with
    | sent =>
      obtain ⟨processed, new, n, hq, hc, hserved, hcount, htotal, hn⟩ :=
        ih (t + 1) (count + 1) (h ++ seg)
      have hd : drain api lc (u :: queue) (wrapInt32 t) count h =
          drain api lc queue (wrapInt32 (t + 1)) (count + 1) (h ++ seg) := by
        simp [drain, hsl, wrapInt32_succ]
      rw [hd]
      refine ⟨u :: processed, seg ++ new, n + 1, ?_, ?_, ?_, ?_, ?_, ?_⟩
      · simp only [List.cons_append]
        rw [← hq]
      · rw [hc, List.append_assoc]
      · exact ⟨TxResult.sent, seg, new, n, rfl, hshape, by simp, by simp [Nat.add_comm],
          hserved⟩
      · rw [hcount]
        omega
      · rw [htotal]
        congr 1
        push_cast
        omega
      · simp only [List.length_cons]
        omega
    | dropped =>
      obtain ⟨processed, new, n, hq, hc, hserved, hcount, htotal, hn⟩ :=
        ih t count (h ++ seg)
      have hd : drain api lc (u :: queue) (wrapInt32 t) count h =
          drain api lc queue (wrapInt32 t) count (h ++ seg) := by
        simp [drain, hsl]
      rw [hd]
      refine ⟨u :: processed, seg ++ new, n, ?_, ?_, ?_, hcount, htotal, ?_⟩
      · simp only [List.cons_append]
        rw [← hq]
      · rw [hc, List.append_assoc]
      · exact ⟨TxResult.dropped, seg, new, n, rfl, hshape, by simp, by simp, hserved⟩
      · simp only [List.length_cons]
        omega
    | aborted =>
      have hd : drain api lc (u :: queue) (wrapInt32 t) count h =
          { totalCount := wrapInt32 t, count := count, calls := h ++ seg, left := queue } := by
        simp [drain, hsl]
      rw [hd]
      refine ⟨[u], seg, 0, by simp, rfl, ?_, by simp, by simp, by simp⟩
      exact ⟨TxResult.aborted, seg, [], 0, by simp, hshape, by simp, by simp, by simp [Served]⟩

/-- C10. One worker draining the queue against an arbitrary node. For each unsigned
transaction it takes, the calls it makes follow `TxShape`: at most 5 calls of
`SignTransaction`, each one after the first only after the one before failed, none after
the first success; one call of `SubmitTransaction`, right after the first successful
signing, and none when all 5 signings fail. The transactions are served in queue order
(`Served`), a failed submission is the last call the worker makes and leaves the rest of
the queue untouched, and the counters are incremented once per successful submission, so
that the final count is at most the length of the queue. -/
theorem worker_retry_policy (api : NodeAPI) (lc : LoadClient)
    (queue : List UnsignedTransaction) (h : List Call) :
    (∀ (u : UnsignedTransaction) (h0 : List Call),
      ∃ seg, (signLoop api lc u 5 0 h0).2 = h0 ++ seg ∧
        TxShape api lc u h0 (signLoop api lc u 5 0 h0).1 seg) ∧
    ∃ processed new n,
      queue = processed ++ (worker api lc queue 0 h).left ∧
      (worker api lc queue 0 h).calls = h ++ Call.generateNewAddress :: new ∧
      Served api lc processed (h ++ [Call.generateNewAddress]) new n ∧
      (worker api lc queue 0 h).count = n ∧
      (worker api lc queue 0 h).totalCount = wrapInt32 n ∧
      n ≤ processed.length ∧ processed.length ≤ queue.length ∧
      (worker api lc queue 0 h).totalCount ≤ queue.length := by
  refine ⟨fun u h0 => signLoop_TxShape api lc u h0, ?_⟩
  have hw0 : wrapInt32 0 = 0 := by decide
  have hwle : ∀ n : Nat, wrapInt32 n ≤ n := by
    intro n
    unfold wrapInt32
    omega
  cases hg : api.GenerateNewAddress h with
  | error e =>
    refine ⟨[], [], 0, ?_, ?_, ?_, ?_, ?_, ?_, ?_, ?_⟩
    · simp [worker, hg]
    · simp [worker, hg]
    · simp [Served]
    · simp [worker, hg]
    · simp [worker, hg, hw0]
    · simp
    · simp
    · simp [worker, hg]
  | ok info =>
    obtain ⟨processed, new, n, hq, hc, hserved, hcount, htotal, hn⟩ :=
      drain_spec api lc queue 0 0 (h ++ [Call.generateNewAddress])
    have hw : worker api lc queue 0 h =
        drain api lc queue (wrapInt32 0) 0 (h ++ [Call.generateNewAddress]) := by
      simp [worker, hg, hw0]
    have hlen : processed.length ≤ queue.length := by
      have := congrArg List.length hq
      simp only [List.length_append] at this
      omega
    rw [hw]
    refine ⟨processed, new, n, hq, ?_, hserved, ?_, ?_, hn, hlen, ?_⟩
    · rw [hc]
      simp
    · rw [hcount]
      omega
    · rw [htotal]
      simp
    · rw [htotal]
      have := hwle n
      simp only [zero_add]
      omega

/-- The worker on the example node, with a queue of three transactions: two failed
signings, then the first transaction is sent; the submission of the second one is refused,
the worker returns and the third transaction stays in the channel. -/
theorem worker_example :
    (worker exFlakyApi exDispatchClient
      [queuedTx exDispatchClient { TransactionID := "a" } 1,
       queuedTx exDispatchClient { TransactionID := "a" } 2,
       queuedTx exDispatchClient { TransactionID := "b" } 1] 0 []).count = 1 ∧
    (worker exFlakyApi exDispatchClient
      [queuedTx exDispatchClient { TransactionID := "a" } 1,
       queuedTx exDispatchClient { TransactionID := "a" } 2,
       queuedTx exDispatchClient { TransactionID := "b" } 1] 0 []).totalCount = 1 ∧
    (worker exFlakyApi exDispatchClient
      [queuedTx exDispatchClient { TransactionID := "a" } 1,
       queuedTx exDispatchClient { TransactionID := "a" } 2,
       queuedTx exDispatchClient { TransactionID := "b" } 1] 0 []).left =
      [queuedTx exDispatchClient { TransactionID := "b" } 1] ∧
    (worker exFlakyApi exDispatchClient
      [queuedTx exDispatchClient { TransactionID := "a" } 1,
       queuedTx exDispatchClient { TransactionID := "a" } 2,
       queuedTx exDispatchClient { TransactionID := "b" } 1] 0 []).calls.length = 7 := by
  refine ⟨?_, ?_, ?_, ?_⟩ <;> decide

/-! ## Funding and stabilisation (`ensureFunds`) -/

theorem lookup_mapSet {V : Type} (m : List (String × V)) (k k1 : String) (v : V) :
    (mapSet m k v).lookup k1 = if k1 = k then some v else m.lookup k1 := by
  induction m with
  | nil =>
    by_cases h : k1 = k
    · simp [mapSet, List.lookup, h]
    · have hb : (k1 == k) = false := by simpa using h
      simp [mapSet, List.lookup, h, hb]
  | cons e m ih =>
    obtain ⟨k0, v0⟩ := e
    by_cases h0 : k0 = k
    · by_cases h : k1 = k
      · simp [mapSet, h0, List.lookup, h]
      · have hb : (k1 == k) = false := by simpa using h
        simp [mapSet, h0, List.lookup, h, hb]
    · by_cases h1 : k1 = k0
      · have : ¬ (k1 = k) := by rw [h1]; exact h0
        simp [mapSet, h0, List.lookup, h1, this]
      · have hb : (k1 == k0) = false := by simpa using h1
        simp [mapSet, h0, List.lookup, hb, ih]

/-- A polling round over addresses that are all ready reaches its end and records the
stable balance of each of them. -/
theorem pollRound_ready (balance : String → Except Err (Nat × Nat)) :
    ∀ (l : List String) (sb : List (String × Nat)),
      (∀ a ∈ l, ∃ stable, balance a = .ok (stable, 0) ∧ 0 < stable) →
      (pollRound balance l sb).1 = true ∧
      ∀ a stable, balance a = .ok (stable, 0) → (a ∈ l ∨ sb.lookup a = some stable) →
        (pollRound balance l sb).2.lookup a = some stable := by
  intro l
  induction l with
  | nil =>
    intro sb _
    refine ⟨rfl, ?_⟩
    intro a stable _ h
    rcases h with h | h
    · simp at h
    · exact h
  | cons b l ih =>
    intro sb hall
    obtain ⟨sb0, hb, hpos⟩ := hall b (by simp)
    have hne : ¬ (sb0 = 0) := by omega
    have hstep : pollRound balance (b :: l) sb = pollRound balance l (mapSet sb b sb0) := by
      simp [pollRound, hb, hne]
    rw [hstep]
    obtain ⟨h1, h2⟩ := ih (mapSet sb b sb0) (fun a ha => hall a (by simp [ha]))
    refine ⟨h1, ?_⟩
    intro a stable ha hmem
    apply h2 a stable ha
    rcases hmem with hmem | hmem
    · rcases List.mem_cons.mp hmem with rfl | hmem
      · right
        rw [lookup_mapSet]
        simp only [if_true]
        rw [hb] at ha
        injection ha with ha
        injection ha with ha
        rw [ha]
      · exact Or.inl hmem
    · by_cases hab : a = b
      · right
        rw [lookup_mapSet, if_pos hab]
        rw [hab, hb] at ha
        injection ha with ha
        injection ha with ha
        rw [ha]
      · right
        rw [lookup_mapSet, if_neg hab]
        exact hmem

/-- A polling round that reaches its end found every address ready. -/
theorem pollRound_true (balance : String → Except Err (Nat × Nat)) :
    ∀ (l : List String) (sb : List (String × Nat)), (pollRound balance l sb).1 = true →
      ∀ a ∈ l, ∃ stable, balance a = .ok (stable, 0) ∧ 0 < stable := by
  intro l
  induction l with
  | nil =>
    intro sb _ a ha
    simp at ha
  | cons b l ih =>
    intro sb htrue a ha
    cases hb : balance b with
    | error e => simp [pollRound, hb] at htrue
    | ok p =>
      obtain ⟨stable, unstable⟩ := p
      by_cases hu : unstable > 0
      · simp [pollRound, hb, hu] at htrue
      · by_cases hs : stable = 0
        · simp [pollRound, hb, hu, hs] at htrue
        · have hstep : pollRound balance (b :: l) sb =
              pollRound balance l (mapSet sb b stable) := by
            simp [pollRound, hb, hu, hs]
          rw [hstep] at htrue
          rcases List.mem_cons.mp ha with rfl | ha
          · refine ⟨stable, ?_, by omega⟩
            have : unstable = 0 := by omega
            rw [hb, this]
          · exact ih _ htrue a ha

theorem pollLoop_stable (env : FundsEnv) (keys : List String) :
    ∀ (n i : Nat) (sb : List (String × Nat)) (polled : List Nat),
      pollLoop env keys n i true sb polled = (true, sb, polled) := by
  intro n
  cases n with
  | zero => intro i sb polled; rfl
  | succ n => intro i sb polled; simp [pollLoop]

theorem allReady_visit (env : FundsEnv) (keys : List String) (i : Nat)
    (hvisit : (env.visit i keys).Perm keys) :
    AllReady env keys i ↔
      ∀ a ∈ env.visit i keys, ∃ stable, env.balance i a = .ok (stable, 0) ∧ 0 < stable := by
  unfold AllReady
  constructor
  · intro h a ha
    exact h a (hvisit.mem_iff.mp ha)
  · intro h a ha
    exact h a (hvisit.mem_iff.mpr ha)

/-- The polling loop from round `i` with `n` rounds left: it stops after the first round
in which every address is ready, with the balances of that round recorded, and runs
through all `n` rounds when there is none. -/
theorem pollLoop_spec (env : FundsEnv) (keys : List String)
    (hvisit : ∀ i, (env.visit i keys).Perm keys) :
    ∀ (n i : Nat) (sb : List (String × Nat)) (polled : List Nat),
      (∀ r, i ≤ r → r < i + n → AllReady env keys r →
        (∀ j, i ≤ j → j < r → ¬ AllReady env keys j) →
        (pollLoop env keys n i false sb polled).1 = true ∧
        (pollLoop env keys n i false sb polled).2.2 = polled ++ List.range' i (r + 1 - i) ∧
        ∀ a stable, a ∈ keys → env.balance r a = .ok (stable, 0) →
          (pollLoop env keys n i false sb polled).2.1.lookup a = some stable) ∧
      ((∀ j, i ≤ j → j < i + n → ¬ AllReady env keys j) →
        (pollLoop env keys n i false sb polled).1 = false ∧
        (pollLoop env keys n i false sb polled).2.2 = polled ++ List.range' i n) := by
  intro n
  induction n with
  | zero =>
    intro i sb polled
    refine ⟨?_, ?_⟩
    · intro r h1 h2
      omega
    · intro _
      simp [pollLoop]
  | succ n ih =>
    intro i sb polled
    rcases hpr : pollRound (env.balance i) (env.visit i keys) sb with ⟨b, sb1⟩
    by_cases hready : AllReady env keys i
    · have hr := pollRound_ready (env.balance i) (env.visit i keys) sb
        ((allReady_visit env keys i (hvisit i)).mp hready)
      rw [hpr] at hr
      simp only at hr
      obtain ⟨hb, hlook⟩ := hr
      subst hb
      have hstep : pollLoop env keys (n + 1) i false sb polled = (true, sb1, polled ++ [i]) := by
        simp [pollLoop, hpr, pollLoop_stable]
      rw [hstep]
      refine ⟨?_, ?_⟩
      · intro r h1 h2 _ hfirst
        have hri : r = i := by
          by_contra hne
          exact hfirst i (Nat.le_refl i) (by omega) hready
        subst hri
        refine ⟨rfl, ?_, ?_⟩
        · simp
        · intro a stable ha hbal
          exact hlook a stable hbal (Or.inl ((hvisit r).mem_iff.mpr ha))
      · intro hnone
        exact absurd hready (hnone i (Nat.le_refl i) (by omega))
    · have hb : b = false := by
        cases b with
        | false => rfl
        | true =>
          exfalso
          apply hready
          apply (allReady_visit env keys i (hvisit i)).mpr
          apply pollRound_true (env.balance i) (env.visit i keys) sb
          rw [hpr]
      subst hb
      have hstep : pollLoop env keys (n + 1) i false sb polled =
          pollLoop env keys n (i + 1) false sb1 (polled ++ [i]) := by
        simp [pollLoop, hpr]
      rw [hstep]
      obtain ⟨ihA, ihB⟩ := ih (i + 1) sb1 (polled ++ [i])
      refine ⟨?_, ?_⟩
      · intro r h1 h2 hr hfirst
        have hri : i < r := by
          rcases Nat.lt_or_ge i r with h | h
          · exact h
          · have : r = i := by omega
            subst this
            exact absurd hr hready
        obtain ⟨ha, hb, hc⟩ := ihA r (by omega) (by omega) hr
          (fun j hj1 hj2 => hfirst j (by omega) hj2)
        refine ⟨ha, ?_, hc⟩
        rw [hb]
        have hlen : r + 1 - i = (r + 1 - (i + 1)) + 1 := by omega
        rw [hlen, List.range'_succ]
        simp
      · intro hnone
        obtain ⟨ha, hb⟩ := ihB (fun j hj1 hj2 => hnone j (by omega) (by omega))
        refine ⟨ha, ?_⟩
        rw [hb, List.range'_succ]
        simp

/-- C11. After the funding transaction is sent, with the balances of polling round `i`
given by `env.balance i`: if round `r < 12` is the first round in which every participant's
balance query succeeds with `unstable = 0` and `stable > 0`, `ensureFunds` returns nil,
has polled exactly the rounds `0, ..., r`, and `startingBalances` maps every participant
address to the stable balance it reported in round `r`; if there is no such round among
the 12 rounds, it returns the error "Failed to stabilise" after polling all 12; and it
returns nil only if such a round exists. -/
theorem ensureFunds_stabilisation (env : FundsEnv) (o : Orchestrator) (h h1 : List Call)
    (nodeSender : Client) (tx : Transaction)
    (hf : o.funderClient = some nodeSender)
    (hsend : SendMillix env.funder nodeSender env.visitKeys h (fundingReceivers o) =
      (Outcome.ok tx, h1))
    (hvisit : ∀ i, (env.visit i (o.millixClients.map Prod.fst)).Perm
      (o.millixClients.map Prod.fst)) :
    (∀ r, r < 12 → AllReady env (o.millixClients.map Prod.fst) r →
      (∀ j, j < r → ¬ AllReady env (o.millixClients.map Prod.fst) j) →
      (ensureFunds env o h).outcome = Outcome.ok () ∧
      (ensureFunds env o h).polled = List.range (r + 1) ∧
      ∀ a stable, a ∈ o.millixClients.map Prod.fst → env.balance r a = .ok (stable, 0) →
        (ensureFunds env o h).o.startingBalances.lookup a = some stable) ∧
    ((∀ j, j < 12 → ¬ AllReady env (o.millixClients.map Prod.fst) j) →
      (ensureFunds env o h).outcome = Outcome.error (Err.new "Failed to stabilise") ∧
      (ensureFunds env o h).polled = List.range 12) ∧
    ((ensureFunds env o h).outcome = Outcome.ok () →
      ∃ r, r < 12 ∧ AllReady env (o.millixClients.map Prod.fst) r) := by
  obtain ⟨hA, hB⟩ := pollLoop_spec env (o.millixClients.map Prod.fst) hvisit 12 0
    o.startingBalances []
  have hnone : (∀ j, j < 12 → ¬ AllReady env (o.millixClients.map Prod.fst) j) →
      (ensureFunds env o h).outcome = Outcome.error (Err.new "Failed to stabilise") ∧
      (ensureFunds env o h).polled = List.range 12 := by
    intro hno
    obtain ⟨h1, h2⟩ := hB (fun j _ hj => hno j (by omega))
    simp only [ensureFunds, hf, hsend, h1, h2, List.nil_append, List.range_eq_range']
    simp
  refine ⟨?_, hnone, ?_⟩
  · intro r hr hready hfirst
    obtain ⟨h1, h2, h3⟩ := hA r (Nat.zero_le r) (by omega) hready
      (fun j _ hj => hfirst j hj)
    simp only [ensureFunds, hf, hsend, h1, h2, List.nil_append, List.range_eq_range']
    refine ⟨by simp, by simp, ?_⟩
    intro a stable ha hbal
    exact h3 a stable ha hbal
  · intro hok
    by_contra hex
    have hno : ∀ j, j < 12 → ¬ AllReady env (o.millixClients.map Prod.fst) j := by
      intro j hj hr
      exact hex ⟨j, hj, hr⟩
    rw [(hnone hno).1] at hok
    simp at hok

/-- Witness of `ensureFunds_stabilisation`: the example configuration of three nodes, with
every balance pending in the rounds 0 and 1 and stable from round 2 on. -/
theorem ensureFunds_stabilisation_witness :
    (NewOrchestrator exConfig).funderClient = some exClient ∧
    SendMillix exFundsEnv.funder exClient exFundsEnv.visitKeys []
        (fundingReceivers (NewOrchestrator exConfig)) =
      (Outcome.ok { TransactionID := "tx-genesis", ShardID := "shard" },
        (SendMillix exFundsEnv.funder exClient exFundsEnv.visitKeys []
          (fundingReceivers (NewOrchestrator exConfig))).2) ∧
    (∀ i, (exFundsEnv.visit i ((NewOrchestrator exConfig).millixClients.map Prod.fst)).Perm
      ((NewOrchestrator exConfig).millixClients.map Prod.fst)) ∧
    ((∀ r, r < 12 →
      AllReady exFundsEnv ((NewOrchestrator exConfig).millixClients.map Prod.fst) r →
      (∀ j, j < r →
        ¬ AllReady exFundsEnv ((NewOrchestrator exConfig).millixClients.map Prod.fst) j) →
      (ensureFunds exFundsEnv (NewOrchestrator exConfig) []).outcome = Outcome.ok () ∧
      (ensureFunds exFundsEnv (NewOrchestrator exConfig) []).polled = List.range (r + 1) ∧
      ∀ a stable, a ∈ (NewOrchestrator exConfig).millixClients.map Prod.fst →
        exFundsEnv.balance r a = .ok (stable, 0) →
        (ensureFunds exFundsEnv (NewOrchestrator exConfig) []).o.startingBalances.lookup a =
          some stable) ∧
    ((∀ j, j < 12 →
        ¬ AllReady exFundsEnv ((NewOrchestrator exConfig).millixClients.map Prod.fst) j) →
      (ensureFunds exFundsEnv (NewOrchestrator exConfig) []).outcome =
        Outcome.error (Err.new "Failed to stabilise") ∧
      (ensureFunds exFundsEnv (NewOrchestrator exConfig) []).polled = List.range 12) ∧
    ((ensureFunds exFundsEnv (NewOrchestrator exConfig) []).outcome = Outcome.ok () →
      ∃ r, r < 12 ∧
        AllReady exFundsEnv ((NewOrchestrator exConfig).millixClients.map Prod.fst) r)) :=
  have hv : ∀ i, (exFundsEnv.visit i ((NewOrchestrator exConfig).millixClients.map Prod.fst)).Perm
      ((NewOrchestrator exConfig).millixClients.map Prod.fst) := by
    intro i
    simp only [exFundsEnv]
    split
    · exact List.Perm.refl _
    · exact List.reverse_perm _
  ⟨rfl, rfl, hv,
    ensureFunds_stabilisation exFundsEnv (NewOrchestrator exConfig) [] _ exClient _ rfl rfl hv⟩

/-- The example run of `ensureFunds`: rounds 0, 1 and 2 are polled and the balances of
round 2 are recorded. -/
theorem ensureFunds_example :
    (ensureFunds exFundsEnv (NewOrchestrator exConfig) []).outcome = Outcome.ok () ∧
    (ensureFunds exFundsEnv (NewOrchestrator exConfig) []).polled = [0, 1, 2] ∧
    (ensureFunds exFundsEnv (NewOrchestrator exConfig) []).o.startingBalances =
      [("base1lalkey1", 22), ("base2lalkey2", 22), ("base3lalkey3", 22)] := by
  refine ⟨?_, ?_, ?_⟩ <;> rfl

/-- The loop of `NewOrchestrator` leaves the configuration fields alone, and from index 1
on it leaves the funder alone. -/
theorem addNodes_fields (config : LoadConfig) :
    ∀ (l : List NodeConfig) (i : Nat) (o : Orchestrator),
      (addNodes config l i o).nodeConfigs = o.nodeConfigs ∧
      (addNodes config l i o).transactionPerNode = o.transactionPerNode ∧
      (addNodes config l i o).outputPerTransactionCount = o.outputPerTransactionCount ∧
      (1 ≤ i → (addNodes config l i o).funderClient = o.funderClient) := by
  intro l
  induction l with
  | nil =>
    intro i o
    simp [addNodes]
  | cons nc l ih =>
    intro i o
    obtain ⟨h1, h2, h3, h4⟩ := ih (i + 1) (addNode config o i nc)
    simp only [addNodes]
    refine ⟨by rw [h1]; rfl, by rw [h2]; rfl, by rw [h3]; rfl, ?_⟩
    intro hi
    rw [h4 (by omega)]
    have : ¬ (i = 0) := by omega
    simp [addNode, this]

/-- The fields of the orchestrator built from a configuration with at least one node. -/
theorem NewOrchestrator_fields (config : LoadConfig) (first : NodeConfig)
    (rest : List NodeConfig) (hcfg : config.NodeConfigs = first :: rest) :
    (NewOrchestrator config).nodeConfigs = first :: rest ∧
    (NewOrchestrator config).transactionPerNode = config.TransactionPerNode ∧
    (NewOrchestrator config).funderClient =
      some (NewClient first.IP first.Port first.ID first.Signature first.AddressBase
        first.KeyIdentifier) := by
  unfold NewOrchestrator
  rw [hcfg]
  simp only [addNodes]
  obtain ⟨h1, h2, _, h4⟩ := addNodes_fields config rest (0 + 1)
    (addNode config
      { nodeConfigs := first :: rest, transactionPerNode := config.TransactionPerNode,
        outputPerTransactionCount := config.OutputsPerTransaction } 0 first)
  refine ⟨by rw [h1]; rfl, by rw [h2]; rfl, ?_⟩
  rw [h4 (by omega)]
  simp [addNode]

/-- C12. For a configuration with at least one node, `ensureFunds` calls `SendMillix` once,
on the client of the first configured node, with a receiver list that has one entry for
each other node, in configuration order, carrying that node's address base and key
identifier and the amount `transactionPerNode`: `n - 1` entries for `n` nodes. -/
theorem ensureFunds_request (env : FundsEnv) (config : LoadConfig) (h : List Call)
    (first : NodeConfig) (rest : List NodeConfig)
    (hcfg : config.NodeConfigs = first :: rest) :
    (ensureFunds env (NewOrchestrator config) h).request =
      some (NewClient first.IP first.Port first.ID first.Signature first.AddressBase
          first.KeyIdentifier,
        rest.map (fun nodeConfig =>
          { AddressBase := nodeConfig.AddressBase, KeyIdentifier := nodeConfig.KeyIdentifier,
            Amount := config.TransactionPerNode })) ∧
    (rest.map (fun nodeConfig =>
      ({ AddressBase := nodeConfig.AddressBase, KeyIdentifier := nodeConfig.KeyIdentifier,
         Amount := config.TransactionPerNode } : ReceiverAmount))).length =
      config.NodeConfigs.length - 1 ∧
    ∀ (i : Nat) (nodeConfig : NodeConfig), config.NodeConfigs[i + 1]? = some nodeConfig →
      (rest.map (fun nodeConfig =>
        ({ AddressBase := nodeConfig.AddressBase, KeyIdentifier := nodeConfig.KeyIdentifier,
           Amount := config.TransactionPerNode } : ReceiverAmount)))[i]? =
        some { AddressBase := nodeConfig.AddressBase,
               KeyIdentifier := nodeConfig.KeyIdentifier,
               Amount := config.TransactionPerNode } := by
  obtain ⟨hn, ht, hfc⟩ := NewOrchestrator_fields config first rest hcfg
  have hrec : fundingReceivers (NewOrchestrator config) =
      rest.map (fun nodeConfig =>
        { AddressBase := nodeConfig.AddressBase, KeyIdentifier := nodeConfig.KeyIdentifier,
          Amount := config.TransactionPerNode }) := by
    simp [fundingReceivers, hn, ht]
  refine ⟨?_, ?_, ?_⟩
  · simp only [ensureFunds, hfc, hrec]
    split <;> rfl
  · rw [hcfg]
    simp
  · intro i nodeConfig hi
    rw [hcfg] at hi
    simp only [List.getElem?_cons_succ] at hi
    simp [List.getElem?_map, hi]

/-- Witness of `ensureFunds_request`: the example configuration of three nodes with 10
transactions per node. -/
theorem ensureFunds_request_witness :
    exConfig.NodeConfigs =
      { IP := "10.0.0.1", Port := "5500", ID := "n1", Signature := "s1", AddressBase := "base1",
        KeyIdentifier := "key1" } ::
      [{ IP := "10.0.0.2", Port := "5500", ID := "n2", Signature := "s2", AddressBase := "base2",
         KeyIdentifier := "key2" },
       { IP := "10.0.0.3", Port := "5500", ID := "n3", Signature := "s3", AddressBase := "base3",
         KeyIdentifier := "key3" }] ∧
    ((ensureFunds exFundsEnv (NewOrchestrator exConfig) []).request =
      some (NewClient "10.0.0.1" "5500" "n1" "s1" "base1" "key1",
        (exConfig.NodeConfigs.drop 1).map (fun nodeConfig =>
          { AddressBase := nodeConfig.AddressBase, KeyIdentifier := nodeConfig.KeyIdentifier,
            Amount := exConfig.TransactionPerNode })) ∧
    ((exConfig.NodeConfigs.drop 1).map (fun nodeConfig =>
      ({ AddressBase := nodeConfig.AddressBase, KeyIdentifier := nodeConfig.KeyIdentifier,
         Amount := exConfig.TransactionPerNode } : ReceiverAmount))).length =
      exConfig.NodeConfigs.length - 1 ∧
    ∀ (i : Nat) (nodeConfig : NodeConfig), exConfig.NodeConfigs[i + 1]? = some nodeConfig →
      ((exConfig.NodeConfigs.drop 1).map (fun nodeConfig =>
        ({ AddressBase := nodeConfig.AddressBase, KeyIdentifier := nodeConfig.KeyIdentifier,
           Amount := exConfig.TransactionPerNode } : ReceiverAmount)))[i]? =
        some { AddressBase := nodeConfig.AddressBase,
               KeyIdentifier := nodeConfig.KeyIdentifier,
               Amount := exConfig.TransactionPerNode }) :=
  ⟨rfl,
    ensureFunds_request exFundsEnv exConfig []
      { IP := "10.0.0.1", Port := "5500", ID := "n1", Signature := "s1", AddressBase := "base1",
        KeyIdentifier := "key1" }
      [{ IP := "10.0.0.2", Port := "5500", ID := "n2", Signature := "s2", AddressBase := "base2",
         KeyIdentifier := "key2" },
       { IP := "10.0.0.3", Port := "5500", ID := "n3", Signature := "s3", AddressBase := "base3",
         KeyIdentifier := "key3" }] rfl⟩

/-- The funding request of the example configuration: three nodes with 10 transactions per
node give two receivers of 10 each, 20 in total. -/
theorem ensureFunds_request_example :
    (ensureFunds exFundsEnv (NewOrchestrator exConfig) []).request =
      some (exClient,
        [{ AddressBase := "base2", KeyIdentifier := "key2", Amount := 10 },
         { AddressBase := "base3", KeyIdentifier := "key3", Amount := 10 }]) ∧
    neededAmount
      [{ AddressBase := "base2", KeyIdentifier := "key2", Amount := 10 },
       { AddressBase := "base3", KeyIdentifier := "key3", Amount := 10 }] = 20 :=
  ⟨by rfl, by decide⟩

/-! ## The phases of `Load` -/

/-- C13. `Load` returns a `Result` (with a nil error) exactly when `ensureFunds`,
`prepareOutputs` and `sendTransactions`, called in this order, each on the state the one
before left, all return nil. When a phase returns an error, `Load` returns that error
wrapped with the message of the phase and no `Result`, the phases after it are not
started, and the state is the one the failing phase left. The phases started are always an
initial part of funds, prepare, send. -/
theorem Load_outcome {σ : Type} (o : Orchestrator)
    (ensureFunds prepareOutputs sendTransactions : σ → Outcome Unit × σ) (now : σ → Nat)
    (s : σ) :
    ((∃ res, (Load o ensureFunds prepareOutputs sendTransactions now s).outcome =
        Outcome.ok res) ↔
      (ensureFunds s).1 = Outcome.ok () ∧
      (prepareOutputs (ensureFunds s).2).1 = Outcome.ok () ∧
      (sendTransactions (prepareOutputs (ensureFunds s).2).2).1 = Outcome.ok ()) ∧
    (∀ err, (ensureFunds s).1 = Outcome.error err →
      (Load o ensureFunds prepareOutputs sendTransactions now s).outcome =
        Outcome.error (Err.wrap err "Failed to prepare initial funds") ∧
      (Load o ensureFunds prepareOutputs sendTransactions now s).started = [Phase.funds] ∧
      (Load o ensureFunds prepareOutputs sendTransactions now s).state = (ensureFunds s).2) ∧
    (∀ err, (ensureFunds s).1 = Outcome.ok () →
      (prepareOutputs (ensureFunds s).2).1 = Outcome.error err →
      (Load o ensureFunds prepareOutputs sendTransactions now s).outcome =
        Outcome.error (Err.wrap err "Failed to prepare transaction outputs") ∧
      (Load o ensureFunds prepareOutputs sendTransactions now s).started =
        [Phase.funds, Phase.prepare] ∧
      (Load o ensureFunds prepareOutputs sendTransactions now s).state =
        (prepareOutputs (ensureFunds s).2).2) ∧
    (∀ err, (ensureFunds s).1 = Outcome.ok () →
      (prepareOutputs (ensureFunds s).2).1 = Outcome.ok () →
      (sendTransactions (prepareOutputs (ensureFunds s).2).2).1 = Outcome.error err →
      (Load o ensureFunds prepareOutputs sendTransactions now s).outcome =
        Outcome.error (Err.wrap err "Failed to perform load test") ∧
      (Load o ensureFunds prepareOutputs sendTransactions now s).started =
        [Phase.funds, Phase.prepare, Phase.send] ∧
      (Load o ensureFunds prepareOutputs sendTransactions now s).state =
        (sendTransactions (prepareOutputs (ensureFunds s).2).2).2) ∧
    (Load o ensureFunds prepareOutputs sendTransactions now s).started <+:
      [Phase.funds, Phase.prepare, Phase.send] := by
  rcases h1 : ensureFunds s with ⟨o1, s1⟩
  cases o1 with
  | error e1 => simp [Load, h1]
  | panic m1 => simp [Load, h1]
  | ok u1 =>
    rcases h2 : prepareOutputs s1 with ⟨o2, s2⟩
    cases o2 with
    | error e2 => simp [Load, h1, h2]
    | panic m2 => simp [Load, h1, h2]
    | ok u2 =>
      rcases h3 : sendTransactions s2 with ⟨o3, s3⟩
      cases o3 with
      | error e3 => simp [Load, h1, h2, h3]
      | panic m3 => simp [Load, h1, h2, h3]
      | ok u3 => simp [Load, h1, h2, h3]

theorem NewOrchestrator_config (config : LoadConfig) :
    (NewOrchestrator config).nodeConfigs = config.NodeConfigs ∧
    (NewOrchestrator config).transactionPerNode = config.TransactionPerNode ∧
    (NewOrchestrator config).outputPerTransactionCount = config.OutputsPerTransaction := by
  obtain ⟨h1, h2, h3, _⟩ := addNodes_fields config config.NodeConfigs 0
    { nodeConfigs := config.NodeConfigs, transactionPerNode := config.TransactionPerNode,
      outputPerTransactionCount := config.OutputsPerTransaction }
  exact ⟨h1, h2, h3⟩

/-- C14. Whenever `Load` of the orchestrator built from a configuration returns a `Result`,
`NodeCount` is the number of configured nodes and `TotalTransactions` is the `uint` product
of that number and `transactionPerNode` (the product itself when it is below `2 ^ 64`),
whatever the three phases did. -/
theorem Load_result {σ : Type} (config : LoadConfig)
    (ensureFunds prepareOutputs sendTransactions : σ → Outcome Unit × σ) (now : σ → Nat)
    (s : σ) (res : Result)
    (hok : (Load (NewOrchestrator config) ensureFunds prepareOutputs sendTransactions now
      s).outcome = Outcome.ok res) :
    res.NodeCount = config.NodeConfigs.length ∧
    res.TotalTransactions = umul config.NodeConfigs.length config.TransactionPerNode ∧
    (config.NodeConfigs.length * config.TransactionPerNode < uintMod →
      res.TotalTransactions = config.NodeConfigs.length * config.TransactionPerNode) := by
  obtain ⟨hn, ht, _⟩ := NewOrchestrator_config config
  have hres : res.NodeCount = config.NodeConfigs.length ∧
      res.TotalTransactions = umul config.NodeConfigs.length config.TransactionPerNode := by
    rcases h1 : ensureFunds s with ⟨o1, s1⟩
    cases o1 with
    | error e1 => simp [Load, h1] at hok
    | panic m1 => simp [Load, h1] at hok
    | ok u1 =>
      rcases h2 : prepareOutputs s1 with ⟨o2, s2⟩
      cases o2 with
      | error e2 => simp [Load, h1, h2] at hok
      | panic m2 => simp [Load, h1, h2] at hok
      | ok u2 =>
        rcases h3 : sendTransactions s2 with ⟨o3, s3⟩
        cases o3 with
        | error e3 => simp [Load, h1, h2, h3] at hok
        | panic m3 => simp [Load, h1, h2, h3] at hok
        | ok u3 =>
          simp only [Load, h1, h2, h3, Outcome.ok.injEq] at hok
          subst hok
          simp [hn, ht]
  refine ⟨hres.1, hres.2, ?_⟩
  intro hlt
  rw [hres.2]
  unfold umul
  exact Nat.mod_eq_of_lt hlt

/-- Witness of `Load_result`: three nodes and 10 transactions per node, with phases that
return nil without doing anything: 30 transactions, although none was sent. -/
theorem Load_result_witness :
    (Load (NewOrchestrator exConfig) (fun s : Unit => (Outcome.ok (), s))
      (fun s => (Outcome.ok (), s)) (fun s => (Outcome.ok (), s)) (fun _ => 0) ()).outcome =
      Outcome.ok { StartTime := 0, EndTime := 0, TotalTransactions := 30, NodeCount := 3 } ∧
    ((3 : Nat) = exConfig.NodeConfigs.length ∧
      (30 : Nat) = umul exConfig.NodeConfigs.length exConfig.TransactionPerNode ∧
      (exConfig.NodeConfigs.length * exConfig.TransactionPerNode < uintMod →
        (30 : Nat) = exConfig.NodeConfigs.length * exConfig.TransactionPerNode)) :=
  ⟨rfl,
    Load_result exConfig (fun s : Unit => (Outcome.ok (), s)) (fun s => (Outcome.ok (), s))
      (fun s => (Outcome.ok (), s)) (fun _ => 0) ()
      { StartTime := 0, EndTime := 0, TotalTransactions := 30, NodeCount := 3 } rfl⟩

/-! ## The dispatch queue consumes each prepared output once -/

/-- Whenever the inner loop of `prepareTransactions` ends, its counter did not wrap and it
appended the transactions for the positions `i, ..., outputsPerTxCount`. -/
theorem expandLoop_some (lc : LoadClient) (tx : Transaction) :
    ∀ (fuel i : Nat) (acc r : List UnsignedTransaction),
      expandLoop lc tx fuel i acc = some r → i ≤ lc.outputsPerTxCount + 1 → i < uintMod →
      lc.outputsPerTxCount + 1 < uintMod ∧
      r = acc ++ (List.range' i (lc.outputsPerTxCount + 1 - i)).map (queuedTx lc tx) := by
  intro fuel
  induction fuel with
  | zero =>
    intro i acc r h _ _
    simp [expandLoop] at h
  | succ fuel ih =>
    intro i acc r h hi hlt
    unfold expandLoop at h
    by_cases hle : i ≤ lc.outputsPerTxCount
    · simp only [hle, if_true] at h
      by_cases hw : i + 1 < uintMod
      · rw [uadd_eq_of_lt hw] at h
        obtain ⟨h1, h2⟩ := ih _ _ _ h (by omega) hw
        refine ⟨h1, ?_⟩
        rw [h2]
        have hlen : lc.outputsPerTxCount + 1 - i = (lc.outputsPerTxCount + 1 - (i + 1)) + 1 := by
          omega
        rw [hlen, List.range'_succ, List.map_cons, dispatchTx_eq]
        simp
      · have hu : uadd i 1 = 0 := by
          unfold uadd uintMod at *
          omega
        rw [hu] at h
        obtain ⟨h1, _⟩ := ih _ _ _ h (by omega) (by unfold uintMod; omega)
        omega
    · simp only [hle, if_false, Option.some.injEq] at h
      subst h
      have hlen : lc.outputsPerTxCount + 1 - i = 0 := by omega
      rw [hlen]
      refine ⟨by omega, by simp⟩

/-- Whenever `prepareTransactions` returns, the queue is made of one block per prepared
transaction, in order, with the transactions for the positions 1 to `outputsPerTxCount`. -/
theorem prepareLoop_some (lc : LoadClient) (fuel : Nat) :
    ∀ (txs : List Transaction) (acc q : List UnsignedTransaction),
      prepareLoop lc fuel txs acc = some q →
      q = acc ++ (txs.map (fun tx =>
        (List.range' 1 lc.outputsPerTxCount).map (queuedTx lc tx))).flatten := by
  intro txs
  induction txs with
  | nil =>
    intro acc q h
    simp [prepareLoop] at h
    simp [h]
  | cons tx txs ih =>
    intro acc q h
    unfold prepareLoop at h
    cases he : expandLoop lc tx fuel 1 acc with
    | none => simp [he] at h
    | some r =>
      simp only [he] at h
      obtain ⟨_, hr⟩ := expandLoop_some lc tx fuel 1 acc r he (by omega) (by unfold uintMod; omega)
      rw [ih r q h, hr]
      simp

theorem inputRefs_blocks (lc : LoadClient) (K : Nat) (txs : List Transaction) :
    inputRefs ((txs.map (fun tx => (List.range' 1 K).map (queuedTx lc tx))).flatten) =
      (txs.map (fun tx => (List.range' 1 K).map (fun p => (tx.TransactionID, p)))).flatten := by
  induction txs with
  | nil => simp [inputRefs]
  | cons tx txs ih =>
    simp only [List.map_cons, List.flatten_cons]
    unfold inputRefs at ih ⊢
    rw [List.flatMap_append, ih]
    congr 1
    simp only [List.flatMap, queuedTx, List.map_map, Function.comp_def, List.map_cons,
      List.map_nil]
    generalize List.range' 1 K = l
    induction l with
    | nil => rfl
    | cons a l ihl => simp [ihl]

theorem mem_blocks (K : Nat) (txs : List Transaction) (x : String × Nat) :
    x ∈ (txs.map (fun tx => (List.range' 1 K).map (fun p => (tx.TransactionID, p)))).flatten ↔
      ∃ tx ∈ txs, x.1 = tx.TransactionID ∧ 1 ≤ x.2 ∧ x.2 ≤ K := by
  obtain ⟨a, p⟩ := x
  simp only [List.mem_flatten, List.mem_map]
  constructor
  · rintro ⟨l, ⟨tx, htx, rfl⟩, hmem⟩
    simp only [List.mem_map, List.mem_range', Prod.mk.injEq] at hmem
    obtain ⟨q, ⟨i, hi, rfl⟩, rfl, rfl⟩ := hmem
    exact ⟨tx, htx, rfl, by omega, by omega⟩
  · rintro ⟨tx, htx, h1, h2, h3⟩
    refine ⟨_, ⟨tx, htx, rfl⟩, ?_⟩
    simp only [List.mem_map, List.mem_range', Prod.mk.injEq]
    exact ⟨p, ⟨p - 1, by omega, by omega⟩, h1.symm, rfl⟩

theorem nodup_blocks (K : Nat) :
    ∀ (txs : List Transaction), (txs.map (fun tx => tx.TransactionID)).Nodup →
      ((txs.map (fun tx =>
        (List.range' 1 K).map (fun p => (tx.TransactionID, p)))).flatten).Nodup := by
  intro txs
  induction txs with
  | nil => intro _; simp
  | cons tx txs ih =>
    intro hnd
    simp only [List.map_cons, List.nodup_cons] at hnd
    simp only [List.map_cons, List.flatten_cons]
    rw [List.nodup_append]
    refine ⟨?_, ih hnd.2, ?_⟩
    · apply List.Nodup.map
      · intro a b hab
        simpa using hab
      · exact List.nodup_range' 1 K
    · intro x hx1 hx2
      have h2 := (mem_blocks K txs x).mp hx2
      obtain ⟨tx2, htx2, hid, _, _⟩ := h2
      simp only [List.mem_map] at hx1
      obtain ⟨p, _, rfl⟩ := hx1
      apply hnd.1
      simp only [List.mem_map]
      exact ⟨tx2, htx2, hid.symm⟩

theorem count_one_of_nodup (l : List (String × Nat)) (a : String × Nat) (hnd : l.Nodup)
    (h : a ∈ l) : l.count a = 1 := by
  induction l with
  | nil => simp at h
  | cons b l ih =>
    simp only [List.nodup_cons] at hnd
    rw [List.count_cons]
    by_cases hab : b = a
    · subst hab
      have : List.count b l = 0 := List.count_eq_zero.mpr hnd.1
      simp [this]
    · have hmem : a ∈ l := by
        rcases List.mem_cons.mp h with h1 | h1
        · exact absurd h1.symm hab
        · exact h1
      have hbeq : (b == a) = false := by simpa using hab
      simp [ih hnd.2 hmem, hbeq]

/-- C15. Whenever `prepareTransactions` returns a queue for prepared transactions with
pairwise distinct ids: the pairs (transaction id, output position) the inputs of the queue
refer to are pairwise distinct; every position from 1 to `outputsPerTxCount` of every
prepared transaction is referred to exactly once; every queued transaction has exactly
one input; and no input refers to position 0. For `outputsPerTxCount < 2 ^ 64 - 1` the
queue is returned as soon as the fuel covers `outputsPerTxCount + 1` iterations. -/
theorem prepareTransactions_consumes_once (lc : LoadClient) (fuel : Nat)
    (hids : (lc.preparedTransactions.map (fun tx => tx.TransactionID)).Nodup) :
    (∀ queue, prepareTransactions lc fuel = some queue →
      (inputRefs queue).Nodup ∧
      (∀ tx ∈ lc.preparedTransactions, ∀ p, 1 ≤ p → p ≤ lc.outputsPerTxCount →
        (inputRefs queue).count (tx.TransactionID, p) = 1) ∧
      (∀ u ∈ queue, u.InputList.length = 1) ∧
      (∀ u ∈ queue, ∀ i ∈ u.InputList, i.OutputPosition ≠ 0)) ∧
    (lc.outputsPerTxCount + 1 < uintMod → lc.outputsPerTxCount + 1 ≤ fuel →
      ∃ queue, prepareTransactions lc fuel = some queue) := by
  refine ⟨?_, ?_⟩
  · intro queue hq
    have hqueue := prepareLoop_some lc fuel lc.preparedTransactions [] queue hq
    simp only [List.nil_append] at hqueue
    have hrefs : inputRefs queue =
        (lc.preparedTransactions.map (fun tx =>
          (List.range' 1 lc.outputsPerTxCount).map (fun p => (tx.TransactionID, p)))).flatten := by
      rw [hqueue]
      exact inputRefs_blocks lc lc.outputsPerTxCount lc.preparedTransactions
    have hnd := nodup_blocks lc.outputsPerTxCount lc.preparedTransactions hids
    have hmemq : ∀ u ∈ queue, ∃ tx ∈ lc.preparedTransactions, ∃ p, 1 ≤ p ∧
        p ≤ lc.outputsPerTxCount ∧ u = queuedTx lc tx p := by
      intro u hu
      rw [hqueue] at hu
      simp only [List.mem_flatten, List.mem_map] at hu
      obtain ⟨l, ⟨tx, htx, rfl⟩, hmem⟩ := hu
      simp only [List.mem_map, List.mem_range'] at hmem
      obtain ⟨p, ⟨i, hi, rfl⟩, rfl⟩ := hmem
      exact ⟨tx, htx, 1 + 1 * i, by omega, by omega, rfl⟩
    rw [hrefs]
    refine ⟨hnd, ?_, ?_, ?_⟩
    · intro tx htx p hp1 hpK
      apply count_one_of_nodup _ _ hnd
      exact (mem_blocks lc.outputsPerTxCount lc.preparedTransactions _).mpr
        ⟨tx, htx, rfl, hp1, hpK⟩
    · intro u hu
      obtain ⟨tx, _, p, _, _, rfl⟩ := hmemq u hu
      rfl
    · intro u hu i hi
      obtain ⟨tx, _, p, hp1, _, rfl⟩ := hmemq u hu
      simp only [queuedTx, List.mem_singleton] at hi
      subst hi
      simp only
      omega
  · intro hK hfuel
    exact ⟨_, prepareLoop_spec lc fuel hK hfuel lc.preparedTransactions []⟩

/-- Witness of `prepareTransactions_consumes_once`: two prepared transactions `a` and `b`,
2 outputs each. -/
theorem prepareTransactions_consumes_once_witness :
    (exDispatchClient.preparedTransactions.map (fun tx => tx.TransactionID)).Nodup ∧
    ((∀ queue, prepareTransactions exDispatchClient 3 = some queue →
      (inputRefs queue).Nodup ∧
      (∀ tx ∈ exDispatchClient.preparedTransactions, ∀ p, 1 ≤ p →
        p ≤ exDispatchClient.outputsPerTxCount →
        (inputRefs queue).count (tx.TransactionID, p) = 1) ∧
      (∀ u ∈ queue, u.InputList.length = 1) ∧
      (∀ u ∈ queue, ∀ i ∈ u.InputList, i.OutputPosition ≠ 0)) ∧
    (exDispatchClient.outputsPerTxCount + 1 < uintMod →
      exDispatchClient.outputsPerTxCount + 1 ≤ 3 →
      ∃ queue, prepareTransactions exDispatchClient 3 = some queue)) :=
  ⟨by decide, prepareTransactions_consumes_once exDispatchClient 3 (by decide)⟩

/-- The references of the example queue. -/
theorem inputRefs_example :
    (prepareTransactions exDispatchClient 3).map inputRefs =
      some [("a", 1), ("a", 2), ("b", 1), ("b", 2)] := by
  decide

/-! ## The worker pool: invariance under the worker count -/

/-- An entry of a list splits the list, and `set` at its index replaces it. -/
theorem set_split {α : Type} : ∀ (l : List α) (w : Nat) (x : α), l[w]? = some x →
    ∃ l1 l2, l = l1 ++ x :: l2 ∧ ∀ y, l.set w y = l1 ++ y :: l2 := by
  intro l
  induction l with
  | nil => intro w x h; simp at h
  | cons a l ih =>
    intro w x h
    cases w with
    | zero =>
      simp only [List.getElem?_cons_zero, Option.some.injEq] at h
      subst h
      exact ⟨[], l, rfl, fun y => rfl⟩
    | succ w =>
      simp only [List.getElem?_cons_succ] at h
      obtain ⟨l1, l2, h1, h2⟩ := ih w x h
      refine ⟨a :: l1, l2, by rw [h1]; rfl, fun y => ?_⟩
      simp only [List.set_cons_succ, h2, List.cons_append]

theorem addInt32One_wrap (x : Int) : addInt32One (wrapInt32 x) = wrapInt32 (x + 1) := by
  simp only [addInt32One, wrapInt32]
  norm_num
  omega

theorem mem_inHand (u : UnsignedTransaction) (l : List WState) :
    u ∈ l.flatMap WState.inHand ↔ ∃ j, WState.signing u j ∈ l := by
  induction l with
  | nil => simp
  | cons ws l ih =>
    simp only [List.flatMap_cons, List.mem_append, ih, List.mem_cons]
    constructor
    · rintro (h | ⟨j, h⟩)
      · cases ws <;> simp [WState.inHand] at h
        subst h
        exact ⟨_, Or.inl rfl⟩
      · exact ⟨j, Or.inr h⟩
    · rintro ⟨j, h | h⟩
      · left; subst h; simp [WState.inHand]
      · exact Or.inr ⟨j, h⟩

theorem count_snoc_sign (h : List Call) (c x : Call) :
    (h ++ [c]).count x = h.count x + if c = x then 1 else 0 := by
  rw [List.count_append]
  simp [List.count_cons]

theorem nodup_inHand (l1 l2 : List WState) (u : UnsignedTransaction)
    (queue : List UnsignedTransaction)
    (hnd : (l1.flatMap WState.inHand ++ ([u] ++ l2.flatMap WState.inHand) ++ queue).Nodup) :
    (∀ j, WState.signing u j ∉ l1) ∧ (∀ j, WState.signing u j ∉ l2) ∧ u ∉ queue := by
  rw [List.nodup_iff_count_le_one] at hnd
  have h := hnd u
  simp only [List.count_append, List.count_cons_self, List.count_nil] at h
  have h1 : List.count u (l1.flatMap WState.inHand) = 0 := by omega
  have h2 : List.count u (l2.flatMap WState.inHand) = 0 := by omega
  have h3 : List.count u queue = 0 := by omega
  rw [List.count_eq_zero] at h1 h2 h3
  refine ⟨fun j hj => h1 ((mem_inHand u l1).mpr ⟨j, hj⟩),
    fun j hj => h2 ((mem_inHand u l2).mpr ⟨j, hj⟩), h3⟩

theorem workerStep_inv (api : NodeAPI) (signF : UnsignedTransaction → Nat → Except Err Transaction)
    (lc : LoadClient) (target : List Transaction) (n : Nat)
    (hgen : ∀ h, ∃ info, api.GenerateNewAddress h = .ok info)
    (hsub : ∀ h tx, api.SubmitTransaction h tx = none)
    (hsign : ∀ h u, api.SignTransaction h u lc.keyMap lc.publicKeyMap =
      signF u (h.count (Call.sign u lc.keyMap lc.publicKeyMap)))
    (st : PoolState) (l1 l2 : List WState) (ws : WState)
    (hw : st.workers = l1 ++ ws :: l2) (hinv : PoolInv signF lc target n st) :
    PoolInv signF lc target n
      { (workerStep api lc st ws).2 with
        workers := l1 ++ (workerStep api lc st ws).1 :: l2 } := by
  obtain ⟨hperm, hcount, hdr, hnd, hatt, hfr, hsz⟩ := hinv
  rw [hw] at hperm hcount hdr hnd hatt hsz
  simp only [List.flatMap_append, List.flatMap_cons, List.map_append, List.map_cons,
    List.sum_append, List.sum_cons, List.mem_append, List.mem_cons, List.length_append,
    List.length_cons] at hperm hcount hdr hnd hatt hsz
  cases ws with
  | start =>
    obtain ⟨info, hinfo⟩ := hgen st.calls
    simp only [workerStep, hinfo]
    constructor
    · simpa [WState.pending] using hperm
    · simpa [WState.uncounted] using hcount
    · simp only [List.mem_append, List.mem_cons]
      intro hd
      apply hdr
      rcases hd with hd | hd | hd
      · exact Or.inl hd
      · cases hd
      · exact Or.inr (Or.inr hd)
    · simpa [WState.inHand] using hnd
    · intro u j hm
      simp only [List.mem_append, List.mem_cons] at hm
      rw [count_snoc_sign]
      simp only [reduceCtorEq, if_false, Nat.add_zero]
      apply hatt
      rcases hm with hm | hm | hm
      · exact Or.inl hm
      · cases hm
      · exact Or.inr (Or.inr hm)
    · intro u hu
      rw [count_snoc_sign]
      simp only [reduceCtorEq, if_false, Nat.add_zero]
      exact hfr u hu
    · simpa using hsz
  | idle =>
    cases hq : st.queue with
    | nil =>
      simp only [workerStep, hq]
      constructor
      · simpa [WState.pending, hq] using hperm
      · simpa [WState.uncounted] using hcount
      · intro _; rfl
      · simpa [WState.inHand, hq] using hnd
      · intro u j hm
        simp only [List.mem_append, List.mem_cons] at hm
        apply hatt
        rcases hm with hm | hm | hm
        · exact Or.inl hm
        · cases hm
        · exact Or.inr (Or.inr hm)
      · intro u hu
        simp only [hq] at hu
        cases hu
      · simpa using hsz
    | cons u q =>
      simp only [workerStep, hq]
      rw [hq] at hperm hnd hfr
      constructor
      · rw [List.perm_iff_count] at hperm ⊢
        intro a
        have := hperm a
        simp only [List.flatMap_append, List.flatMap_cons, List.count_append, WState.pending,
          signedOf, List.count_nil, Nat.sub_zero] at this ⊢
        omega
      · simpa [WState.uncounted] using hcount
      · simp only [List.mem_append, List.mem_cons]
        intro hd
        have : st.queue = [] := by
          apply hdr
          rcases hd with hd | hd | hd
          · exact Or.inl hd
          · cases hd
          · exact Or.inr (Or.inr hd)
        rw [hq] at this
        cases this
      · rw [List.nodup_iff_count_le_one] at hnd ⊢
        intro a
        have := hnd a
        simp only [List.flatMap_append, List.flatMap_cons, List.count_append, WState.inHand,
          List.count_nil, List.count_cons] at this ⊢
        omega
      · intro u1 j hm
        simp only [List.mem_append, List.mem_cons] at hm
        rcases hm with hm | hm | hm
        · exact hatt u1 j (Or.inl hm)
        · cases hm
          exact hfr u (List.mem_cons_self _ _)
        · exact hatt u1 j (Or.inr (Or.inr hm))
      · intro u1 hu
        exact hfr u1 (List.mem_cons_of_mem _ hu)
      · simpa using hsz
  | signing u j =>
    simp only [WState.inHand] at hnd
    obtain ⟨hn1, hn2, hn3⟩ := nodup_inHand l1 l2 u st.queue hnd
    by_cases hj : j < 5
    · have hs := hsign st.calls u
      rw [hatt u j (Or.inr (Or.inl rfl))] at hs
      have h5 : 5 - j = (5 - (j + 1)) + 1 := by omega
      have hne : ¬ j = 5 := by omega
      have hother : ∀ u1, u1 ≠ u →
          (st.calls ++ [Call.sign u lc.keyMap lc.publicKeyMap]).count
            (Call.sign u1 lc.keyMap lc.publicKeyMap) =
          st.calls.count (Call.sign u1 lc.keyMap lc.publicKeyMap) := by
        intro u1 hu1
        rw [count_snoc_sign]
        have : ¬ (Call.sign u lc.keyMap lc.publicKeyMap = Call.sign u1 lc.keyMap lc.publicKeyMap) := by
          intro hc
          injection hc with hc
          exact hu1 hc.symm
        simp only [this, if_false, Nat.add_zero]
      have hatt2 : ∀ u1 j1, (WState.signing u1 j1 ∈ l1 ∨ WState.signing u1 j1 ∈ l2) →
          (st.calls ++ [Call.sign u lc.keyMap lc.publicKeyMap]).count
            (Call.sign u1 lc.keyMap lc.publicKeyMap) = j1 := by
        intro u1 j1 hm
        have hu1 : u1 ≠ u := by
          rintro rfl
          rcases hm with hm | hm
          · exact hn1 _ hm
          · exact hn2 _ hm
        rw [hother u1 hu1]
        rcases hm with hm | hm
        · exact hatt u1 j1 (Or.inl hm)
        · exact hatt u1 j1 (Or.inr (Or.inr hm))
      have hfr2 : ∀ u1 ∈ st.queue,
          (st.calls ++ [Call.sign u lc.keyMap lc.publicKeyMap]).count
            (Call.sign u1 lc.keyMap lc.publicKeyMap) = 0 := by
        intro u1 hu1
        have : u1 ≠ u := by
          rintro rfl
          exact hn3 hu1
        rw [hother u1 this]
        exact hfr u1 hu1
      cases hsf : signF u j with
      | error e =>
        rw [hsf] at hs
        simp only [workerStep, hj, if_true, hs, hne, if_false]
        constructor
        · rw [List.perm_iff_count] at hperm ⊢
          intro a
          have := hperm a
          simp only [List.flatMap_append, List.flatMap_cons, List.count_append,
            WState.pending] at this ⊢
          rw [h5, firstSigned, hsf] at this
          simpa using this
        · simpa [WState.uncounted] using hcount
        · simp only [List.mem_append, List.mem_cons]
          intro hd
          apply hdr
          rcases hd with hd | hd | hd
          · exact Or.inl hd
          · cases hd
          · exact Or.inr (Or.inr hd)
        · simpa [WState.inHand] using hnd
        · intro u1 j1 hm
          simp only [List.mem_append, List.mem_cons] at hm
          rcases hm with hm | hm | hm
          · exact hatt2 u1 j1 (Or.inl hm)
          · cases hm
            rw [count_snoc_sign, hatt u j (Or.inr (Or.inl rfl))]
            simp
          · exact hatt2 u1 j1 (Or.inr hm)
        · exact hfr2
        · simpa using hsz
      | ok tx =>
        rw [hsf] at hs
        simp only [workerStep, hj, if_true, hs]
        constructor
        · rw [List.perm_iff_count] at hperm ⊢
          intro a
          have := hperm a
          simp only [List.flatMap_append, List.flatMap_cons, List.count_append,
            WState.pending] at this ⊢
          rw [h5, firstSigned, hsf] at this
          simpa using this
        · simpa [WState.uncounted] using hcount
        · simp only [List.mem_append, List.mem_cons]
          intro hd
          apply hdr
          rcases hd with hd | hd | hd
          · exact Or.inl hd
          · cases hd
          · exact Or.inr (Or.inr hd)
        · rw [List.nodup_iff_count_le_one] at hnd ⊢
          intro a
          have := hnd a
          simp only [List.flatMap_append, List.flatMap_cons, List.count_append, WState.inHand,
            List.count_nil, List.count_cons] at this ⊢
          omega
        · intro u1 j1 hm
          simp only [List.mem_append, List.mem_cons] at hm
          rcases hm with hm | hm | hm
          · exact hatt2 u1 j1 (Or.inl hm)
          · cases hm
          · exact hatt2 u1 j1 (Or.inr hm)
        · exact hfr2
        · simpa using hsz
    · simp only [workerStep, hj, if_false]
      have h0 : 5 - j = 0 := by omega
      constructor
      · rw [List.perm_iff_count] at hperm ⊢
        intro a
        have := hperm a
        simp only [List.flatMap_append, List.flatMap_cons, List.count_append,
          WState.pending] at this ⊢
        rw [h0, firstSigned] at this
        simpa using this
      · simpa [WState.uncounted] using hcount
      · simp only [List.mem_append, List.mem_cons]
        intro hd
        apply hdr
        rcases hd with hd | hd | hd
        · exact Or.inl hd
        · cases hd
        · exact Or.inr (Or.inr hd)
      · rw [List.nodup_iff_count_le_one] at hnd ⊢
        intro a
        have := hnd a
        simp only [List.flatMap_append, List.flatMap_cons, List.count_append, WState.inHand,
          List.count_nil, List.count_cons] at this ⊢
        omega
      · intro u1 j1 hm
        simp only [List.mem_append, List.mem_cons] at hm
        rcases hm with hm | hm | hm
        · exact hatt u1 j1 (Or.inl hm)
        · cases hm
        · exact hatt u1 j1 (Or.inr (Or.inr hm))
      · exact hfr
      · simpa using hsz
  | submitting tx =>
    simp only [workerStep, hsub]
    constructor
    · rw [List.perm_iff_count] at hperm ⊢
      intro a
      have := hperm a
      simp only [List.flatMap_append, List.flatMap_cons, List.count_append,
        WState.pending, List.count_nil] at this ⊢
      omega
    · simp only [List.map_append, List.map_cons, List.sum_append, List.sum_cons,
        WState.uncounted, List.length_append, List.length_singleton] at hcount ⊢
      rw [hcount]
      congr 1
      push_cast
      omega
    · simp only [List.mem_append, List.mem_cons]
      intro hd
      apply hdr
      rcases hd with hd | hd | hd
      · exact Or.inl hd
      · cases hd
      · exact Or.inr (Or.inr hd)
    · simpa [WState.inHand] using hnd
    · intro u j hm
      simp only [List.mem_append, List.mem_cons] at hm
      rw [count_snoc_sign]
      simp only [reduceCtorEq, if_false, Nat.add_zero]
      apply hatt
      rcases hm with hm | hm | hm
      · exact Or.inl hm
      · cases hm
      · exact Or.inr (Or.inr hm)
    · intro u hu
      rw [count_snoc_sign]
      simp only [reduceCtorEq, if_false, Nat.add_zero]
      exact hfr u hu
    · simpa using hsz
  | counting =>
    simp only [workerStep]
    constructor
    · simpa [WState.pending] using hperm
    · simp only [List.map_append, List.map_cons, List.sum_append, List.sum_cons,
        WState.uncounted] at hcount ⊢
      rw [hcount, addInt32One_wrap]
      congr 1
      omega
    · simp only [List.mem_append, List.mem_cons]
      intro hd
      apply hdr
      rcases hd with hd | hd | hd
      · exact Or.inl hd
      · cases hd
      · exact Or.inr (Or.inr hd)
    · simpa [WState.inHand] using hnd
    · intro u j hm
      simp only [List.mem_append, List.mem_cons] at hm
      apply hatt
      rcases hm with hm | hm | hm
      · exact Or.inl hm
      · cases hm
      · exact Or.inr (Or.inr hm)
    · exact hfr
    · simpa using hsz
  | done =>
    simp only [workerStep]
    constructor
    · simpa using hperm
    · simpa using hcount
    · simpa using hdr
    · simpa using hnd
    · simpa using hatt
    · exact hfr
    · simpa using hsz

theorem workerStep_workers (api : NodeAPI) (lc : LoadClient) (st : PoolState) (ws : WState) :
    (workerStep api lc st ws).2.workers = st.workers := by
  cases ws <;> simp only [workerStep] <;> (try split) <;> (try split) <;> rfl

theorem poolStep_inv (api : NodeAPI) (signF : UnsignedTransaction → Nat → Except Err Transaction)
    (lc : LoadClient) (target : List Transaction) (n : Nat)
    (hgen : ∀ h, ∃ info, api.GenerateNewAddress h = .ok info)
    (hsub : ∀ h tx, api.SubmitTransaction h tx = none)
    (hsign : ∀ h u, api.SignTransaction h u lc.keyMap lc.publicKeyMap =
      signF u (h.count (Call.sign u lc.keyMap lc.publicKeyMap)))
    (st : PoolState) (w : Nat) (hinv : PoolInv signF lc target n st) :
    PoolInv signF lc target n (poolStep api lc st w) := by
  unfold poolStep
  cases hws : st.workers[w]? with
  | none => exact hinv
  | some ws =>
    obtain ⟨l1, l2, hl, hset⟩ := set_split st.workers w ws hws
    have := workerStep_inv api signF lc target n hgen hsub hsign st l1 l2 ws hl hinv
    simp only [workerStep_workers, hset]
    exact this

theorem runPool_inv (api : NodeAPI) (signF : UnsignedTransaction → Nat → Except Err Transaction)
    (lc : LoadClient) (target : List Transaction) (n : Nat)
    (hgen : ∀ h, ∃ info, api.GenerateNewAddress h = .ok info)
    (hsub : ∀ h tx, api.SubmitTransaction h tx = none)
    (hsign : ∀ h u, api.SignTransaction h u lc.keyMap lc.publicKeyMap =
      signF u (h.count (Call.sign u lc.keyMap lc.publicKeyMap))) :
    ∀ (sched : List Nat) (st : PoolState), PoolInv signF lc target n st →
      PoolInv signF lc target n (runPool api lc sched st) := by
  intro sched
  induction sched with
  | nil => intro st h; exact h
  | cons w sched ih =>
    intro st h
    simp only [runPool, List.foldl_cons]
    exact ih _ (poolStep_inv api signF lc target n hgen hsub hsign st w h)

theorem flatMap_replicate_nil {α β : Type} (f : α → List β) (a : α) (h : f a = []) :
    ∀ n, (List.replicate n a).flatMap f = [] := by
  intro n
  induction n with
  | zero => rfl
  | succ n ih => simp [List.replicate_succ, h, ih]

theorem initPool_inv (signF : UnsignedTransaction → Nat → Except Err Transaction)
    (lc : LoadClient) (queue : List UnsignedTransaction) (n : Nat) (h : List Call)
    (hnd : queue.Nodup)
    (hfresh : ∀ u ∈ queue, h.count (Call.sign u lc.keyMap lc.publicKeyMap) = 0) :
    PoolInv signF lc (signedOf signF queue) n (initPool queue n h) := by
  constructor
  · simp [initPool, flatMap_replicate_nil (WState.pending signF) WState.start rfl]
  · simp only [initPool, List.length_nil, List.map_replicate, WState.uncounted,
      List.sum_replicate]
    simp [wrapInt32]
  · intro hd
    simp only [initPool] at hd
    have := List.eq_of_mem_replicate hd
    cases this
  · simpa [initPool, flatMap_replicate_nil WState.inHand WState.start rfl] using hnd
  · intro u j hm
    simp only [initPool] at hm
    have := List.eq_of_mem_replicate hm
    cases this
  · exact hfresh
  · simp [initPool]

/-- What the invariant gives when every worker has returned. -/
theorem PoolInv_final (signF : UnsignedTransaction → Nat → Except Err Transaction)
    (lc : LoadClient) (target : List Transaction) (n : Nat) (st : PoolState)
    (hn : 1 ≤ n) (hinv : PoolInv signF lc target n st)
    (hall : st.workers.all (fun ws => ws = WState.done) = true) :
    st.submitted.Perm target ∧ st.totalCount = wrapInt32 target.length ∧ st.queue = [] := by
  obtain ⟨hperm, hcount, hdr, hnd, hatt, hfr, hsz⟩ := hinv
  simp only [List.all_eq_true, decide_eq_true_eq] at hall
  have hrep : st.workers = List.replicate n WState.done := by
    rw [List.eq_replicate_iff]
    exact ⟨hsz, hall⟩
  have hq : st.queue = [] := by
    apply hdr
    rw [hrep]
    cases n with
    | zero => omega
    | succ n => simp [List.replicate_succ]
  rw [hrep, hq] at hperm
  rw [hrep] at hcount
  simp only [flatMap_replicate_nil (WState.pending signF) WState.done rfl, signedOf,
    List.flatMap_nil, List.append_nil] at hperm
  simp only [List.map_replicate, WState.uncounted, List.sum_replicate, smul_zero,
    sub_zero] at hcount
  refine ⟨hperm, ?_, hq⟩
  rw [hcount, hperm.length_eq]

theorem expandLoop_workers (lc : LoadClient) (n : Nat) (tx : Transaction) :
    ∀ (fuel i : Nat) (acc : List UnsignedTransaction),
      expandLoop { lc with goroutineCount := n } tx fuel i acc = expandLoop lc tx fuel i acc := by
  intro fuel
  induction fuel with
  | zero => intro i acc; rfl
  | succ fuel ih =>
    intro i acc
    unfold expandLoop
    simp only [ih]
    rfl

theorem prepareLoop_workers (lc : LoadClient) (n fuel : Nat) :
    ∀ (txs : List Transaction) (acc : List UnsignedTransaction),
      prepareLoop { lc with goroutineCount := n } fuel txs acc = prepareLoop lc fuel txs acc := by
  intro txs
  induction txs with
  | nil => intro acc; rfl
  | cons tx txs ih =>
    intro acc
    unfold prepareLoop
    rw [expandLoop_workers]
    cases expandLoop lc tx fuel 1 acc with
    | none => rfl
    | some r => exact ih r

theorem prepareTransactions_workers (lc : LoadClient) (n fuel : Nat) :
    prepareTransactions { lc with goroutineCount := n } fuel = prepareTransactions lc fuel :=
  prepareLoop_workers lc n fuel lc.preparedTransactions []

theorem queue_nodup (lc : LoadClient) (fuel : Nat) (queue : List UnsignedTransaction)
    (hids : (lc.preparedTransactions.map (fun tx => tx.TransactionID)).Nodup)
    (hq : prepareTransactions lc fuel = some queue) : queue.Nodup := by
  have hqueue := prepareLoop_some lc fuel lc.preparedTransactions [] queue hq
  simp only [List.nil_append] at hqueue
  have hmap : queue.map (fun u => u.InputList.map
      (fun i => (i.OutputTransactionID, i.OutputPosition))) =
      ((lc.preparedTransactions.map (fun tx =>
        (List.range' 1 lc.outputsPerTxCount).map (fun p => (tx.TransactionID, p)))).flatten).map
        (fun x => [x]) := by
    rw [hqueue]
    simp [List.map_flatten, List.map_map, Function.comp_def, queuedTx]
  have hnd := (nodup_blocks lc.outputsPerTxCount lc.preparedTransactions hids).map
    (f := fun x => [x]) (fun a b hab => by simpa using hab)
  rw [← hmap] at hnd
  exact List.Nodup.of_map _ hnd

/-- C16 (as stated, refuted). On a node whose answers to signing and submission depend on
the transaction only, and which refuses the transaction `a1`, one worker submits nothing
and leaves three transactions in the queue (it returns at the refused submission), while
two workers have three transactions accepted. -/
theorem SendTransactions_worker_count_matters :
    (∀ h u km pkm, (exPoolApi ["a1"]).SignTransaction h u km pkm =
      (exPoolApi ["a1"]).SignTransaction [] u km pkm) ∧
    (∀ h tx, (exPoolApi ["a1"]).SubmitTransaction h tx =
      (exPoolApi ["a1"]).SubmitTransaction [] tx) ∧
    (SendTransactions (exPoolApi ["a1"]) (exPoolClient 1) 3 [0, 0, 0, 0] []).map
        (fun r => (r.totalCount, r.submitted.map (fun t => t.TransactionID), r.left.length)) =
      some (0, [], 3) ∧
    (SendTransactions (exPoolApi ["a1"]) (exPoolClient 2) 3
          ([0, 0, 0, 0] ++ List.replicate 14 1) []).map
        (fun r => (r.totalCount, r.submitted.map (fun t => t.TransactionID), r.left.length)) =
      some (3, ["a2", "b1", "b2"], 0) :=
  ⟨fun _ _ _ _ => rfl, fun _ _ => rfl, by decide, by decide⟩

/-- C16 (amended). On a node that lets every worker obtain its address, accepts every
submission, and answers attempt `k` of signing a transaction `u` by `signF u k`, for a load
client whose prepared transactions have distinct identifiers and whose transactions have
not been sent for signing before: two runs of `SendTransactions` with any worker counts
`n1, n2 ≥ 1` and any interleavings of their workers end with the same counter and the same
submitted transactions (up to order), namely those `signF` signs within five attempts, and
with an empty queue. -/
theorem SendTransactions_concurrency_invariance (api : NodeAPI)
    (signF : UnsignedTransaction → Nat → Except Err Transaction) (lc : LoadClient)
    (fuel : Nat) (h : List Call) (n1 n2 : Nat) (sched1 sched2 : List Nat)
    (run1 run2 : SendRun) (hn1 : 1 ≤ n1) (hn2 : 1 ≤ n2)
    (hgen : ∀ h, ∃ info, api.GenerateNewAddress h = .ok info)
    (hsub : ∀ h tx, api.SubmitTransaction h tx = none)
    (hsign : ∀ h u, api.SignTransaction h u lc.keyMap lc.publicKeyMap =
      signF u (h.count (Call.sign u lc.keyMap lc.publicKeyMap)))
    (hids : (lc.preparedTransactions.map (fun tx => tx.TransactionID)).Nodup)
    (hfresh : ∀ u, h.count (Call.sign u lc.keyMap lc.publicKeyMap) = 0)
    (hrun1 : SendTransactions api { lc with goroutineCount := n1 } fuel sched1 h = some run1)
    (hrun2 : SendTransactions api { lc with goroutineCount := n2 } fuel sched2 h = some run2) :
    run1.totalCount = run2.totalCount ∧
    run1.submitted.Perm run2.submitted ∧
    (∀ tx, tx ∈ run1.submitted ↔ tx ∈ run2.submitted) ∧
    run1.err = none ∧ run2.err = none ∧ run1.left = [] ∧ run2.left = [] ∧
    ∃ queue, prepareTransactions lc fuel = some queue ∧
      run1.submitted.Perm (signedOf signF queue) ∧
      run1.totalCount = wrapInt32 (signedOf signF queue).length := by
  unfold SendTransactions at hrun1 hrun2
  rw [prepareTransactions_workers] at hrun1 hrun2
  cases hq : prepareTransactions lc fuel with
  | none => simp [hq] at hrun1
  | some queue =>
    simp only [hq] at hrun1 hrun2
    have hnd := queue_nodup lc fuel queue hids hq
    have hinv1 := runPool_inv api signF { lc with goroutineCount := n1 } (signedOf signF queue)
      n1 hgen hsub hsign sched1 _
      (initPool_inv signF { lc with goroutineCount := n1 } queue n1 h hnd
        (fun u _ => hfresh u))
    have hinv2 := runPool_inv api signF { lc with goroutineCount := n2 } (signedOf signF queue)
      n2 hgen hsub hsign sched2 _
      (initPool_inv signF { lc with goroutineCount := n2 } queue n2 h hnd
        (fun u _ => hfresh u))
    split at hrun1
    · rename_i hall1
      split at hrun2
      · rename_i hall2
        obtain ⟨hp1, hc1, hq1⟩ := PoolInv_final signF _ _ n1 _ hn1 hinv1 hall1
        obtain ⟨hp2, hc2, hq2⟩ := PoolInv_final signF _ _ n2 _ hn2 hinv2 hall2
        simp only [Option.some.injEq] at hrun1 hrun2
        subst hrun1
        subst hrun2
        refine ⟨by rw [hc1, hc2], hp1.trans hp2.symm, fun tx => (hp1.trans hp2.symm).mem_iff,
          rfl, rfl, hq1, hq2, queue, rfl, hp1, hc1⟩
      · simp at hrun2
    · simp at hrun1

set_option maxRecDepth 4000 in
/-- Witness of `SendTransactions_concurrency_invariance`: the node `exRetryApi` signs each
transaction at the second attempt; one worker and two workers (the second overtaking the
first) have the same four transactions accepted. -/
theorem SendTransactions_concurrency_invariance_witness :
    (∀ h, ∃ info, exRetryApi.GenerateNewAddress h = .ok info) ∧
    (∀ h tx, exRetryApi.SubmitTransaction h tx = none) ∧
    (∀ h u, exRetryApi.SignTransaction h u exDispatchClient.keyMap
        exDispatchClient.publicKeyMap =
      exRetrySign u (h.count (Call.sign u exDispatchClient.keyMap
        exDispatchClient.publicKeyMap))) ∧
    (exDispatchClient.preparedTransactions.map (fun tx => tx.TransactionID)).Nodup ∧
    SendTransactions exRetryApi { exDispatchClient with goroutineCount := 1 } 3
      (List.replicate 22 0) [] = some (exRetryRun 1 (List.replicate 22 0)) ∧
    SendTransactions exRetryApi { exDispatchClient with goroutineCount := 2 } 3 exSched2 []
      = some (exRetryRun 2 exSched2) ∧
    ((exRetryRun 1 (List.replicate 22 0)).totalCount = (exRetryRun 2 exSched2).totalCount ∧
      (exRetryRun 1 (List.replicate 22 0)).submitted.Perm (exRetryRun 2 exSched2).submitted ∧
      (∀ tx, tx ∈ (exRetryRun 1 (List.replicate 22 0)).submitted ↔
        tx ∈ (exRetryRun 2 exSched2).submitted) ∧
      (exRetryRun 1 (List.replicate 22 0)).err = none ∧ (exRetryRun 2 exSched2).err = none ∧
      (exRetryRun 1 (List.replicate 22 0)).left = [] ∧ (exRetryRun 2 exSched2).left = [] ∧
      ∃ queue, prepareTransactions exDispatchClient 3 = some queue ∧
        (exRetryRun 1 (List.replicate 22 0)).submitted.Perm (signedOf exRetrySign queue) ∧
        (exRetryRun 1 (List.replicate 22 0)).totalCount =
          wrapInt32 (signedOf exRetrySign queue).length) :=
  ⟨fun _ => ⟨_, rfl⟩, fun _ _ => rfl, fun _ _ => rfl, by decide, by decide, by decide,
    SendTransactions_concurrency_invariance exRetryApi exRetrySign exDispatchClient 3 []
      1 2 (List.replicate 22 0) exSched2 _ _ (by decide) (by decide)
      (fun _ => ⟨_, rfl⟩) (fun _ _ => rfl) (fun _ _ => rfl) (by decide) (fun _ => rfl)
      (by decide) (by decide)⟩

set_option maxRecDepth 4000 in
/-- The two runs of the witness: the same counter, the same transactions, another order. -/
theorem SendTransactions_retry_example :
    ((exRetryRun 1 (List.replicate 22 0)).totalCount,
      (exRetryRun 1 (List.replicate 22 0)).submitted.map (fun t => t.TransactionID)) =
      (4, ["a1", "a2", "b1", "b2"]) ∧
    ((exRetryRun 2 exSched2).totalCount,
      (exRetryRun 2 exSched2).submitted.map (fun t => t.TransactionID)) =
      (4, ["a2", "a1", "b1", "b2"]) := by
  constructor <;> decide

/-! ## The sanity check of `SendMillix` -/

/-- C17. The sanity check of `SendMillix` never fires: for every set of unspent outputs,
every receiver list and every behaviour of the node, `SendMillix` does not panic; on a
non-empty set the two totals of the check agree in `uint` arithmetic and the transaction is
built, also when the unspent outputs total less than the requested amount, as for one
output of amount 5 and a request of 10, where the change wraps to `2 ^ 64 - 5`. -/
theorem sanity_check_never_fires (api : NodeAPI) (c : Client) (visit : StrMap → StrMap)
    (h : List Call) (outputs : List TransactionOutput)
    (receiverAmounts : List ReceiverAmount) :
    (∀ msg, (SendMillix api c visit h receiverAmounts).1 ≠ Outcome.panic msg) ∧
    (∀ msg, buildSendMillix c outputs receiverAmounts ≠ Outcome.panic msg) ∧
    (outputs ≠ [] →
      ∃ b, buildSendMillix c outputs receiverAmounts = Outcome.ok b ∧
        totalAmount b.chosenOutputs = totalAmount b.unsignedTx.OutputList) ∧
    (∃ b, buildSendMillix c [{ Amount := 5 }] [{ Amount := 10 }] = Outcome.ok b ∧
      sumAmounts b.chosenOutputs < neededAmount [{ Amount := 10 }] ∧
      b.change = 2 ^ 64 - 5) := by
  refine ⟨?_, ?_, ?_, ?_⟩
  · intro msg hp
    rcases hb : balanceLoop api c 11 1 h with ⟨oe, h1⟩
    cases oe with
    | some err => simp [SendMillix, hb] at hp
    | none =>
      cases hq : api.GetUnspentTransactionOutputs h1 c.keyIdentifier with
      | error err => simp [SendMillix, hb, hq] at hp
      | ok outputs0 =>
        by_cases hlen : (sortSlice outputs0).length = 0
        · simp [SendMillix, hb, hq, hlen] at hp
        · have hs : totalAmount
                (selectOutputs (neededAmount receiverAmounts) (sortSlice outputs0)).2 =
              totalAmount (sendMillixOutputs c
                (selectOutputs (neededAmount receiverAmounts) (sortSlice outputs0)).1
                receiverAmounts) := by
            rw [selectOutputs_amount]
            exact sanity_totals c _ receiverAmounts
          unfold sendMillixOutputs at hs
          rcases hk : fetchKeys api
              (visit (List.foldl (fun m o => mapSet m o.Address o.AddressKeyIdentifier) []
                (selectOutputs (neededAmount receiverAmounts) (sortSlice outputs0)).2))
              [] [] (h1 ++ [Call.getUnspent c.keyIdentifier]) with ⟨ok, h3⟩
          cases ok with
          | error err => simp [SendMillix, hb, hq, hlen, hk] at hp
          | ok maps =>
            obtain ⟨keyMap, publicKeyMap⟩ := maps
            simp only [SendMillix, hb, hq, hlen, hk, if_false] at hp
            rw [if_neg (by simpa using hs)] at hp
            split at hp
            · simp at hp
            · split at hp <;> simp at hp
  · intro msg hp
    by_cases hne : outputs = []
    · subst hne
      simp [buildSendMillix, sortSlice] at hp
    · rw [buildSendMillix_ok c outputs receiverAmounts hne] at hp
      simp at hp
  · intro hne
    refine ⟨_, buildSendMillix_ok c outputs receiverAmounts hne, ?_⟩
    simp only
    rw [selectOutputs_amount]
    exact sanity_totals c _ receiverAmounts
  · refine ⟨_, buildSendMillix_ok c _ _ (by simp), ?_, ?_⟩
    · show sumAmounts (selectOutputs (neededAmount [{ Amount := 10 }])
        (sortSlice [{ Amount := 5 }])).2 < neededAmount [{ Amount := 10 }]
      decide
    · show usub (selectOutputs (neededAmount [{ Amount := 10 }])
        (sortSlice [{ Amount := 5 }])).1 (neededAmount [{ Amount := 10 }]) = 2 ^ 64 - 5
      decide

/-! ## Chaining without underflow, and the failure paths of `PrepareOutputs` -/

/-- C18. In a run of `PrepareOutputs` on the unspent outputs `outputs`, for every round
`j + 1` with `j + 1 <= totalOutputs / outputsPerBatch`: the first root covers
`totalOutputs`, the root of the round has the amount `A - j * outputsPerBatch` (`A` the amount
of the first root, the largest one), which is at least `outputsPerBatch`; so the change that
`SendMillixFromOutput` computes and the amount of the next synthesised root are both the
difference `root amount - outputsPerBatch` as a natural number, without wraparound. -/
theorem PrepareOutputs_no_underflow (api : NodeAPI) (lc : LoadClient) (fuel : Nat)
    (h : List Call) (total K : Nat) (outputs : List TransactionOutput) (run : PrepareRun)
    (hamounts : ∀ o ∈ outputs, o.Amount < uintMod)
    (hq : api.GetUnspentTransactionOutputs (h ++ [Call.verifyNodeID]) lc.keyIdentifier =
      .ok outputs)
    (hrun : PrepareOutputs api lc fuel h total K = some run) :
    ∀ (j : Nat) (r0 r : Round), j < total / K →
      run.rounds[0]? = some r0 → run.rounds[j]? = some r →
      (∀ o ∈ outputs, o.Amount ≤ r0.root.Amount) ∧
      total ≤ r0.root.Amount ∧
      j * K ≤ r0.root.Amount ∧
      r.root.Amount = r0.root.Amount - j * K ∧
      K ≤ r.root.Amount ∧
      usub r.root.Amount (neededAmount (roundReceivers lc K)) = r.root.Amount - K ∧
      ∀ tx, (nextRoot K r.root tx).Amount = r.root.Amount - K := by
  intro j r0 r hj hr0 hr
  rcases PrepareOutputs_inv api lc fuel h total K run hrun with ⟨hnil, _, _⟩ |
    ⟨outputs1, root, rest, lrun, _, hq1, _, hs, hle, hK, hloop, hrounds, _, _⟩
  · rw [hnil] at hr0
    simp at hr0
  · rw [hq] at hq1
    have hout : outputs = outputs1 := by
      injection hq1
    subst hout
    obtain ⟨hmem, hmax⟩ := sortSlice_head_max hs
    have hA : root.Amount < uintMod := hamounts root hmem
    obtain ⟨new, hnew, hchain, _⟩ :=
      roundsLoop_spec api lc K (total / K) fuel 1 root [] _ [] lrun hloop
    simp only [List.nil_append] at hnew
    obtain ⟨_, hfirst, _⟩ := chain_step lc K new root hchain
    have hamt := chain_amount lc K new root hchain hA
    rw [hrounds, hnew] at hr0 hr
    have hroot0 := hfirst r0 hr0
    have hRK : total / K * K ≤ total := Nat.div_mul_le_self total K
    have hjK : (j + 1) * K ≤ total / K * K := Nat.mul_le_mul_right K (by omega)
    have h1 : (j + 1) * K = j * K + K := Nat.succ_mul j K
    have ha : r.root.Amount = root.Amount - j * K := hamt j r hr (by omega)
    have hKlt : K < uintMod := by omega
    rw [hroot0]
    refine ⟨hmax, hle, by omega, ha, by omega, ?_, ?_⟩
    · rw [neededAmount_roundReceivers lc K hKlt]
      exact usub_eq_of_le (by omega) (by omega)
    · intro tx
      simp only [nextRoot]
      exact usub_eq_of_le (by omega) (by omega)

/-- Witness of `PrepareOutputs_no_underflow`: 15 outputs, 5 per transaction, from unspent
outputs of amounts 3 and 20. -/
theorem PrepareOutputs_no_underflow_witness :
    (∀ o ∈ exUnspent, o.Amount < uintMod) ∧
    (exApi exUnspent).GetUnspentTransactionOutputs ([] ++ [Call.verifyNodeID])
      exLoadClient.keyIdentifier = .ok exUnspent ∧
    PrepareOutputs (exApi exUnspent) exLoadClient 4 [] 15 5 = some (exPrepare exUnspent 15 5) ∧
    ∀ (j : Nat) (r0 r : Round), j < 15 / 5 →
      (exPrepare exUnspent 15 5).rounds[0]? = some r0 →
      (exPrepare exUnspent 15 5).rounds[j]? = some r →
      (∀ o ∈ exUnspent, o.Amount ≤ r0.root.Amount) ∧
      15 ≤ r0.root.Amount ∧
      j * 5 ≤ r0.root.Amount ∧
      r.root.Amount = r0.root.Amount - j * 5 ∧
      5 ≤ r.root.Amount ∧
      usub r.root.Amount (neededAmount (roundReceivers exLoadClient 5)) = r.root.Amount - 5 ∧
      ∀ tx, (nextRoot 5 r.root tx).Amount = r.root.Amount - 5 :=
  ⟨by decide, rfl, rfl,
    PrepareOutputs_no_underflow (exApi exUnspent) exLoadClient 4 [] 15 5 exUnspent _
      (by decide) rfl rfl⟩

theorem snoc_inj {α : Type} {l1 l2 : List α} {a b : α} (h : l1 ++ [a] = l2 ++ [b]) :
    l1 = l2 ∧ a = b := by
  have := List.append_inj' h rfl
  exact ⟨this.1, by simpa using this.2⟩

/-- How `SendMillixFromOutput` ends, read off its last call: `(nil, nil)` exactly when its
last call is a refused submission; a transaction exactly when its last call is an accepted
submission; and when its last call is a signing, the signing failed and the error is the
wrapped signing error. -/
theorem SendMillixFromOutput_last (api : NodeAPI) (c : Client) (h : List Call)
    (output : TransactionOutput) (receiverAmounts : List ReceiverAmount) :
    ∃ hp last, (SendMillixFromOutput api c h output receiverAmounts).2 = hp ++ [last] ∧
      ((∃ a e, last = Call.getPrivateKey a ∧
          (SendMillixFromOutput api c h output receiverAmounts).1 = (none, some e)) ∨
        (∃ a e, last = Call.getAddressInfo a ∧
          (SendMillixFromOutput api c h output receiverAmounts).1 = (none, some e)) ∨
        (∃ u km pkm e, last = Call.sign u km pkm ∧
          api.SignTransaction hp u km pkm = .error e ∧
          (SendMillixFromOutput api c h output receiverAmounts).1 =
            (none, some (Err.wrap e "Failed to sign transaction"))) ∨
        (∃ tx e, last = Call.submit tx ∧ api.SubmitTransaction hp tx = some e ∧
          (SendMillixFromOutput api c h output receiverAmounts).1 = (none, none)) ∨
        (∃ tx, last = Call.submit tx ∧ api.SubmitTransaction hp tx = none ∧
          (SendMillixFromOutput api c h output receiverAmounts).1 = (some tx, none))) := by
  cases hk : api.GetPrivateKey h c.address with
  | error e =>
    refine ⟨h, Call.getPrivateKey c.address, by simp [SendMillixFromOutput, hk], ?_⟩
    left
    exact ⟨_, e, rfl, by simp [SendMillixFromOutput, hk]⟩
  | ok privKey =>
    cases hi : api.GetAddressInfo (h ++ [Call.getPrivateKey c.address]) c.address with
    | error e =>
      refine ⟨h ++ [Call.getPrivateKey c.address], Call.getAddressInfo c.address,
        by simp [SendMillixFromOutput, hk, hi], ?_⟩
      right; left
      exact ⟨_, e, rfl, by simp [SendMillixFromOutput, hk, hi]⟩
    | ok info =>
      cases hs : api.SignTransaction
          (h ++ [Call.getPrivateKey c.address, Call.getAddressInfo c.address])
          (unsignedFromOutput c output receiverAmounts) [(c.keyIdentifier, privKey)]
          [(info.AddressBase, StrMap.get info.AddressAttribute "key_public")] with
      | error e =>
        refine ⟨h ++ [Call.getPrivateKey c.address, Call.getAddressInfo c.address],
          Call.sign (unsignedFromOutput c output receiverAmounts) [(c.keyIdentifier, privKey)]
            [(info.AddressBase, StrMap.get info.AddressAttribute "key_public")],
          by simp [SendMillixFromOutput, hk, hi, hs], ?_⟩
        right; right; left
        exact ⟨_, _, _, e, rfl, hs, by simp [SendMillixFromOutput, hk, hi, hs]⟩
      | ok tx =>
        cases hsub : api.SubmitTransaction
            (h ++ [Call.getPrivateKey c.address, Call.getAddressInfo c.address,
              Call.sign (unsignedFromOutput c output receiverAmounts)
                [(c.keyIdentifier, privKey)]
                [(info.AddressBase, StrMap.get info.AddressAttribute "key_public")]]) tx with
        | some e =>
          refine ⟨h ++ [Call.getPrivateKey c.address, Call.getAddressInfo c.address,
              Call.sign (unsignedFromOutput c output receiverAmounts)
                [(c.keyIdentifier, privKey)]
                [(info.AddressBase, StrMap.get info.AddressAttribute "key_public")]],
            Call.submit tx, by simp [SendMillixFromOutput, hk, hi, hs, hsub], ?_⟩
          right; right; right; left
          exact ⟨tx, e, rfl, hsub, by simp [SendMillixFromOutput, hk, hi, hs, hsub]⟩
        | none =>
          refine ⟨h ++ [Call.getPrivateKey c.address, Call.getAddressInfo c.address,
              Call.sign (unsignedFromOutput c output receiverAmounts)
                [(c.keyIdentifier, privKey)]
                [(info.AddressBase, StrMap.get info.AddressAttribute "key_public")]],
            Call.submit tx, by simp [SendMillixFromOutput, hk, hi, hs, hsub], ?_⟩
          right; right; right; right
          exact ⟨tx, rfl, hsub, by simp [SendMillixFromOutput, hk, hi, hs, hsub]⟩

/-- How the round loop ends, read off the last call: a panic is "No transaction" and
follows a refused submission, unless the receivers do not fit a slice, which ends the loop
before it makes a call; an error follows a failed key request or a failed signing, and in
the latter case it is the signing error wrapped twice. -/
theorem roundsLoop_last (api : NodeAPI) (lc : LoadClient) (K R : Nat) :
    ∀ (fuel i : Nat) (chosen : TransactionOutput) (txs : List Transaction) (h : List Call)
      (rs : List Round) (run : RoundsRun),
      roundsLoop api lc K R fuel i chosen txs h rs = some run →
      (∀ m, run.outcome = Outcome.panic m →
        (maxSliceLen < K ∧ run.calls = h ∧ m ≠ "No transaction") ∨
        (m = "No transaction" ∧
          ∃ hp tx e, run.calls = hp ++ [Call.submit tx] ∧
            api.SubmitTransaction hp tx = some e)) ∧
      (∀ e, run.outcome = Outcome.error e →
        ∃ hp last, run.calls = hp ++ [last] ∧
          ((∃ a, last = Call.getPrivateKey a) ∨ (∃ a, last = Call.getAddressInfo a) ∨
            ∃ u km pkm e0, last = Call.sign u km pkm ∧
              api.SignTransaction hp u km pkm = .error e0 ∧
              e = Err.wrap (Err.wrap e0 "Failed to sign transaction")
                "Failed to send millix")) := by
  intro fuel
  induction fuel with
  | zero =>
    intro i chosen txs h rs run hrun
    simp [roundsLoop] at hrun
  | succ fuel ih =>
    intro i chosen txs h rs run hrun
    unfold roundsLoop at hrun
    by_cases hi : i ≤ R
    · simp only [hi, if_true] at hrun
      by_cases hcap : maxSliceLen < K
      · simp only [hcap, if_true, Option.some.injEq] at hrun
        subst hrun
        refine ⟨?_, fun e he => (by simp at he)⟩
        intro m hm
        simp only [Outcome.panic.injEq] at hm
        exact Or.inl ⟨hcap, rfl, by rw [← hm]; decide⟩
      simp only [hcap, if_false] at hrun
      obtain ⟨hp, last, hcalls, hcases⟩ :=
        SendMillixFromOutput_last api lc.millixClient h chosen (roundReceivers lc K)
      rcases hres : SendMillixFromOutput api lc.millixClient h chosen (roundReceivers lc K)
        with ⟨⟨otx, oerr⟩, h1⟩
      rw [hres] at hrun hcalls hcases
      simp only at hcalls hcases
      cases oerr with
      | some err =>
        simp only [Option.some.injEq] at hrun
        subst hrun
        refine ⟨by intro m hm; simp at hm, ?_⟩
        intro e he
        simp only [Outcome.error.injEq] at he
        refine ⟨hp, last, hcalls, ?_⟩
        rcases hcases with ⟨a, _, hl, _⟩ | ⟨a, _, hl, _⟩ | ⟨u, km, pkm, e0, hl, hs, hr⟩ |
          ⟨_, _, _, _, hr⟩ | ⟨_, _, _, hr⟩
        · exact Or.inl ⟨a, hl⟩
        · exact Or.inr (Or.inl ⟨a, hl⟩)
        · right; right
          simp only [Prod.mk.injEq, Option.some.injEq] at hr
          refine ⟨u, km, pkm, e0, hl, hs, ?_⟩
          rw [← he, hr.2]
        · simp at hr
        · simp at hr
      | none =>
        cases otx with
        | none =>
          simp only [Option.some.injEq] at hrun
          subst hrun
          refine ⟨?_, by intro e he; simp at he⟩
          intro m hm
          simp only [Outcome.panic.injEq] at hm
          right
          refine ⟨hm.symm, ?_⟩
          rcases hcases with ⟨_, _, _, hr⟩ | ⟨_, _, _, hr⟩ | ⟨_, _, _, _, _, _, hr⟩ |
            ⟨tx, e, hl, hsub, _⟩ | ⟨_, _, _, hr⟩
          · simp at hr
          · simp at hr
          · simp at hr
          · exact ⟨hp, tx, e, by rw [hcalls, hl], hsub⟩
          · simp at hr
        | some tx =>
          simp only at hrun
          obtain ⟨ih1, ih2⟩ := ih _ _ _ _ _ _ hrun
          refine ⟨?_, ih2⟩
          intro m hm
          rcases ih1 m hm with ⟨hc, _, _⟩ | hr
          · exact absurd hc hcap
          · exact Or.inr hr
    · simp only [hi, if_false, Option.some.injEq] at hrun
      subst hrun
      exact ⟨by intro m hm; simp at hm, by intro e he; simp at he⟩

/-- Every way `PrepareOutputs` ends, with its last call: after the identity check, after a
query for unspent outputs (never with the panic "No transaction"), or with the outcome
and the calls of a round loop that did not end normally. -/
theorem PrepareOutputs_last (api : NodeAPI) (lc : LoadClient) (fuel : Nat) (h : List Call)
    (total K : Nat) (prun : PrepareRun)
    (hrun : PrepareOutputs api lc fuel h total K = some prun) :
    (∃ hp c, prun.calls = hp ++ [c] ∧
      (c = Call.verifyNodeID ∨ c = Call.getUnspent lc.keyIdentifier) ∧
      prun.outcome ≠ Outcome.panic "No transaction") ∨
    ∃ root lrun,
      roundsLoop api lc K (total / K) fuel 1 root []
        (h ++ [Call.verifyNodeID, Call.getUnspent lc.keyIdentifier]) [] = some lrun ∧
      lrun.outcome ≠ Outcome.ok () ∧ prun.calls = lrun.calls ∧ prun.outcome = lrun.outcome := by
  simp only [PrepareOutputs, List.append_assoc, List.singleton_append] at hrun
  cases hv : api.VerifyNodeID h with
  | some err =>
    simp only [hv, Option.some.injEq] at hrun
    subst hrun
    exact Or.inl ⟨h, _, rfl, Or.inl rfl, by simp⟩
  | none =>
    simp only [hv] at hrun
    cases hq : api.GetUnspentTransactionOutputs (h ++ [Call.verifyNodeID]) lc.keyIdentifier with
    | error err =>
      simp only [hq, Option.some.injEq] at hrun
      subst hrun
      exact Or.inl ⟨h ++ [Call.verifyNodeID], _, by simp, Or.inr rfl, by simp⟩
    | ok outputs =>
      simp only [hq] at hrun
      by_cases hlen : outputs.length = 0
      · simp only [hlen, if_true, Option.some.injEq] at hrun
        subst hrun
        exact Or.inl ⟨h ++ [Call.verifyNodeID], _, by simp, Or.inr rfl, by simp⟩
      · simp only [hlen, if_false] at hrun
        cases hs : sortSlice outputs with
        | nil =>
          simp only [hs, Option.some.injEq] at hrun
          subst hrun
          exact Or.inl ⟨h ++ [Call.verifyNodeID], _, by simp, Or.inr rfl, by simp⟩
        | cons root rest =>
          simp only [hs] at hrun
          by_cases hamt : root.Amount < total
          · simp only [hamt, if_true, Option.some.injEq] at hrun
            subst hrun
            exact Or.inl ⟨h ++ [Call.verifyNodeID], _, by simp, Or.inr rfl, by simp⟩
          · simp only [hamt, if_false] at hrun
            by_cases hK : K = 0
            · simp only [hK, if_true, Option.some.injEq] at hrun
              subst hrun
              exact Or.inl ⟨h ++ [Call.verifyNodeID], _, by simp, Or.inr rfl, by simp⟩
            · simp only [hK, if_false] at hrun
              cases hl : roundsLoop api lc K (total / K) fuel 1 root []
                  (h ++ [Call.verifyNodeID, Call.getUnspent lc.keyIdentifier]) [] with
              | none => simp [hl] at hrun
              | some lrun =>
                simp only [hl] at hrun
                cases ho : lrun.outcome with
                | ok u =>
                  simp only [ho] at hrun
                  left
                  cases hq2 : api.GetUnspentTransactionOutputs lrun.calls lc.keyIdentifier with
                  | error err =>
                    simp only [hq2, Option.some.injEq] at hrun
                    subst hrun
                    exact ⟨lrun.calls, _, rfl, Or.inr rfl, by simp⟩
                  | ok outs2 =>
                    simp only [hq2, Option.some.injEq] at hrun
                    subst hrun
                    exact ⟨lrun.calls, _, rfl, Or.inr rfl, by simp⟩
                | error e =>
                  simp only [ho, Option.some.injEq] at hrun
                  subst hrun
                  exact Or.inr ⟨root, lrun, hl, by simp [ho], rfl, by simp [ho]⟩
                | panic m =>
                  simp only [ho, Option.some.injEq] at hrun
                  subst hrun
                  exact Or.inr ⟨root, lrun, hl, by simp [ho], rfl, by simp [ho]⟩

/-- The calls `SendMillixFromOutput` makes: a submission is the last of them, and it
decides the result: the transaction when it is accepted, `(nil, nil)` when it is
refused. -/
theorem SendMillixFromOutput_seg (api : NodeAPI) (c : Client) (h : List Call)
    (output : TransactionOutput) (receiverAmounts : List ReceiverAmount) :
    ∃ seg, (SendMillixFromOutput api c h output receiverAmounts).2 = h ++ seg ∧
      ∀ pre tx post, seg = pre ++ Call.submit tx :: post →
        post = [] ∧
        ((api.SubmitTransaction (h ++ pre) tx = none ∧
            (SendMillixFromOutput api c h output receiverAmounts).1 = (some tx, none)) ∨
          (∃ e, api.SubmitTransaction (h ++ pre) tx = some e ∧
            (SendMillixFromOutput api c h output receiverAmounts).1 = (none, none))) := by
  have hnil : ∀ (l pre post : List Call) (tx : Transaction),
      Call.submit tx ∉ l → l = pre ++ Call.submit tx :: post → False := by
    intro l pre post tx hm heq
    apply hm
    rw [heq]
    simp
  cases hk : api.GetPrivateKey h c.address with
  | error e =>
    refine ⟨[Call.getPrivateKey c.address], by simp [SendMillixFromOutput, hk], ?_⟩
    intro pre tx post heq
    exact (hnil _ pre post tx (by simp) heq).elim
  | ok privKey =>
    cases hi : api.GetAddressInfo (h ++ [Call.getPrivateKey c.address]) c.address with
    | error e =>
      refine ⟨[Call.getPrivateKey c.address, Call.getAddressInfo c.address],
        by simp [SendMillixFromOutput, hk, hi], ?_⟩
      intro pre tx post heq
      exact (hnil _ pre post tx (by simp) heq).elim
    | ok info =>
      cases hs : api.SignTransaction
          (h ++ [Call.getPrivateKey c.address, Call.getAddressInfo c.address])
          (unsignedFromOutput c output receiverAmounts) [(c.keyIdentifier, privKey)]
          [(info.AddressBase, StrMap.get info.AddressAttribute "key_public")] with
      | error e =>
        refine ⟨[Call.getPrivateKey c.address, Call.getAddressInfo c.address,
            Call.sign (unsignedFromOutput c output receiverAmounts)
              [(c.keyIdentifier, privKey)]
              [(info.AddressBase, StrMap.get info.AddressAttribute "key_public")]],
          by simp [SendMillixFromOutput, hk, hi, hs], ?_⟩
        intro pre tx post heq
        exact (hnil _ pre post tx (by simp) heq).elim
      | ok tx0 =>
        have hpre : ∀ pre tx post,
            [Call.getPrivateKey c.address, Call.getAddressInfo c.address,
              Call.sign (unsignedFromOutput c output receiverAmounts)
                [(c.keyIdentifier, privKey)]
                [(info.AddressBase, StrMap.get info.AddressAttribute "key_public")],
              Call.submit tx0] = pre ++ Call.submit tx :: post →
            post = [] ∧ tx = tx0 ∧
            pre = [Call.getPrivateKey c.address, Call.getAddressInfo c.address,
              Call.sign (unsignedFromOutput c output receiverAmounts)
                [(c.keyIdentifier, privKey)]
                [(info.AddressBase, StrMap.get info.AddressAttribute "key_public")]] := by
          intro pre tx post heq
          rcases pre with _ | ⟨a1, _ | ⟨a2, _ | ⟨a3, _ | ⟨a4, pre⟩⟩⟩⟩
          · simp at heq
          · simp at heq
          · simp at heq
          · simp only [List.cons_append, List.nil_append, List.cons.injEq] at heq
            obtain ⟨h1, h2, h3, h4, h5⟩ := heq
            cases h4
            exact ⟨h5.symm, rfl, by rw [h1, h2, h3]⟩
          · simp at heq
        cases hsub : api.SubmitTransaction
            (h ++ [Call.getPrivateKey c.address, Call.getAddressInfo c.address,
              Call.sign (unsignedFromOutput c output receiverAmounts)
                [(c.keyIdentifier, privKey)]
                [(info.AddressBase, StrMap.get info.AddressAttribute "key_public")]]) tx0 with
        | some e =>
          refine ⟨_, by simp [SendMillixFromOutput, hk, hi, hs, hsub]; rfl, ?_⟩
          intro pre tx post heq
          obtain ⟨hpost, htx, hp⟩ := hpre pre tx post heq
          subst htx
          subst hp
          exact ⟨hpost, Or.inr ⟨e, hsub, by simp [SendMillixFromOutput, hk, hi, hs, hsub]⟩⟩
        | none =>
          refine ⟨_, by simp [SendMillixFromOutput, hk, hi, hs, hsub]; rfl, ?_⟩
          intro pre tx post heq
          obtain ⟨hpost, htx, hp⟩ := hpre pre tx post heq
          subst htx
          subst hp
          exact ⟨hpost, Or.inl ⟨hsub, by simp [SendMillixFromOutput, hk, hi, hs, hsub]⟩⟩

/-- In the calls of the round loop a refused submission is the last call, and the loop
then ends with the panic "No transaction". -/
theorem roundsLoop_refused (api : NodeAPI) (lc : LoadClient) (K R : Nat) :
    ∀ (fuel i : Nat) (chosen : TransactionOutput) (txs : List Transaction) (h : List Call)
      (rs : List Round) (run : RoundsRun),
      roundsLoop api lc K R fuel i chosen txs h rs = some run →
      ∃ new, run.calls = h ++ new ∧
        ∀ pre tx post e, new = pre ++ Call.submit tx :: post →
          api.SubmitTransaction (h ++ pre) tx = some e →
          post = [] ∧ run.outcome = Outcome.panic "No transaction" := by
  intro fuel
  induction fuel with
  | zero =>
    intro i chosen txs h rs run hrun
    simp [roundsLoop] at hrun
  | succ fuel ih =>
    intro i chosen txs h rs run hrun
    unfold roundsLoop at hrun
    by_cases hi : i ≤ R
    · simp only [hi, if_true] at hrun
      by_cases hcap : maxSliceLen < K
      · simp only [hcap, if_true, Option.some.injEq] at hrun
        subst hrun
        refine ⟨[], by simp, ?_⟩
        intro pre tx post e heq _
        simp at heq
      simp only [hcap, if_false] at hrun
      obtain ⟨seg, hseg, hsub⟩ :=
        SendMillixFromOutput_seg api lc.millixClient h chosen (roundReceivers lc K)
      rcases hres : SendMillixFromOutput api lc.millixClient h chosen (roundReceivers lc K)
        with ⟨⟨otx, oerr⟩, h1⟩
      rw [hres] at hrun hseg hsub
      simp only at hseg hsub
      subst hseg
      cases oerr with
      | some err =>
        simp only [Option.some.injEq] at hrun
        subst hrun
        refine ⟨seg, rfl, ?_⟩
        intro pre tx post e heq hrefused
        obtain ⟨_, hr⟩ := hsub pre tx post heq
        rcases hr with ⟨_, hr⟩ | ⟨_, _, hr⟩ <;> simp at hr
      | none =>
        cases otx with
        | none =>
          simp only [Option.some.injEq] at hrun
          subst hrun
          refine ⟨seg, rfl, ?_⟩
          intro pre tx post e heq _
          exact ⟨(hsub pre tx post heq).1, rfl⟩
        | some tx0 =>
          simp only at hrun
          obtain ⟨new, hnew, hprop⟩ := ih _ _ _ _ _ _ hrun
          refine ⟨seg ++ new, by rw [hnew, List.append_assoc], ?_⟩
          intro pre tx post e heq hrefused
          rcases List.append_eq_append_iff.mp heq with ⟨a, hpre, hn⟩ | ⟨c, hs, hc⟩
          · refine hprop a tx post e hn ?_
            rw [List.append_assoc, ← hpre]
            exact hrefused
          · rcases c with _ | ⟨c0, c⟩
            · simp only [List.append_nil] at hs
              simp only [List.nil_append] at hc
              refine hprop [] tx post e hc.symm ?_
              rw [List.append_nil, hs]
              exact hrefused
            · simp only [List.cons_append, List.cons.injEq] at hc
              obtain ⟨hc0, _⟩ := hc
              subst hc0
              obtain ⟨_, hr⟩ := hsub pre tx c hs
              rcases hr with ⟨hacc, _⟩ | ⟨_, _, hr⟩
              · rw [hacc] at hrefused
                cases hrefused
              · simp at hr
    · simp only [hi, if_false, Option.some.injEq] at hrun
      subst hrun
      refine ⟨[], by simp, ?_⟩
      intro pre tx post e heq _
      simp at heq

/-- In the calls of a run of `PrepareOutputs` a refused submission is the last call, and
the run ends with the panic "No transaction". -/
theorem PrepareOutputs_refused (api : NodeAPI) (lc : LoadClient) (fuel : Nat) (h : List Call)
    (total K : Nat) (prun : PrepareRun)
    (hrun : PrepareOutputs api lc fuel h total K = some prun) :
    ∀ pre tx post e, prun.calls = h ++ pre ++ Call.submit tx :: post →
      api.SubmitTransaction (h ++ pre) tx = some e →
      post = [] ∧ prun.outcome = Outcome.panic "No transaction" := by
  have hnil : ∀ (l pre post : List Call) (tx : Transaction),
      Call.submit tx ∉ l → h ++ l = h ++ pre ++ Call.submit tx :: post → False := by
    intro l pre post tx hm heq
    apply hm
    rw [List.append_assoc] at heq
    rw [List.append_cancel_left heq]
    simp
  intro pre tx post e hcalls hrefused
  simp only [PrepareOutputs, List.append_assoc, List.singleton_append] at hrun
  cases hv : api.VerifyNodeID h with
  | some err =>
    simp only [hv, Option.some.injEq] at hrun
    subst hrun
    exact (hnil [Call.verifyNodeID] pre post tx (by simp) hcalls).elim
  | none =>
    simp only [hv] at hrun
    cases hq : api.GetUnspentTransactionOutputs (h ++ [Call.verifyNodeID]) lc.keyIdentifier with
    | error err =>
      simp only [hq, Option.some.injEq] at hrun
      subst hrun
      exact (hnil [Call.verifyNodeID, Call.getUnspent lc.keyIdentifier] pre post tx (by simp)
        hcalls).elim
    | ok outputs =>
      simp only [hq] at hrun
      by_cases hlen : outputs.length = 0
      · simp only [hlen, if_true, Option.some.injEq] at hrun
        subst hrun
        exact (hnil [Call.verifyNodeID, Call.getUnspent lc.keyIdentifier] pre post tx (by simp)
          hcalls).elim
      · simp only [hlen, if_false] at hrun
        cases hs : sortSlice outputs with
        | nil =>
          simp only [hs, Option.some.injEq] at hrun
          subst hrun
          exact (hnil [Call.verifyNodeID, Call.getUnspent lc.keyIdentifier] pre post tx
            (by simp) hcalls).elim
        | cons root rest =>
          simp only [hs] at hrun
          by_cases hamt : root.Amount < total
          · simp only [hamt, if_true, Option.some.injEq] at hrun
            subst hrun
            exact (hnil [Call.verifyNodeID, Call.getUnspent lc.keyIdentifier] pre post tx
              (by simp) hcalls).elim
          · simp only [hamt, if_false] at hrun
            by_cases hK : K = 0
            · simp only [hK, if_true, Option.some.injEq] at hrun
              subst hrun
              exact (hnil [Call.verifyNodeID, Call.getUnspent lc.keyIdentifier] pre post tx
                (by simp) hcalls).elim
            · simp only [hK, if_false] at hrun
              cases hl : roundsLoop api lc K (total / K) fuel 1 root []
                  (h ++ [Call.verifyNodeID, Call.getUnspent lc.keyIdentifier]) [] with
              | none => simp [hl] at hrun
              | some lrun =>
                simp only [hl] at hrun
                obtain ⟨new, hnew, hprop⟩ := roundsLoop_refused api lc K (total / K) fuel 1
                  root [] _ [] lrun hl
                -- the calls of the run without the calls made before
                have hsplit : ∀ (tail : List Call),
                    h ++ [Call.verifyNodeID, Call.getUnspent lc.keyIdentifier] ++ new ++ tail =
                      h ++ pre ++ Call.submit tx :: post →
                    ∃ pre1, pre = Call.verifyNodeID :: Call.getUnspent lc.keyIdentifier :: pre1 ∧
                      new ++ tail = pre1 ++ Call.submit tx :: post := by
                  intro tail heq
                  simp only [List.append_assoc] at heq
                  have heq2 := List.append_cancel_left heq
                  rcases pre with _ | ⟨a1, _ | ⟨a2, pre1⟩⟩
                  · simp at heq2
                  · simp at heq2
                  · simp only [List.cons_append, List.nil_append, List.cons.injEq] at heq2
                    obtain ⟨h1, h2, h3⟩ := heq2
                    exact ⟨pre1, by rw [← h1, ← h2], h3⟩
                cases ho : lrun.outcome with
                | ok u =>
                  simp only [ho] at hrun
                  have hcalls2 : prun.calls =
                      lrun.calls ++ [Call.getUnspent lc.keyIdentifier] := by
                    cases hq2 : api.GetUnspentTransactionOutputs lrun.calls lc.keyIdentifier with
                    | error err =>
                      simp only [hq2, Option.some.injEq] at hrun
                      subst hrun
                      rfl
                    | ok outs2 =>
                      simp only [hq2, Option.some.injEq] at hrun
                      subst hrun
                      rfl
                  rw [hcalls2, hnew] at hcalls
                  obtain ⟨pre1, hpre, hrest⟩ := hsplit _ hcalls
                  rcases List.eq_nil_or_concat post with hpost | ⟨post1, x, hpost⟩
                  · subst hpost
                    have := (@snoc_inj _ new pre1 (Call.getUnspent lc.keyIdentifier)
                      (Call.submit tx) hrest).2
                    cases this
                  · subst hpost
                    have hrest2 : new ++ [Call.getUnspent lc.keyIdentifier] =
                        (pre1 ++ Call.submit tx :: post1) ++ [x] := by
                      rw [hrest]
                      simp
                    obtain ⟨hn, _⟩ := snoc_inj hrest2
                    have := hprop pre1 tx post1 e hn (by
                      rw [List.append_assoc]
                      rw [hpre] at hrefused
                      simpa using hrefused)
                    rw [ho] at this
                    cases this.2
                | error e1 =>
                  simp only [ho, Option.some.injEq] at hrun
                  subst hrun
                  simp only at hcalls
                  rw [hnew] at hcalls
                  obtain ⟨pre1, hpre, hrest⟩ := hsplit [] (by simpa using hcalls)
                  simp only [List.append_nil] at hrest
                  have := hprop pre1 tx post e hrest (by
                    rw [List.append_assoc]
                    rw [hpre] at hrefused
                    simpa using hrefused)
                  rw [ho] at this
                  cases this.2
                | panic m =>
                  simp only [ho, Option.some.injEq] at hrun
                  subst hrun
                  simp only at hcalls
                  rw [hnew] at hcalls
                  obtain ⟨pre1, hpre, hrest⟩ := hsplit [] (by simpa using hcalls)
                  simp only [List.append_nil] at hrest
                  have := hprop pre1 tx post e hrest (by
                    rw [List.append_assoc]
                    rw [hpre] at hrefused
                    simpa using hrefused)
                  rw [ho] at this
                  exact ⟨this.1, by simpa using this.2⟩

/-- C19. A refused submission makes `SendMillixFromOutput` return neither a transaction nor
an error, `(nil, nil)`, and it does so in no other case. In `PrepareOutputs` this halts the
run with the panic "No transaction" instead of an error: a round of the loop whose
`SendMillixFromOutput` returns `(nil, nil)` ends the loop with that panic and with no
further call, and `PrepareOutputs` whose first round does so ends with that panic, the
load client unchanged; in every run a refused submission is the last call made and the
outcome is the panic; a run whose last call is a submission had that submission refused
and ends with the panic; every run that panics with "No transaction" ends with a refused
submission. A signing failure, by contrast, is returned as an error: a run whose last call
is a signing had that signing fail and returns the signing error wrapped with
"Failed to sign transaction" and then "Failed to send millix". -/
theorem PrepareOutputs_submit_failure (api : NodeAPI) (lc : LoadClient) (fuel : Nat)
    (h : List Call) (total K : Nat) (run : PrepareRun)
    (hrun : PrepareOutputs api lc fuel h total K = some run) :
    (∀ (c : Client) (h0 : List Call) (output : TransactionOutput)
        (receiverAmounts : List ReceiverAmount),
      (SendMillixFromOutput api c h0 output receiverAmounts).1 = (none, none) ↔
        ∃ hp tx e, (SendMillixFromOutput api c h0 output receiverAmounts).2
            = hp ++ [Call.submit tx] ∧ api.SubmitTransaction hp tx = some e) ∧
    (∀ hp tx, run.calls = hp ++ [Call.submit tx] →
      (∃ e, api.SubmitTransaction hp tx = some e) ∧
      run.outcome = Outcome.panic "No transaction") ∧
    (run.outcome = Outcome.panic "No transaction" →
      ∃ hp tx e, run.calls = hp ++ [Call.submit tx] ∧ api.SubmitTransaction hp tx = some e) ∧
    (∀ hp u km pkm, run.calls = hp ++ [Call.sign u km pkm] →
      ∃ e, api.SignTransaction hp u km pkm = .error e ∧
        run.outcome = Outcome.error
          (Err.wrap (Err.wrap e "Failed to sign transaction") "Failed to send millix")) ∧
    (∀ pre tx post e, run.calls = h ++ pre ++ Call.submit tx :: post →
      api.SubmitTransaction (h ++ pre) tx = some e →
      post = [] ∧ run.outcome = Outcome.panic "No transaction") ∧
    (∀ (R fuel0 i : Nat) (chosen : TransactionOutput) (txs : List Transaction)
        (h0 hs : List Call) (rs : List Round),
      i ≤ R → K ≤ maxSliceLen →
      SendMillixFromOutput api lc.millixClient h0 chosen (roundReceivers lc K) =
        ((none, none), hs) →
      roundsLoop api lc K R (fuel0 + 1) i chosen txs h0 rs =
        some { outcome := Outcome.panic "No transaction", transactions := txs, calls := hs,
               rounds := rs ++ [{ root := chosen,
                                  unsignedTx := unsignedFromOutput lc.millixClient chosen
                                    (roundReceivers lc K),
                                  tx := none }] }) ∧
    (∀ (outputs : List TransactionOutput) (root : TransactionOutput)
        (rest : List TransactionOutput) (hs : List Call),
      api.VerifyNodeID h = none →
      api.GetUnspentTransactionOutputs (h ++ [Call.verifyNodeID]) lc.keyIdentifier =
        .ok outputs →
      sortSlice outputs = root :: rest → total ≤ root.Amount →
      1 ≤ K → K ≤ total → K ≤ maxSliceLen → 1 ≤ fuel →
      SendMillixFromOutput api lc.millixClient
          (h ++ [Call.verifyNodeID, Call.getUnspent lc.keyIdentifier]) root
          (roundReceivers lc K) = ((none, none), hs) →
      PrepareOutputs api lc fuel h total K =
        some { outcome := Outcome.panic "No transaction", lc := lc, calls := hs,
               rounds := [{ root := root,
                            unsignedTx := unsignedFromOutput lc.millixClient root
                              (roundReceivers lc K),
                            tx := none }] }) := by
  have hg : ∀ (hp : List Call) (c : Call),
      h ++ [Call.verifyNodeID, Call.getUnspent lc.keyIdentifier] = hp ++ [c] →
      c = Call.getUnspent lc.keyIdentifier := by
    intro hp c heq
    have : (h ++ [Call.verifyNodeID]) ++ [Call.getUnspent lc.keyIdentifier] = hp ++ [c] := by
      simpa using heq
    exact (snoc_inj this).2.symm
  refine ⟨?_, ?_, ?_, ?_, ?_, ?_, ?_⟩
  · intro c h0 output receiverAmounts
    obtain ⟨hp, last, hcalls, hcases⟩ :=
      SendMillixFromOutput_last api c h0 output receiverAmounts
    constructor
    · intro hnil
      rcases hcases with ⟨_, _, _, hr⟩ | ⟨_, _, _, hr⟩ | ⟨_, _, _, _, _, _, hr⟩ |
        ⟨tx, e, hl, hsub, _⟩ | ⟨_, _, _, hr⟩
      · rw [hnil] at hr; simp at hr
      · rw [hnil] at hr; simp at hr
      · rw [hnil] at hr; simp at hr
      · exact ⟨hp, tx, e, by rw [hcalls, hl], hsub⟩
      · rw [hnil] at hr; simp at hr
    · rintro ⟨hp2, tx, e, hc2, hsub⟩
      rw [hcalls] at hc2
      obtain ⟨hhp, hlast⟩ := snoc_inj hc2
      subst hhp
      rcases hcases with ⟨_, _, hl, _⟩ | ⟨_, _, hl, _⟩ | ⟨_, _, _, _, hl, _, _⟩ |
        ⟨_, _, _, _, hr⟩ | ⟨tx2, hl, hs2, _⟩
      · rw [hl] at hlast; cases hlast
      · rw [hl] at hlast; cases hlast
      · rw [hl] at hlast; cases hlast
      · exact hr
      · rw [hl] at hlast
        cases hlast
        rw [hsub] at hs2
        cases hs2
  · intro hp tx hcalls
    rcases PrepareOutputs_last api lc fuel h total K run hrun with
      ⟨hp2, c, hc, hcc, _⟩ | ⟨root, lrun, hl, hne, hc, ho⟩
    · rw [hc] at hcalls
      obtain ⟨_, hlast⟩ := snoc_inj hcalls
      rcases hcc with hcc | hcc <;> (rw [hcc] at hlast; cases hlast)
    · obtain ⟨hpanic, herror⟩ := roundsLoop_last api lc K _ _ _ _ _ _ _ _ hl
      rw [hc] at hcalls
      rw [ho]
      cases hout : lrun.outcome with
      | ok u => exact absurd hout hne
      | error e =>
        obtain ⟨hp3, last, hc3, hcase⟩ := herror e hout
        rw [hc3] at hcalls
        obtain ⟨_, hlast⟩ := snoc_inj hcalls
        rcases hcase with ⟨_, hk⟩ | ⟨_, hk⟩ | ⟨_, _, _, _, hk, _⟩ <;>
          (rw [hk] at hlast; cases hlast)
      | panic m =>
        rcases hpanic m hout with ⟨_, hch, _⟩ | ⟨hm, hp3, tx3, e, hc3, hsub⟩
        · rw [hch] at hcalls
          cases hg _ _ hcalls
        · rw [hc3] at hcalls
          obtain ⟨hhp, hlast⟩ := snoc_inj hcalls
          cases hlast
          subst hhp
          exact ⟨⟨e, hsub⟩, by rw [hm]⟩
  · intro hout
    rcases PrepareOutputs_last api lc fuel h total K run hrun with
      ⟨_, _, _, _, hne⟩ | ⟨root, lrun, hl, _, hc, ho⟩
    · exact absurd hout hne
    · obtain ⟨hpanic, _⟩ := roundsLoop_last api lc K _ _ _ _ _ _ _ _ hl
      rw [ho] at hout
      rw [hc]
      rcases hpanic _ hout with ⟨_, _, hne⟩ | ⟨_, hr⟩
      · exact absurd rfl hne
      · exact hr
  · intro hp u km pkm hcalls
    rcases PrepareOutputs_last api lc fuel h total K run hrun with
      ⟨hp2, c, hc, hcc, _⟩ | ⟨root, lrun, hl, hne, hc, ho⟩
    · rw [hc] at hcalls
      obtain ⟨_, hlast⟩ := snoc_inj hcalls
      rcases hcc with hcc | hcc <;> (rw [hcc] at hlast; cases hlast)
    · obtain ⟨hpanic, herror⟩ := roundsLoop_last api lc K _ _ _ _ _ _ _ _ hl
      rw [hc] at hcalls
      rw [ho]
      cases hout : lrun.outcome with
      | ok u => exact absurd hout hne
      | error e =>
        obtain ⟨hp3, last, hc3, hcase⟩ := herror e hout
        rw [hc3] at hcalls
        obtain ⟨hhp, hlast⟩ := snoc_inj hcalls
        subst hhp
        rcases hcase with ⟨_, hk⟩ | ⟨_, hk⟩ | ⟨u2, km2, pkm2, e0, hk, hs, he⟩
        · rw [hk] at hlast; cases hlast
        · rw [hk] at hlast; cases hlast
        · rw [hk] at hlast
          cases hlast
          exact ⟨e0, hs, by rw [he]⟩
      | panic m =>
        rcases hpanic m hout with ⟨_, hch, _⟩ | ⟨_, hp3, tx3, e, hc3, _⟩
        · rw [hch] at hcalls
          cases hg _ _ hcalls
        · rw [hc3] at hcalls
          obtain ⟨_, hlast⟩ := snoc_inj hcalls
          cases hlast
  · exact PrepareOutputs_refused api lc fuel h total K run hrun
  · intro R fuel0 i chosen txs h0 hs rs hi hK hres
    unfold roundsLoop
    simp only [hi, if_true, Nat.not_lt.mpr hK, if_false, hres]
  · intro outputs root rest hs hv hq hsort hamt hK1 hKT hKmax hfuel hres
    have hlen : ¬ outputs.length = 0 := by
      intro h0
      have := (sortSlice_perm outputs).length_eq
      rw [hsort, h0] at this
      simp at this
    have hK0 : ¬ K = 0 := by omega
    have hR : 1 ≤ total / K := Nat.div_pos hKT (by omega)
    obtain ⟨fuel0, rfl⟩ : ∃ fuel0, fuel = fuel0 + 1 := ⟨fuel - 1, by omega⟩
    simp only [PrepareOutputs, List.append_assoc, List.singleton_append, hv, hq, hlen,
      if_false, hsort, Nat.not_lt.mpr hamt, hK0]
    unfold roundsLoop
    simp only [hR, if_true, Nat.not_lt.mpr hKmax, if_false, hres, List.nil_append]

/-- A run of two rounds on a node that refuses the second submission: the run halts with
the panic "No transaction" after ten calls, the last of which is the refused submission;
after one call made before, the same node refuses the first submission and the run halts
in the first round; on a node where signing fails the run returns the doubly wrapped
error. -/
theorem PrepareOutputs_refused_example :
    (PrepareOutputs exRefusingApi exLoadClient 4 [] 10 5).map
        (fun r => (r.outcome, r.calls.length, r.rounds.length, r.calls.drop 9)) =
      some (Outcome.panic "No transaction", 10, 2,
        [Call.submit { TransactionID := "tx-tx-g", ShardID := "shard" }]) ∧
    (PrepareOutputs exRefusingApi exLoadClient 4 [Call.verifyNodeID] 10 5).map
        (fun r => (r.outcome, r.calls.length, r.rounds.length, r.calls.drop 6)) =
      some (Outcome.panic "No transaction", 7, 1,
        [Call.submit { TransactionID := "tx-g", ShardID := "shard" }]) ∧
    (PrepareOutputs exUnsignedApi exLoadClient 4 [] 10 5).map (fun r => (r.outcome, r.calls.length))
      = some (Outcome.error (Err.wrap (Err.wrap (Err.new "Status fail")
          "Failed to sign transaction") "Failed to send millix"), 5) := by
  refine ⟨?_, ?_, ?_⟩ <;> rfl

/-- Witness of `PrepareOutputs_submit_failure`: the run on `exRefusingApi`, whose second
round has its submission refused; it ends with the panic after ten calls. -/
theorem PrepareOutputs_submit_failure_witness :
    PrepareOutputs exRefusingApi exLoadClient 4 [] 10 5 = some exRefused ∧
    exRefused.outcome = Outcome.panic "No transaction" ∧
    exRefused.calls.length = 10 ∧
    exRefused.calls.drop 9 = [Call.submit { TransactionID := "tx-tx-g", ShardID := "shard" }] ∧
    ((∀ (c : Client) (h0 : List Call) (output : TransactionOutput)
        (receiverAmounts : List ReceiverAmount),
      (SendMillixFromOutput exRefusingApi c h0 output receiverAmounts).1 = (none, none) ↔
        ∃ hp tx e, (SendMillixFromOutput exRefusingApi c h0 output receiverAmounts).2
            = hp ++ [Call.submit tx] ∧ exRefusingApi.SubmitTransaction hp tx = some e) ∧
    (∀ hp tx, exRefused.calls = hp ++ [Call.submit tx] →
      (∃ e, exRefusingApi.SubmitTransaction hp tx = some e) ∧
      exRefused.outcome = Outcome.panic "No transaction") ∧
    (exRefused.outcome = Outcome.panic "No transaction" →
      ∃ hp tx e, exRefused.calls = hp ++ [Call.submit tx] ∧
        exRefusingApi.SubmitTransaction hp tx = some e) ∧
    (∀ hp u km pkm, exRefused.calls = hp ++ [Call.sign u km pkm] →
      ∃ e, exRefusingApi.SignTransaction hp u km pkm = .error e ∧
        exRefused.outcome = Outcome.error
          (Err.wrap (Err.wrap e "Failed to sign transaction") "Failed to send millix")) ∧
    (∀ pre tx post e, exRefused.calls = [] ++ pre ++ Call.submit tx :: post →
      exRefusingApi.SubmitTransaction ([] ++ pre) tx = some e →
      post = [] ∧ exRefused.outcome = Outcome.panic "No transaction") ∧
    (∀ (R fuel0 i : Nat) (chosen : TransactionOutput) (txs : List Transaction)
        (h0 hs : List Call) (rs : List Round),
      i ≤ R → 5 ≤ maxSliceLen →
      SendMillixFromOutput exRefusingApi exLoadClient.millixClient h0 chosen
          (roundReceivers exLoadClient 5) = ((none, none), hs) →
      roundsLoop exRefusingApi exLoadClient 5 R (fuel0 + 1) i chosen txs h0 rs =
        some { outcome := Outcome.panic "No transaction", transactions := txs, calls := hs,
               rounds := rs ++ [{ root := chosen,
                                  unsignedTx := unsignedFromOutput exLoadClient.millixClient
                                    chosen (roundReceivers exLoadClient 5),
                                  tx := none }] }) ∧
    (∀ (outputs : List TransactionOutput) (root : TransactionOutput)
        (rest : List TransactionOutput) (hs : List Call),
      exRefusingApi.VerifyNodeID [] = none →
      exRefusingApi.GetUnspentTransactionOutputs ([] ++ [Call.verifyNodeID])
          exLoadClient.keyIdentifier = .ok outputs →
      sortSlice outputs = root :: rest → 10 ≤ root.Amount →
      1 ≤ 5 → 5 ≤ 10 → 5 ≤ maxSliceLen → 1 ≤ 4 →
      SendMillixFromOutput exRefusingApi exLoadClient.millixClient
          ([] ++ [Call.verifyNodeID, Call.getUnspent exLoadClient.keyIdentifier]) root
          (roundReceivers exLoadClient 5) = ((none, none), hs) →
      PrepareOutputs exRefusingApi exLoadClient 4 [] 10 5 =
        some { outcome := Outcome.panic "No transaction", lc := exLoadClient, calls := hs,
               rounds := [{ root := root,
                            unsignedTx := unsignedFromOutput exLoadClient.millixClient root
                              (roundReceivers exLoadClient 5),
                            tx := none }] })) :=
  ⟨by decide, by decide, by decide, by decide,
    PrepareOutputs_submit_failure exRefusingApi exLoadClient 4 [] 10 5 exRefused (by decide)⟩

/-! ## `SendTransactions` returns nil -/

theorem workerStep_measure (api : NodeAPI) (lc : LoadClient) (st : PoolState) (ws : WState) :
    (workerStep api lc st ws).1.weight + 10 * (workerStep api lc st ws).2.queue.length ≤
      ws.weight + 10 * st.queue.length ∧
    (ws ≠ WState.done →
      (workerStep api lc st ws).1.weight + 10 * (workerStep api lc st ws).2.queue.length <
        ws.weight + 10 * st.queue.length) := by
  cases ws with
  | start =>
    simp only [workerStep]
    split <;> simp [WState.weight]
  | idle =>
    simp only [workerStep]
    split
    · rename_i hq; simp [WState.weight, hq]
    · rename_i u q hq; simp only [WState.weight, hq, List.length_cons]; omega
  | signing u j =>
    simp only [workerStep]
    split
    · split
      · split <;> simp only [WState.weight] <;> omega
      · simp only [WState.weight]; omega
    · simp only [WState.weight]; omega
  | submitting tx =>
    simp only [workerStep]
    split <;> simp [WState.weight]
  | counting => simp [workerStep, WState.weight]
  | done => simp [workerStep, WState.weight]

theorem poolStep_measure (api : NodeAPI) (lc : LoadClient) (st : PoolState) (w : Nat) :
    poolMeasure (poolStep api lc st w) ≤ poolMeasure st ∧
    (∀ ws, st.workers[w]? = some ws → ws ≠ WState.done →
      poolMeasure (poolStep api lc st w) < poolMeasure st) := by
  unfold poolStep
  cases hws : st.workers[w]? with
  | none => exact ⟨Nat.le_refl _, fun ws h => by cases h⟩
  | some ws =>
    obtain ⟨l1, l2, hl, hset⟩ := set_split st.workers w ws hws
    obtain ⟨hle, hlt⟩ := workerStep_measure api lc st ws
    simp only [poolMeasure, workerStep_workers, hset]
    rw [hl]
    simp only [List.map_append, List.map_cons, List.sum_append, List.sum_cons]
    refine ⟨by omega, ?_⟩
    intro ws2 h2 hne
    simp only [Option.some.injEq] at h2
    subst h2
    have := hlt hne
    omega

theorem exists_active (l : List WState) (h : l.all (fun ws => ws = WState.done) = false) :
    ∃ (w : Nat) (ws : WState), l[w]? = some ws ∧ ws ≠ WState.done := by
  rw [List.all_eq_false] at h
  obtain ⟨ws, hm, hne⟩ := h
  obtain ⟨w, hw⟩ := List.getElem?_of_mem hm
  exact ⟨w, ws, hw, by simpa using hne⟩

/-- From every state the workers can all return, within `poolMeasure` steps. -/
theorem runPool_finishes (api : NodeAPI) (lc : LoadClient) :
    ∀ (m : Nat) (st : PoolState), poolMeasure st ≤ m →
      ∃ sched : List Nat, sched.length ≤ m ∧
        (runPool api lc sched st).workers.all (fun ws => ws = WState.done) = true := by
  intro m
  induction m with
  | zero =>
    intro st hm
    cases hall : st.workers.all (fun ws => ws = WState.done) with
    | true => exact ⟨[], Nat.le_refl _, hall⟩
    | false =>
      obtain ⟨w, ws, hw, hne⟩ := exists_active _ hall
      have := (poolStep_measure api lc st w).2 ws hw hne
      omega
  | succ m ih =>
    intro st hm
    cases hall : st.workers.all (fun ws => ws = WState.done) with
    | true => exact ⟨[], Nat.zero_le _, hall⟩
    | false =>
      obtain ⟨w, ws, hw, hne⟩ := exists_active _ hall
      have hlt := (poolStep_measure api lc st w).2 ws hw hne
      obtain ⟨sched, hlen, hdone⟩ := ih (poolStep api lc st w) (by omega)
      refine ⟨w :: sched, by simp only [List.length_cons]; omega, ?_⟩
      simpa [runPool] using hdone

theorem runPool_measure (api : NodeAPI) (lc : LoadClient) :
    ∀ (sched : List Nat) (st : PoolState),
      poolMeasure (runPool api lc sched st) ≤ poolMeasure st := by
  intro sched
  induction sched with
  | nil => intro st; exact Nat.le_refl _
  | cons w sched ih =>
    intro st
    simp only [runPool, List.foldl_cons]
    exact Nat.le_trans (ih _) (poolStep_measure api lc st w).1

theorem runPool_append (api : NodeAPI) (lc : LoadClient) (s1 s2 : List Nat) (st : PoolState) :
    runPool api lc (s1 ++ s2) st = runPool api lc s2 (runPool api lc s1 st) := by
  simp [runPool, List.foldl_append]

theorem initPool_measure (queue : List UnsignedTransaction) (n : Nat) (h : List Call) :
    poolMeasure (initPool queue n h) = 2 * n + 10 * queue.length := by
  simp [poolMeasure, initPool, WState.weight, List.map_replicate, List.sum_replicate]
  omega

/-- On a node that refuses every submission no worker counts a transaction. -/
theorem runPool_refused (api : NodeAPI) (lc : LoadClient)
    (hsub : ∀ h tx, ∃ e, api.SubmitTransaction h tx = some e) :
    ∀ (sched : List Nat) (st : PoolState),
      (st.submitted = [] ∧ st.totalCount = 0 ∧ WState.counting ∉ st.workers) →
      ((runPool api lc sched st).submitted = [] ∧ (runPool api lc sched st).totalCount = 0 ∧
        WState.counting ∉ (runPool api lc sched st).workers) := by
  intro sched
  induction sched with
  | nil => intro st h; exact h
  | cons w sched ih =>
    intro st ⟨h1, h2, h3⟩
    simp only [runPool, List.foldl_cons]
    apply ih
    unfold poolStep
    cases hws : st.workers[w]? with
    | none => exact ⟨h1, h2, h3⟩
    | some ws =>
      obtain ⟨l1, l2, hl, hset⟩ := set_split st.workers w ws hws
      simp only [workerStep_workers, hset]
      rw [hl] at h3
      simp only [List.mem_append, List.mem_cons, not_or] at h3 ⊢
      obtain ⟨h31, h32, h33⟩ := h3
      cases ws with
      | start =>
        simp only [workerStep]
        split <;> exact ⟨h1, h2, h31, by simp, h33⟩
      | idle =>
        simp only [workerStep]
        split <;> exact ⟨h1, h2, h31, by simp, h33⟩
      | signing u j =>
        simp only [workerStep]
        split
        · split
          · split <;> exact ⟨h1, h2, h31, by simp, h33⟩
          · exact ⟨h1, h2, h31, by simp, h33⟩
        · exact ⟨h1, h2, h31, by simp, h33⟩
      | submitting tx =>
        obtain ⟨e, he⟩ := hsub st.calls tx
        simp only [workerStep, he]
        exact ⟨h1, h2, h31, by simp, h33⟩
      | counting => exact absurd rfl h32
      | done =>
        simp only [workerStep]
        exact ⟨h1, h2, h31, by simp, h33⟩

theorem SendTransactions_err (api : NodeAPI) (lc : LoadClient) (fuel : Nat) (sched : List Nat)
    (h : List Call) (run : SendRun) (hrun : SendTransactions api lc fuel sched h = some run) :
    run.err = none := by
  unfold SendTransactions at hrun
  split at hrun
  · cases hrun
  · simp only at hrun
    split at hrun
    · cases hrun; rfl
    · cases hrun

/-- The send phase of the orchestrator never panics, an error it returns is the wrapped
error of `ObtainKeyMaps` of a load client, and when it returns nil every `ObtainKeyMaps`
succeeded. -/
theorem waitSend_spec (env : SendEnv) :
    ∀ (l : List (String × LoadClient)) (missing : Bool) (runs : List (String × SendRun))
      (r : SendPhase), waitSend env l missing runs = some r →
      (∀ m, r.outcome ≠ Outcome.panic m) ∧
      (∀ e, r.outcome = Outcome.error e →
        ∃ address loadClient e0, (address, loadClient) ∈ l ∧
          (ObtainKeyMaps (env.node address) loadClient (env.history address)).1 = some e0 ∧
          e = Err.wrap e0 ("Failed to send transactions on node " ++ address)) ∧
      (r.outcome = Outcome.ok () → ∀ p ∈ l,
        (ObtainKeyMaps (env.node p.1) p.2 (env.history p.1)).1 = none) := by
  intro l
  induction l with
  | nil =>
    intro missing runs r hr
    simp only [waitSend] at hr
    split at hr
    · cases hr
    · cases hr
      exact ⟨fun m hm => (by cases hm), fun e he => (by cases he), fun _ p hp => (by cases hp)⟩
  | cons p l ih =>
    obtain ⟨address, loadClient⟩ := p
    intro missing runs r hr
    unfold waitSend at hr
    rcases hk : ObtainKeyMaps (env.node address) loadClient (env.history address)
      with ⟨oerr, lc1, h1⟩
    rw [hk] at hr
    cases oerr with
    | some err =>
      simp only [Option.some.injEq] at hr
      subst hr
      refine ⟨fun m hm => (by cases hm), ?_, fun hc => (by cases hc)⟩
      intro e he
      simp only [Outcome.error.injEq] at he
      exact ⟨address, loadClient, err, List.mem_cons_self _ _, by rw [hk], he.symm⟩
    | none =>
      simp only at hr
      cases hs : SendTransactions (env.node address) lc1 env.fuel (env.sched address) h1 with
      | none =>
        rw [hs] at hr
        simp only at hr
        obtain ⟨ih1, ih2, ih3⟩ := ih _ _ _ hr
        refine ⟨ih1, ?_, ?_⟩
        · intro e he
          obtain ⟨a, c, e0, hm, h2, h3⟩ := ih2 e he
          exact ⟨a, c, e0, List.mem_cons_of_mem _ hm, h2, h3⟩
        · intro hok q hq
          rcases List.mem_cons.mp hq with hq | hq
          · subst hq; simp only [hk]
          · exact ih3 hok q hq
      | some run =>
        rw [hs] at hr
        simp only [SendTransactions_err _ _ _ _ _ _ hs] at hr
        obtain ⟨ih1, ih2, ih3⟩ := ih _ _ _ hr
        refine ⟨ih1, ?_, ?_⟩
        · intro e he
          obtain ⟨a, c, e0, hm, h2, h3⟩ := ih2 e he
          exact ⟨a, c, e0, List.mem_cons_of_mem _ hm, h2, h3⟩
        · intro hok q hq
          rcases List.mem_cons.mp hq with hq | hq
          · subst hq; simp only [hk]
          · exact ih3 hok q hq

/-- When `ObtainKeyMaps` fails for a load client, the send phase returns an error. -/
theorem waitSend_fails (env : SendEnv) :
    ∀ (l : List (String × LoadClient)) (missing : Bool) (runs : List (String × SendRun)),
      (∃ p ∈ l, (ObtainKeyMaps (env.node p.1) p.2 (env.history p.1)).1 ≠ none) →
      ∃ r e, waitSend env l missing runs = some r ∧ r.outcome = Outcome.error e := by
  intro l
  induction l with
  | nil => intro _ _ ⟨p, hp, _⟩; cases hp
  | cons p l ih =>
    obtain ⟨address, loadClient⟩ := p
    intro missing runs hex
    unfold waitSend
    rcases hk : ObtainKeyMaps (env.node address) loadClient (env.history address)
      with ⟨oerr, lc1, h1⟩
    cases oerr with
    | some err => exact ⟨_, _, rfl, rfl⟩
    | none =>
      have hex2 : ∃ p ∈ l, (ObtainKeyMaps (env.node p.1) p.2 (env.history p.1)).1 ≠ none := by
        obtain ⟨q, hq, hne⟩ := hex
        rcases List.mem_cons.mp hq with hq | hq
        · subst hq
          simp only [hk] at hne
          exact absurd rfl hne
        · exact ⟨q, hq, hne⟩
      simp only
      cases hs : SendTransactions (env.node address) lc1 env.fuel (env.sched address) h1 with
      | none => exact ih _ _ hex2
      | some run =>
        simp only [SendTransactions_err _ _ _ _ _ _ hs]
        exact ih _ _ hex2

set_option maxRecDepth 4000 in
/-- C20. `SendTransactions` returns a nil error whenever it returns, whatever the node
answers to the signing, submission and address requests, and it does return: from every
interleaving of the workers they can all return within `2 * goroutineCount + 10 * |queue|`
further steps. On a node that refuses every submission it returns nil with the counter at
0 and nothing submitted. Hence the send phase of the orchestrator never panics, returns
an error only as the wrapped error of `ObtainKeyMaps` of a load client, and does so when
an `ObtainKeyMaps` fails; and `Load` returns a `Result` when the first two phases succeed
and the send phase returns nil, as in the example, where no transaction is submitted. -/
theorem SendTransactions_returns_nil (api : NodeAPI) (lc : LoadClient) (fuel : Nat)
    (h : List Call) (env : SendEnv) (o : Orchestrator) :
    (∀ sched run, SendTransactions api lc fuel sched h = some run → run.err = none) ∧
    (∀ queue, prepareTransactions lc fuel = some queue → ∀ sched0 : List Nat,
      ∃ sched1 run, sched1.length ≤ 2 * lc.goroutineCount + 10 * queue.length ∧
        SendTransactions api lc fuel (sched0 ++ sched1) h = some run ∧ run.err = none) ∧
    ((∀ h tx, ∃ e, api.SubmitTransaction h tx = some e) →
      ∀ sched run, SendTransactions api lc fuel sched h = some run →
        run.err = none ∧ run.totalCount = 0 ∧ run.submitted = []) ∧
    (∀ r, sendTransactions env o = some r →
      (∀ m, r.outcome ≠ Outcome.panic m) ∧
      (∀ e, r.outcome = Outcome.error e →
        ∃ address loadClient e0, (address, loadClient) ∈ env.arrival o.loadClients ∧
          (ObtainKeyMaps (env.node address) loadClient (env.history address)).1 = some e0 ∧
          e = Err.wrap e0 ("Failed to send transactions on node " ++ address)) ∧
      (r.outcome = Outcome.ok () → ∀ p ∈ env.arrival o.loadClients,
        (ObtainKeyMaps (env.node p.1) p.2 (env.history p.1)).1 = none)) ∧
    ((∃ p ∈ env.arrival o.loadClients,
        (ObtainKeyMaps (env.node p.1) p.2 (env.history p.1)).1 ≠ none) →
      ∃ r e, sendTransactions env o = some r ∧ r.outcome = Outcome.error e) ∧
    (∀ (σ : Type) (ensureFunds prepareOutputs : σ → Outcome Unit × σ) (now : σ → Nat) (s : σ)
        (r : SendPhase),
      (ensureFunds s).1 = Outcome.ok () →
      (prepareOutputs (ensureFunds s).2).1 = Outcome.ok () →
      sendTransactions env o = some r → r.outcome = Outcome.ok () →
      ∃ res, (Load o ensureFunds prepareOutputs (fun s2 => (r.outcome, s2)) now s).outcome =
          Outcome.ok res ∧
        res.NodeCount = o.nodeConfigs.length ∧
        res.TotalTransactions = umul o.nodeConfigs.length o.transactionPerNode) ∧
    (sendTransactions exSendEnv exSendOrchestrator).map
        (fun r => (r.outcome, r.runs.map (fun p => (p.1, p.2.totalCount, p.2.submitted)))) =
      some (Outcome.ok (),
        [("base3lalkey3", 0, []), ("base2lalkey2", 0, []), ("base1lalkey1", 0, [])]) := by
  refine ⟨?_, ?_, ?_, ?_, ?_, ?_, ?_⟩
  · intro sched run hrun
    exact SendTransactions_err api lc fuel sched h run hrun
  · intro queue hq sched0
    have hm : poolMeasure (runPool api lc sched0 (initPool queue lc.goroutineCount h)) ≤
        2 * lc.goroutineCount + 10 * queue.length := by
      rw [← initPool_measure queue lc.goroutineCount h]
      exact runPool_measure api lc sched0 _
    obtain ⟨sched1, hlen, hdone⟩ := runPool_finishes api lc _ _ hm
    have hrun : SendTransactions api lc fuel (sched0 ++ sched1) h =
        some { err := none,
               totalCount := (runPool api lc sched1
                 (runPool api lc sched0 (initPool queue lc.goroutineCount h))).totalCount,
               submitted := (runPool api lc sched1
                 (runPool api lc sched0 (initPool queue lc.goroutineCount h))).submitted,
               calls := (runPool api lc sched1
                 (runPool api lc sched0 (initPool queue lc.goroutineCount h))).calls,
               left := (runPool api lc sched1
                 (runPool api lc sched0 (initPool queue lc.goroutineCount h))).queue } := by
      unfold SendTransactions
      simp only [hq, runPool_append, hdone, if_true]
    exact ⟨sched1, _, hlen, hrun, rfl⟩
  · intro hsub sched run hrun
    have herr := SendTransactions_err api lc fuel sched h run hrun
    unfold SendTransactions at hrun
    split at hrun
    · cases hrun
    · rename_i queue _
      simp only at hrun
      obtain ⟨h1, h2, _⟩ := runPool_refused api lc hsub sched
        (initPool queue lc.goroutineCount h)
        ⟨rfl, rfl, fun hc => by cases List.eq_of_mem_replicate hc⟩
      split at hrun
      · cases hrun
        exact ⟨rfl, h2, h1⟩
      · cases hrun
  · intro r hr
    exact waitSend_spec env _ _ _ r hr
  · intro hex
    exact waitSend_fails env _ _ _ hex
  · intro σ ensureFunds prepareOutputs now s r h1 h2 _ h4
    have he : ensureFunds s = (Outcome.ok (), (ensureFunds s).2) := Prod.ext h1 rfl
    have hp : prepareOutputs (ensureFunds s).2 =
        (Outcome.ok (), (prepareOutputs (ensureFunds s).2).2) := Prod.ext h2 rfl
    unfold Load
    rw [he]
    simp only
    rw [hp]
    simp only [h4]
    exact ⟨_, rfl, rfl, rfl⟩
  · decide

/-! ## The abort branch of the dispatch worker -/

/-- In the pool every worker that is signing stands at a counter `j ≤ 5`. -/
theorem runPool_counter (api : NodeAPI) (lc : LoadClient) :
    ∀ (sched : List Nat) (st : PoolState),
      (∀ u j, WState.signing u j ∈ st.workers → j ≤ 5) →
      ∀ u j, WState.signing u j ∈ (runPool api lc sched st).workers → j ≤ 5 := by
  intro sched
  induction sched with
  | nil => intro st h; exact h
  | cons w sched ih =>
    intro st hst
    simp only [runPool, List.foldl_cons]
    apply ih
    unfold poolStep
    cases hws : st.workers[w]? with
    | none => exact hst
    | some ws =>
      obtain ⟨l1, l2, hl, hset⟩ := set_split st.workers w ws hws
      simp only [workerStep_workers, hset]
      rw [hl] at hst
      intro u j hm
      simp only [List.mem_append, List.mem_cons] at hm hst
      rcases hm with hm | hm | hm
      · exact hst u j (Or.inl hm)
      · cases ws with
        | start =>
          simp only [workerStep] at hm
          split at hm <;> cases hm
        | idle =>
          simp only [workerStep] at hm
          split at hm
          · cases hm
          · cases hm; omega
        | signing u1 j1 =>
          have hj1 := hst u1 j1 (Or.inr (Or.inl rfl))
          simp only [workerStep] at hm
          split at hm
          · split at hm
            · split at hm
              · cases hm
              · cases hm; omega
            · cases hm
          · cases hm
        | submitting tx =>
          simp only [workerStep] at hm
          split at hm <;> cases hm
        | counting =>
          simp only [workerStep] at hm
          cases hm
        | done =>
          simp only [workerStep] at hm
          cases hm
      · exact hst u j (Or.inr (Or.inr hm))

/-- C21. In the loop `for j := 0; j < 5; j++` of the dispatch worker the branch `j == 5` is
never taken: at every iteration (`j + n = 5` with `n + 1` iterations left means `j ≤ 4`) a
failed signing leads to the next iteration, and the loop ends in an abort only right after
a refused submission (the branch itself would abort after a failed signing, as it does
from the counter 5, which the loop never reaches). When all 5 signing attempts fail, the
transaction is dropped after 5 signing requests and no submission, the counters are left
alone and the worker goes on with the rest of the queue. In the worker pool the same
holds at every interleaving: a signing worker stands at `j ≤ 5`, a failed signing at
`j < 5` moves it to `j + 1` and changes nothing but the calls, at `j = 5` it goes back to
the receive, where it takes the next transaction, and a signing step never makes it
return. -/
theorem abort_branch_unreachable (api : NodeAPI) (lc : LoadClient) (u : UnsignedTransaction)
    (h : List Call) :
    (∀ (n j : Nat) (h0 : List Call) (e : Err), j + (n + 1) = 5 →
      api.SignTransaction h0 u lc.keyMap lc.publicKeyMap = .error e →
      j ≤ 4 ∧
      signLoop api lc u (n + 1) j h0 =
        signLoop api lc u n (j + 1) (h0 ++ [Call.sign u lc.keyMap lc.publicKeyMap])) ∧
    (∀ (n j : Nat) (h0 : List Call), j + n = 5 →
      (signLoop api lc u n j h0).1 = TxResult.aborted →
      ∃ hp tx e, (signLoop api lc u n j h0).2 = hp ++ [Call.submit tx] ∧
        api.SubmitTransaction hp tx = some e) ∧
    (∀ (n : Nat) (h0 : List Call) (e : Err),
      api.SignTransaction h0 u lc.keyMap lc.publicKeyMap = .error e →
      signLoop api lc u (n + 1) 5 h0 =
        (TxResult.aborted, h0 ++ [Call.sign u lc.keyMap lc.publicKeyMap])) ∧
    ((∀ k, k < 5 → SignFails api lc u h k) →
      signLoop api lc u 5 0 h = (TxResult.dropped, h ++ signCalls lc u 5) ∧
      ∀ (queue : List UnsignedTransaction) (totalCount : Int) (count : Nat),
        drain api lc (u :: queue) totalCount count h =
          drain api lc queue totalCount count (h ++ signCalls lc u 5)) ∧
    (∀ (sched : List Nat) (queue : List UnsignedTransaction) (workerCount : Nat)
        (u1 : UnsignedTransaction) (j : Nat),
      WState.signing u1 j ∈ (runPool api lc sched (initPool queue workerCount h)).workers →
      j ≤ 5) ∧
    (∀ (st : PoolState) (j : Nat),
      (workerStep api lc st (WState.signing u j)).1 ≠ WState.done ∧
      (∀ e, j < 5 → api.SignTransaction st.calls u lc.keyMap lc.publicKeyMap = .error e →
        workerStep api lc st (WState.signing u j) =
          (WState.signing u (j + 1),
            { st with calls := st.calls ++ [Call.sign u lc.keyMap lc.publicKeyMap] })) ∧
      (j = 5 → workerStep api lc st (WState.signing u j) = (WState.idle, st)) ∧
      (∀ u2 rest, st.queue = u2 :: rest →
        workerStep api lc st WState.idle = (WState.signing u2 0, { st with queue := rest }))) := by
  refine ⟨?_, ?_, ?_, ?_, ?_, ?_⟩
  · intro n j h0 e hj hs
    refine ⟨by omega, ?_⟩
    have hj5 : ¬ (j = 5) := by omega
    simp [signLoop, hs, hj5]
  · intro n j h0 hj habort
    rcases signLoop_shape api lc u n j h0 hj with
      ⟨hres, _, _⟩ | ⟨m, tx, _, _, _, hcalls, hsub⟩
    · rw [hres] at habort
      cases habort
    · rcases hsub with ⟨hres, _⟩ | ⟨_, e, he⟩
      · rw [hres] at habort
        cases habort
      · exact ⟨h0 ++ signCalls lc u (m + 1), tx, e, by rw [hcalls, List.append_assoc], he⟩
  · intro n h0 e hs
    simp [signLoop, hs]
  · intro hfail
    have hloop : signLoop api lc u 5 0 h = (TxResult.dropped, h ++ signCalls lc u 5) := by
      rcases signLoop_shape api lc u 5 0 h (by omega) with
        ⟨hres, hcalls, _⟩ | ⟨m, tx, hm, _, hsign, _, _⟩
      · exact Prod.ext hres hcalls
      · obtain ⟨e, he⟩ := hfail m hm
        rw [he] at hsign
        cases hsign
    refine ⟨hloop, ?_⟩
    intro queue totalCount count
    simp [drain, hloop]
  · intro sched queue workerCount u1 j hm
    refine runPool_counter api lc sched (initPool queue workerCount h) ?_ u1 j hm
    intro u2 j2 hm2
    simp only [initPool] at hm2
    cases List.eq_of_mem_replicate hm2
  · intro st j
    refine ⟨?_, ?_, ?_, ?_⟩
    · simp only [workerStep]
      split
      · rename_i hj
        split
        · have hj5 : ¬ (j = 5) := by omega
          simp [hj5]
        · simp
      · simp
    · intro e hj hs
      have hj5 : ¬ (j = 5) := by omega
      simp [workerStep, hj, hs, hj5]
    · intro hj
      subst hj
      simp [workerStep]
    · intro u2 rest hq
      simp [workerStep, hq]

/-- A worker on a node where every signing fails, with two transactions in the queue: it
makes 5 signing requests for each (one address request before), submits and counts
nothing, and leaves the queue empty. -/
theorem worker_drops_example :
    (worker exUnsignedApi exDispatchClient
      [queuedTx exDispatchClient { TransactionID := "a" } 1,
       queuedTx exDispatchClient { TransactionID := "a" } 2] 0 []).totalCount = 0 ∧
    (worker exUnsignedApi exDispatchClient
      [queuedTx exDispatchClient { TransactionID := "a" } 1,
       queuedTx exDispatchClient { TransactionID := "a" } 2] 0 []).count = 0 ∧
    (worker exUnsignedApi exDispatchClient
      [queuedTx exDispatchClient { TransactionID := "a" } 1,
       queuedTx exDispatchClient { TransactionID := "a" } 2] 0 []).left = [] ∧
    (worker exUnsignedApi exDispatchClient
      [queuedTx exDispatchClient { TransactionID := "a" } 1,
       queuedTx exDispatchClient { TransactionID := "a" } 2] 0 []).calls =
      Call.generateNewAddress ::
        (signCalls exDispatchClient (queuedTx exDispatchClient { TransactionID := "a" } 1) 5 ++
          signCalls exDispatchClient (queuedTx exDispatchClient { TransactionID := "a" } 2) 5) := by
  refine ⟨?_, ?_, ?_, ?_⟩ <;> decide

/-! ## The size of the dispatch queue -/

/-- A round loop that ends normally after at least one round has built the receiver list:
`K` fits a slice. -/
theorem roundsLoop_feasible (api : NodeAPI) (lc : LoadClient) (K R : Nat) (fuel i : Nat)
    (chosen : TransactionOutput) (txs : List Transaction) (h : List Call) (rs : List Round)
    (run : RoundsRun) (hrun : roundsLoop api lc K R fuel i chosen txs h rs = some run)
    (hok : run.outcome = Outcome.ok ()) (hi : i ≤ R) : K ≤ maxSliceLen := by
  cases fuel with
  | zero => simp [roundsLoop] at hrun
  | succ fuel =>
    unfold roundsLoop at hrun
    simp only [hi, if_true] at hrun
    by_cases hcap : maxSliceLen < K
    · simp only [hcap, if_true, Option.some.injEq] at hrun
      subst hrun
      simp at hok
    · omega

/-- The prepared transactions a successful `PrepareOutputs` stores: one for each of the
`total / K` rounds; the other fields of the load client are left alone; and when a round
was run, `K` fits a slice. -/
theorem PrepareOutputs_prepared (api : NodeAPI) (lc : LoadClient) (fuel : Nat)
    (h : List Call) (total K : Nat) (run : PrepareRun)
    (hrun : PrepareOutputs api lc fuel h total K = some run)
    (hok : run.outcome = Outcome.ok ()) :
    K ≠ 0 ∧ run.lc.preparedTransactions.length = total / K ∧
    run.lc.outputsPerTxCount = lc.outputsPerTxCount ∧
    (1 ≤ total / K → K ≤ maxSliceLen) := by
  rcases PrepareOutputs_inv api lc fuel h total K run hrun with ⟨_, hne, _⟩ |
    ⟨outputs, root, rest, lrun, _, _, _, _, _, hK, hloop, _, hokrun, _⟩
  · exact absurd hok hne
  · obtain ⟨hlok, hlc⟩ := hokrun hok
    have hfeas : 1 ≤ total / K → K ≤ maxSliceLen := fun hR =>
      roundsLoop_feasible api lc K (total / K) fuel 1 root [] _ [] lrun hloop hlok hR
    obtain ⟨new, _, _, htxs, hall, _, hcount⟩ :=
      roundsLoop_spec api lc K (total / K) fuel 1 root [] _ [] lrun hloop
    have hR : total / K ≤ total := Nat.div_le_self total K
    generalize total / K = R at hR hcount hfeas ⊢
    obtain ⟨_, hlen⟩ := hcount hlok (by omega) (by unfold uintMod; omega)
    simp only [List.nil_append] at htxs
    have hmap := congrArg List.length (hall hlok)
    simp only [List.length_map] at hmap
    rw [hlc]
    simp only
    rw [htxs]
    exact ⟨hK, by omega, trivial, hfeas⟩

/-- The total `Load` reports is the `uint` product of the number of configured nodes and
`transactionPerNode`. -/
theorem Load_total {σ : Type} (o : Orchestrator)
    (ensureFunds prepareOutputs sendTransactions : σ → Outcome Unit × σ) (now : σ → Nat)
    (s : σ) (res : Result)
    (hok : (Load o ensureFunds prepareOutputs sendTransactions now s).outcome =
      Outcome.ok res) :
    res.TotalTransactions = umul o.nodeConfigs.length o.transactionPerNode := by
  rcases h1 : ensureFunds s with ⟨o1, s1⟩
  cases o1 with
  | error e1 => simp [Load, h1] at hok
  | panic m1 => simp [Load, h1] at hok
  | ok u1 =>
    rcases h2 : prepareOutputs s1 with ⟨o2, s2⟩
    cases o2 with
    | error e2 => simp [Load, h1, h2] at hok
    | panic m2 => simp [Load, h1, h2] at hok
    | ok u2 =>
      rcases h3 : sendTransactions s2 with ⟨o3, s3⟩
      cases o3 with
      | error e3 => simp [Load, h1, h2, h3] at hok
      | panic m3 => simp [Load, h1, h2, h3] at hok
      | ok u3 =>
        simp only [Load, h1, h2, h3, Outcome.ok.injEq] at hok
        subst hok
        rfl

/-- The sum of the lengths of `n` lists of the same length. -/
theorem sum_lengths_const {α : Type} (m : Nat) :
    ∀ (queues : List (List α)), (∀ q ∈ queues, q.length = m) →
      (queues.map List.length).sum = queues.length * m := by
  intro queues
  induction queues with
  | nil => intro _; simp
  | cons q queues ih =>
    intro hq
    simp only [List.map_cons, List.sum_cons, List.length_cons]
    rw [ih (fun q1 hq1 => hq q1 (List.mem_cons_of_mem _ hq1)), hq q (List.mem_cons_self _ _)]
    rw [Nat.succ_mul]
    omega

/-- For `n ≥ 1`, `n` queues of `T / K * K` transactions make up `n * T` exactly when `K`
divides `T`. -/
theorem queued_total_iff (n T K : Nat) (hn : 1 ≤ n) :
    n * (T / K * K) = n * T ↔ K ∣ T := by
  constructor
  · intro heq
    have : T / K * K = T := Nat.eq_of_mul_eq_mul_left (by omega) heq
    exact Dvd.intro_left _ this
  · intro hd
    rw [Nat.div_mul_cancel hd]

/-- C22 (as stated, refuted). Two nodes with `T = 2 ^ 63` transactions per node and
`K = 2 ^ 63 + 1` outputs per transaction, each node holding an unspent output of `2 ^ 63`:
`PrepareOutputs(T, K)` succeeds on both load clients of the orchestrator (no round is
run) and each dispatch queue is empty, `(T / K) * K = 0`; `Load` reports the `uint`
product `2 * 2 ^ 63`, which wraps around to 0. The number of transactions queued over the
two participants, 0, equals the reported `TotalTransactions`, although `K` does not divide
`T`. -/
theorem queued_total_wraps :
    (NewOrchestrator exWrapConfig).loadClients.map (fun p =>
        (PrepareOutputs (exApi exWrapUnspent) p.2 1 []
          (NewOrchestrator exWrapConfig).transactionPerNode
          (NewOrchestrator exWrapConfig).outputPerTransactionCount).map
          (fun r => (r.outcome, (prepareTransactions r.lc 1).map List.length))) =
      [some (Outcome.ok (), some 0), some (Outcome.ok (), some 0)] ∧
    (Load (NewOrchestrator exWrapConfig) (fun s : Unit => (Outcome.ok (), s))
      (fun s => (Outcome.ok (), s)) (fun s => (Outcome.ok (), s)) (fun _ => 0) ()).outcome =
      Outcome.ok { StartTime := 0, EndTime := 0, TotalTransactions := 0, NodeCount := 2 } ∧
    (∀ (σ : Type) (ensureFunds prepareOutputs sendTransactions : σ → Outcome Unit × σ)
        (now : σ → Nat) (s : σ) (res : Result),
      (Load (NewOrchestrator exWrapConfig) ensureFunds prepareOutputs sendTransactions now
        s).outcome = Outcome.ok res →
      res.TotalTransactions = 0 + 0) ∧
    exWrapConfig.TransactionPerNode / exWrapConfig.OutputsPerTransaction *
      exWrapConfig.OutputsPerTransaction = 0 ∧
    ¬ exWrapConfig.OutputsPerTransaction ∣ exWrapConfig.TransactionPerNode := by
  refine ⟨by decide, by decide, ?_, by decide, by decide⟩
  intro σ ensureFunds prepareOutputs sendTransactions now s res hres
  rw [Load_total _ ensureFunds prepareOutputs sendTransactions now s res hres]
  decide

/-- C22 (amended). For a load client configured with `K` outputs per transaction, after a
successful `PrepareOutputs(T, K)` (which implies `K ≥ 1`) `prepareTransactions` returns a
queue of exactly `(T / K) * K` transactions, which is at most `T` and equals `T` exactly
when `K` divides `T`. Hence, for `n ≥ 1` participants with such queues and
`n * T < 2 ^ 64`, the number of queued transactions equals the `uint` product of `n` and
`T`, which is what `Load` reports as `TotalTransactions`, exactly when `K` divides `T`. -/
theorem dispatch_queue_size (api : NodeAPI) (lc : LoadClient) (fuel : Nat) (h : List Call)
    (T K : Nat) (run : PrepareRun) (fuel2 : Nat)
    (hcfg : lc.outputsPerTxCount = K)
    (hrun : PrepareOutputs api lc fuel h T K = some run)
    (hok : run.outcome = Outcome.ok ()) (hfuel : K + 1 ≤ fuel2) :
    1 ≤ K ∧
    ∃ queue, prepareTransactions run.lc fuel2 = some queue ∧
      queue.length = T / K * K ∧ queue.length ≤ T ∧ (queue.length = T ↔ K ∣ T) ∧
      (∀ queues : List (List UnsignedTransaction),
        (∀ q ∈ queues, q.length = queue.length) → 1 ≤ queues.length →
        queues.length * T < uintMod →
        ((queues.map List.length).sum = umul queues.length T ↔ K ∣ T)) ∧
      (∀ (σ : Type) (o : Orchestrator)
          (ensureFunds prepareOutputs sendTransactions : σ → Outcome Unit × σ) (now : σ → Nat)
          (s : σ) (res : Result),
        o.transactionPerNode = T → 1 ≤ o.nodeConfigs.length →
        o.nodeConfigs.length * T < uintMod →
        (Load o ensureFunds prepareOutputs sendTransactions now s).outcome = Outcome.ok res →
        (o.nodeConfigs.length * queue.length = res.TotalTransactions ↔ K ∣ T)) := by
  obtain ⟨hK0, hlen, hK, hfeas⟩ := PrepareOutputs_prepared api lc fuel h T K run hrun hok
  rw [hcfg] at hK
  have hqueue : ∃ queue, prepareTransactions run.lc fuel2 = some queue ∧
      queue.length = T / K * K := by
    by_cases hR : 1 ≤ T / K
    · have hKmax : K + 1 < uintMod := by
        have := hfeas hR
        unfold maxSliceLen at this
        unfold uintMod
        omega
      have hq := prepareLoop_spec run.lc fuel2 (by rw [hK]; exact hKmax)
        (by rw [hK]; exact hfuel) run.lc.preparedTransactions []
      simp only [List.nil_append] at hq
      refine ⟨_, hq, ?_⟩
      rw [flatten_blocks_length (queuedTx run.lc) run.lc.outputsPerTxCount
        run.lc.preparedTransactions, hlen, hK]
    · have h0 : T / K = 0 := by omega
      rw [h0] at hlen
      have hnil : run.lc.preparedTransactions = [] := List.length_eq_zero.mp hlen
      refine ⟨[], ?_, by simp [h0]⟩
      simp [prepareTransactions, hnil, prepareLoop]
  obtain ⟨queue, hq, hqlen⟩ := hqueue
  refine ⟨by omega, queue, hq, hqlen, ?_, ?_, ?_, ?_⟩
  · rw [hqlen]
    exact Nat.div_mul_le_self T K
  · rw [hqlen]
    constructor
    · intro heq
      exact Dvd.intro_left _ heq
    · intro hd
      exact Nat.div_mul_cancel hd
  · intro queues hall hn hlt
    rw [sum_lengths_const _ queues hall, hqlen]
    have hu : umul queues.length T = queues.length * T := by
      unfold umul
      exact Nat.mod_eq_of_lt hlt
    rw [hu]
    exact queued_total_iff queues.length T K hn
  · intro σ o ensureFunds prepareOutputs sendTransactions now s res hT hn hlt hres
    rw [Load_total o ensureFunds prepareOutputs sendTransactions now s res hres, hT, hqlen]
    have hu : umul o.nodeConfigs.length T = o.nodeConfigs.length * T := by
      unfold umul
      exact Nat.mod_eq_of_lt hlt
    rw [hu]
    exact queued_total_iff o.nodeConfigs.length T K hn

/-- Witness of `dispatch_queue_size`: 11 outputs asked for, 5 per transaction, from unspent
outputs of amounts 3 and 20: two rounds, a queue of 10 transactions. -/
theorem dispatch_queue_size_witness :
    exLoadClient.outputsPerTxCount = 5 ∧
    PrepareOutputs (exApi exUnspent) exLoadClient 4 [] 11 5 = some (exPrepare exUnspent 11 5) ∧
    (exPrepare exUnspent 11 5).outcome = Outcome.ok () ∧ 5 + 1 ≤ 6 ∧
    (prepareTransactions (exPrepare exUnspent 11 5).lc 6).map List.length = some 10 ∧
    (1 ≤ 5 ∧
    ∃ queue, prepareTransactions (exPrepare exUnspent 11 5).lc 6 = some queue ∧
      queue.length = 11 / 5 * 5 ∧ queue.length ≤ 11 ∧ (queue.length = 11 ↔ 5 ∣ 11) ∧
      (∀ queues : List (List UnsignedTransaction),
        (∀ q ∈ queues, q.length = queue.length) → 1 ≤ queues.length →
        queues.length * 11 < uintMod →
        ((queues.map List.length).sum = umul queues.length 11 ↔ 5 ∣ 11)) ∧
      (∀ (σ : Type) (o : Orchestrator)
          (ensureFunds prepareOutputs sendTransactions : σ → Outcome Unit × σ) (now : σ → Nat)
          (s : σ) (res : Result),
        o.transactionPerNode = 11 → 1 ≤ o.nodeConfigs.length →
        o.nodeConfigs.length * 11 < uintMod →
        (Load o ensureFunds prepareOutputs sendTransactions now s).outcome = Outcome.ok res →
        (o.nodeConfigs.length * queue.length = res.TotalTransactions ↔ 5 ∣ 11))) :=
  ⟨rfl, rfl, rfl, by decide, by decide,
    dispatch_queue_size (exApi exUnspent) exLoadClient 4 [] 11 5 (exPrepare exUnspent 11 5) 6
      rfl rfl rfl (by decide)⟩

/-- The queue of the witness holds 10 transactions, one less than the 11 asked for; with
10 asked for it holds 10 as well. With `K` beyond the length of a slice and `T ≥ K` the
first round cannot build its receivers and `PrepareOutputs` does not succeed. -/
theorem dispatch_queue_example :
    (prepareTransactions (exPrepare exUnspent 11 5).lc 6).map List.length = some 10 ∧
    (prepareTransactions (exPrepare exUnspent 10 5).lc 6).map List.length = some 10 ∧
    (PrepareOutputs (exApi [{ Amount := 2 ^ 64 - 1 }]) exLoadClient 4 [] (2 ^ 64 - 1)
      (2 ^ 64 - 1)).map (fun r => r.outcome) =
      some (Outcome.panic "growslice: len out of range") := by
  refine ⟨?_, ?_, ?_⟩ <;> decide

end Millix
